import Mathlib

/-!
# Marlin (Morgan SCARA fork): command protocol, motion and kinematics

A shallow embedding of `Marlin_main.cpp`: the serial command protocol
(`enquecommand`, `get_command`, `loop`, the dispatch skeleton of
`process_commands`, `FlushSerialRequestResend`, `ClearToSend`, `Stop`), the
motion code (`get_coordinates`, `clamp_to_software_endstops`, `prepare_move`,
the cases `G10` and `G11`), the kinematics of the arm (`calculate_forward`,
`calculate_delta`), the bed correction (`calc_bed_delta`), the case `M92` and
the grid calibration (`ZCalMoveIntoToPosition`, the cases `M370`, `M371`,
`M372`).

Conventions of the embedding

* characters are natural numbers (byte values); a C string is the list of the
  bytes that precede its terminating NUL;
* `cmdbuffer` is a function from slot and column to byte, so a store into a
  slot is a pointwise function update;
* `long` values (`gcode_N`, `gcode_LastN`) are integers; signed overflow of
  `gcode_LastN + 1` is undefined behaviour in C and is not represented;
* the text of the messages lives in `language.h`; the response sink records
  which message was written, not its wording;
* `BUFSIZE`, `MAX_CMD_SIZE`, `SDSUPPORT`, `strtol`, `strtod` and
  `MYSERIAL.flush` are defined outside `Marlin_main.cpp` and are taken as
  parameters (`Env`);
* `float` values are rational numbers; the results of `sqrt`, `cos`, `sin`,
  `acos` and `atan2` are parameters (`Libm`), so the kinematics is one
  definition for the rational model and for the real numbers;
* in `prepare_move` and in the `calculate_delta` that it calls
  (`calculate_delta_float`) every float operation and every conversion of an
  `int` to `float` is followed by the rounding `fl` of the environment: the
  identity in `stdEnv`, which computes exactly, and the rounding to the nearest
  binary32 number, a tie going to the even one, in `floatEnv` (`fl32`).
  In `calculate_delta_float` a float is a number or NaN (`none`): `acos`
  outside [-1, 1] is NaN, an operation on NaN is NaN and a comparison with
  NaN is false. Infinities and the overflow of the exponent are not
  represented. The other routines compute exactly;
* an array of the four axes X, Y, Z, E is a function of the index 0..3;
  a conversion `(int)x` truncates toward zero, and a value outside the range
  of `int` is undefined behaviour in C and is not represented: `INT_MAX` is a
  parameter of the environment, and `StepsInRange` states that the conversion
  and the loop counter of `prepare_move` stay in the range;
* `X_MAX_POS` and `Y_MAX_POS` are `float` constants, so a quotient such as
  `GPos_X * X_MAX_POS / GCal_X` is exact; code that divides by zero or indexes
  `Arm_lookup` outside the array returns `none`.
-/

namespace Marlin

/-! ## Motion state -/

/-- The routines of libm that the kinematics calls, on the number type `α`. -/
structure Libm (α : Type) where
  sqrt : α → α
  cos : α → α
  sin : α → α
  acos : α → α
  /-- The value of `atan2(y, x)`. -/
  atan2 : α → α → α

/-- The constants of the arm in `Configuration.h`. -/
structure Scara (α : Type) where
  LengthTheta : α
  LengthPsi : α
  LengthThetaExt : α
  LengthPsiExt : α
  SCARA_offset_x : α
  SCARA_offset_y : α
  SCARA_RAD2DEG : α

/-- The arguments of one call `plan_buffer_line(x, y, z, e, feed_rate, active_extruder)`,
the extruder number left out. An angle `x` or `y` is `none` when it is NaN; `z` is `none`
when the bed correction that enters it was read outside `Arm_lookup`. -/
structure Segment where
  x : Option ℚ
  y : Option ℚ
  z : Option ℚ
  e : ℚ
  feed_rate : ℚ

/-- The globals of `Marlin_main.cpp` that describe the motion of the machine, and the calls
of `plan_buffer_line` made so far. -/
structure Machine where
  current_position : Nat → ℚ
  destination : Nat → ℚ
  add_homeing : Nat → ℚ
  axis_scaling : Nat → ℚ
  axis_relative_modes : Nat → Bool
  relative_mode : Bool
  feedrate : ℚ
  next_feedrate : ℚ
  feedmultiply : Int
  min_pos : Nat → ℚ
  max_pos : Nat → ℚ
  SoftEndsEnabled : Bool
  autoretract_enabled : Bool
  retracted : Bool
  retract_length : ℚ
  retract_feedrate : ℚ
  retract_zlift : ℚ
  retract_recover_length : ℚ
  retract_recover_feedrate : ℚ
  Arm_lookup : Nat → Nat → ℚ
  dCal_X_Inv : ℚ
  dCal_Y_Inv : ℚ
  Y_gridcal : Bool
  /-- Number of grid cells a side (`M370 X<n>` sets it to `n - 1`). -/
  GCal_X : Int
  GCal_Y : Int
  /-- The grid point the calibration is at. -/
  GPos_X : Int
  GPos_Y : Int
  /-- Planner settings that `M92` writes; they are declared in `planner.h`. -/
  axis_steps_per_unit : Nat → ℚ
  max_feedrate : Nat → ℚ
  axis_steps_per_sqr_second : Nat → ℚ
  max_e_jerk : ℚ
  /-- The calls of `plan_buffer_line` so far, oldest first. -/
  segments : List Segment

/-- The motion globals as their initialisers set them. `min_pos`, `max_pos` and
`axis_relative_modes` are initialised from macros of `Configuration.h`, and the planner
settings from the configuration store; they start at zero and `false` here. -/
def Machine.init : Machine where
  current_position := fun _ => 0
  destination := fun _ => 0
  add_homeing := fun _ => 0
  axis_scaling := fun _ => 1
  axis_relative_modes := fun _ => false
  relative_mode := false
  feedrate := 1500
  next_feedrate := 0
  feedmultiply := 100
  min_pos := fun _ => 0
  max_pos := fun _ => 0
  SoftEndsEnabled := true
  autoretract_enabled := true
  retracted := false
  retract_length := 3
  retract_feedrate := 17 * 60
  retract_zlift := 4 / 5
  retract_recover_length := 0
  retract_recover_feedrate := 8 * 60
  Arm_lookup := fun _ _ => 0
  dCal_X_Inv := 0
  dCal_Y_Inv := 0
  Y_gridcal := false
  GCal_X := 3
  GCal_Y := 3
  GPos_X := 0
  GPos_Y := 0
  axis_steps_per_unit := fun _ => 0
  max_feedrate := fun _ => 0
  axis_steps_per_sqr_second := fun _ => 0
  max_e_jerk := 0
  segments := []

/-! ## Parameters taken from the configuration and from libc -/

/-- Build constants and library routines that `Marlin_main.cpp` uses but does not define. -/
structure Env where
  /-- Number of slots of the command ring (`Configuration.h`). -/
  BUFSIZE : Nat
  /-- Size in bytes of one slot (`Configuration.h`). -/
  MAX_CMD_SIZE : Nat
  /-- Whether the code under `#ifdef SDSUPPORT` is compiled in. -/
  SDSUPPORT : Bool
  /-- The value of `strtol(p, NULL, 10)` on the C string `p`. -/
  strtol : List Nat → Int
  /-- The value of `(int)strtod(p, NULL)` on the C string `p`. -/
  strtod_int : List Nat → Int
  /-- What `MYSERIAL.flush()` leaves of the pending receive bytes. -/
  flush : List Nat → List Nat
  /-- The value of `strtod(p, NULL)` on the C string `p`. -/
  strtod : List Nat → ℚ
  /-- The libm routines on `float`. -/
  libm : Libm ℚ
  /-- The constants of the arm. -/
  scara : Scara ℚ
  /-- Whether the code under `#ifdef FWRETRACT` is compiled in. -/
  FWRETRACT : Bool
  /-- Smallest extruder move that counts as a retract (`Configuration_adv.h`). -/
  MIN_RETRACT : ℚ
  /-- Number of segments planned per second of a move (`Configuration.h`). -/
  DELTA_SEGMENTS_PER_SECOND : ℚ
  min_software_endstops : Bool
  max_software_endstops : Bool
  X_MIN_POS : ℚ
  X_MAX_POS : ℚ
  Y_MIN_POS : ℚ
  Y_MAX_POS : ℚ
  /-- Number of rows of `Arm_lookup`. -/
  X_ARMLOOKUP_LENGTH : Nat
  /-- Number of columns of `Arm_lookup`. -/
  Y_ARMLOOKUP_LENGTH : Nat
  /-- The conversion that an assignment to `axis_steps_per_sqr_second` applies to a `float`:
  the identity if the array, declared in `planner.h`, holds floats, a truncation if it holds
  integers. -/
  steps_cast : ℚ → ℚ
  /-- The rounding of the exact result of an operation on `float`s to the `float` that the
  hardware stores (the format is a property of the platform; on the AVR `float` and `double`
  are both binary32). The identity stands for exact arithmetic. -/
  fl : ℚ → ℚ
  /-- Zero is a `float`. -/
  fl_zero : fl 0 = 0
  /-- The `float` nearest to 0.000001 is positive. -/
  fl_small : 0 < fl (1 / 1000000)
  /-- The largest `int` (32767 on the AVR). -/
  INT_MAX : Int

/-! ## Response sink -/

/-- One line written to the serial response sink. -/
inductive Resp where
  /-- `SERIAL_PROTOCOLLNPGM(MSG_OK)`. -/
  | ok
  /-- `MSG_RESEND` followed by the requested line number. -/
  | resend (n : Int)
  /-- `SERIAL_ERROR_START`, `MSG_ERR_LINE_NO`, last line number. -/
  | err_line_no (last : Int)
  /-- `SERIAL_ERROR_START`, `MSG_ERR_CHECKSUM_MISMATCH`, last line number. -/
  | err_checksum_mismatch (last : Int)
  /-- `SERIAL_ERROR_START`, `MSG_ERR_NO_CHECKSUM`, last line number. -/
  | err_no_checksum (last : Int)
  /-- `SERIAL_ERROR_START`, `MSG_ERR_NO_LINENUMBER_WITH_CHECKSUM`, last line number. -/
  | err_no_linenumber_with_checksum (last : Int)
  /-- `SERIAL_ERRORLNPGM(MSG_ERR_STOPPED)`. -/
  | err_stopped
  /-- Any other text line (echo, status, report). -/
  | echo (text : List Nat)
  deriving DecidableEq, Repr

/-- A line written through the `SERIAL_ERROR` macros. -/
def Resp.isError : Resp → Bool
  | Resp.err_line_no _ => true
  | Resp.err_checksum_mismatch _ => true
  | Resp.err_no_checksum _ => true
  | Resp.err_no_linenumber_with_checksum _ => true
  | Resp.err_stopped => true
  | _ => false

/-- A retransmission request. -/
def Resp.isResend : Resp → Bool
  | Resp.resend _ => true
  | _ => false

/-! ## State -/

/-- The globals of `Marlin_main.cpp` that the command protocol reads or writes,
together with the serial receive buffer, the SD file being read and the response sink. -/
structure State where
  cmdbuffer : Nat → Nat → Nat
  fromsd : Nat → Bool
  bufindr : Nat
  bufindw : Nat
  buflen : Nat
  serial_count : Nat
  comment_mode : Bool
  gcode_N : Int
  gcode_LastN : Int
  Stopped_gcode_LastN : Int
  Stopped : Bool
  dCal_X : Rat
  /-- `card.saving`. -/
  card_saving : Bool
  /-- `card.sdprinting`. -/
  card_sdprinting : Bool
  /-- The values `card.get()` will return; `card.eof()` holds when none is left. -/
  card_file : List Int
  /-- Bytes received on the serial line and not read yet (`MYSERIAL.available() > 0` iff non-empty). -/
  rx : List Nat
  /-- Lines written to the serial port so far, oldest first. -/
  out : List Resp
  /-- The motion globals. -/
  m : Machine

/-- The globals as their initialisers set them. -/
def State.init : State where
  cmdbuffer := fun _ _ => 0
  fromsd := fun _ => false
  bufindr := 0
  bufindw := 0
  buflen := 0
  serial_count := 0
  comment_mode := false
  gcode_N := 0
  gcode_LastN := 0
  Stopped_gcode_LastN := 0
  Stopped := false
  dCal_X := 0
  card_saving := false
  card_sdprinting := false
  card_file := []
  rx := []
  out := []
  m := Machine.init

/-! ## C string helpers -/

/-- The store `buf[slot][col] = v`. -/
def setCell (buf : Nat → Nat → Nat) (slot col v : Nat) : Nat → Nat → Nat :=
  fun i j => if i = slot ∧ j = col then v else buf i j

/-- The store `flags[slot] = v`. -/
def setFlag (flags : Nat → Bool) (slot : Nat) (v : Bool) : Nat → Bool :=
  fun i => if i = slot then v else flags i

/-- Bytes of `row` from column `i` up to the first NUL, reading at most `fuel` columns. -/
def cstrFrom (row : Nat → Nat) : Nat → Nat → List Nat
  | _, 0 => []
  | i, fuel + 1 => if row i = 0 then [] else row i :: cstrFrom row (i + 1) fuel

/-- The C string held in a slot of `MAX_CMD_SIZE` bytes. -/
def cstr (E : Env) (row : Nat → Nat) : List Nat :=
  cstrFrom row 0 E.MAX_CMD_SIZE

/-- The function `strchr(s, code)`: the suffix of `s` that starts at the first
occurrence of `code`, or `none` for `NULL`. -/
def strchr : List Nat → Nat → Option (List Nat)
  | [], _ => none
  | c :: cs, code => if c = code then some (c :: cs) else strchr cs code

/-- Whether `s` begins with `needle`. -/
def startsWith : List Nat → List Nat → Bool
  | _, [] => true
  | [], _ :: _ => false
  | c :: cs, d :: ds => c = d && startsWith cs ds

/-- Whether `strstr(s, needle) != NULL`. -/
def strstr : List Nat → List Nat → Bool
  | [], needle => startsWith [] needle
  | c :: cs, needle => startsWith (c :: cs) needle || strstr cs needle

/-- The string `"M110"`. -/
def M110 : List Nat := [77, 49, 49, 48]

/-- The string `"M29"`. -/
def M29 : List Nat := [77, 50, 57]

/-- The loop `while(buf[count] != '*') checksum = checksum^buf[count++];` with `byte checksum`,
run on a string that contains `'*'`. -/
def checksum_loop : List Nat → Nat → Nat
  | [], checksum => checksum
  | c :: cs, checksum => if c = 42 then checksum else checksum_loop cs ((checksum ^^^ c) % 256)

/-- The bytes of a text. -/
def bytes (t : String) : List Nat := t.toList.map Char.toNat

/-! ## Responses -/

/-- Function `ClearToSend` (the inactivity timestamp is not represented). -/
def ClearToSend (E : Env) (s : State) : State :=
  if E.SDSUPPORT = true ∧ s.fromsd s.bufindr = true then s
  else { s with out := s.out ++ [Resp.ok] }

/-- Function `FlushSerialRequestResend`. -/
def FlushSerialRequestResend (E : Env) (s : State) : State :=
  ClearToSend E { s with rx := E.flush s.rx, out := s.out ++ [Resp.resend (s.gcode_LastN + 1)] }

/-- Function `Stop` (the heaters and the LCD are not represented). -/
def Stop (s : State) : State :=
  if s.Stopped = false then
    { s with Stopped := true, Stopped_gcode_LastN := s.gcode_LastN,
             out := s.out ++ [Resp.err_stopped] }
  else s

/-! ## enquecommand -/

/-- The copy `strcpy(&buf[slot][0], cmd)`. -/
def strcpy (buf : Nat → Nat → Nat) (slot : Nat) (cmd : List Nat) : Nat → Nat → Nat :=
  fun i j => if i = slot ∧ j ≤ cmd.length then (cmd ++ [0]).getD j 0 else buf i j

/-- Function `enquecommand` (and `enquecommand_P`). The argument is a C string, so it
holds no NUL, and it must fit a slot: a longer string would make `strcpy` write past the slot,
for which the result is `none`. -/
def enquecommand (E : Env) (cmd : List Nat) (s : State) : Option State :=
  if s.buflen < E.BUFSIZE then
    if cmd.length < E.MAX_CMD_SIZE ∧ 0 ∉ cmd then
      some { s with cmdbuffer := strcpy s.cmdbuffer s.bufindw cmd,
                    out := s.out ++ [Resp.echo cmd],
                    bufindw := (s.bufindw + 1) % E.BUFSIZE,
                    buflen := s.buflen + 1 }
    else none
  else some s

/-! ## get_command -/

/-- Lines 517-540 of `get_command`: the early answer to `G0`..`G3`. -/
def ack_G (E : Env) (s : State) : State :=
  match strchr (cstr E (s.cmdbuffer s.bufindw)) 71 with
  | some p =>
    let code := E.strtod_int p.tail
    if code = 0 ∨ code = 1 ∨ code = 2 ∨ code = 3 then
      if s.Stopped = false then
        if E.SDSUPPORT = true ∧ s.card_saving = true then s
        else { s with out := s.out ++ [Resp.ok] }
      else { s with out := s.out ++ [Resp.err_stopped] }
    else s
  | none => s

/-- Lines 517-544 of `get_command`: answer `G0`..`G3`, advance the write index, clear the
character count. -/
def enqueue_line (E : Env) (s : State) : State :=
  let s := ack_G E s
  { s with bufindw := (s.bufindw + 1) % E.BUFSIZE, buflen := s.buflen + 1, serial_count := 0 }

/-- Lines 454-544 of `get_command`: what happens when a line terminator is read. The second
component tells whether `get_command` returns. -/
def end_of_line (E : Env) (s : State) : State × Bool :=
  if s.serial_count = 0 then ({ s with comment_mode := false }, true)
  else
    let s : State := { s with cmdbuffer := setCell s.cmdbuffer s.bufindw s.serial_count 0 }
    if s.comment_mode = false then
      let s : State := { s with comment_mode := false, fromsd := setFlag s.fromsd s.bufindw false }
      let line := cstr E (s.cmdbuffer s.bufindw)
      match strchr line 78 with
      | some p =>
        let s : State := { s with gcode_N := E.strtol p.tail }
        if s.gcode_N ≠ s.gcode_LastN + 1 ∧ strstr line M110 = false then
          let s : State := { s with out := s.out ++ [Resp.err_line_no s.gcode_LastN] }
          let s : State := FlushSerialRequestResend E s
          ({ s with serial_count := 0 }, true)
        else
          match strchr line 42 with
          | some q =>
            let checksum := checksum_loop line 0
            if E.strtod_int q.tail ≠ (checksum : Int) then
              let s : State := { s with out := s.out ++ [Resp.err_checksum_mismatch s.gcode_LastN] }
              let s : State := FlushSerialRequestResend E s
              ({ s with serial_count := 0 }, true)
            else
              (enqueue_line E { s with gcode_LastN := s.gcode_N }, false)
          | none =>
            let s : State := { s with out := s.out ++ [Resp.err_no_checksum s.gcode_LastN] }
            let s : State := FlushSerialRequestResend E s
            ({ s with serial_count := 0 }, true)
      | none =>
        match strchr line 42 with
        | some _ =>
          ({ s with out := s.out ++ [Resp.err_no_linenumber_with_checksum s.gcode_LastN],
                    serial_count := 0 }, true)
        | none => (enqueue_line E s, false)
    else ({ s with serial_count := 0 }, false)

/-- Lines 548-549 of `get_command`: a character that does not end the line. -/
def store_char (c : Nat) (s : State) : State :=
  let s : State := if c = 59 then { s with comment_mode := true } else s
  if s.comment_mode = false then
    { s with cmdbuffer := setCell s.cmdbuffer s.bufindw s.serial_count c,
             serial_count := s.serial_count + 1 }
  else s

/-- Whether the character read ends the line (lines 449-452). -/
def is_eol (E : Env) (c : Nat) (s : State) : Bool :=
  decide (c = 10 ∨ c = 13 ∨ (c = 58 ∧ s.comment_mode = false) ∨ s.serial_count ≥ E.MAX_CMD_SIZE - 1)

/-- The first `while` loop of `get_command`, over the pending serial bytes. The second
component tells whether `get_command` returned from inside the loop. -/
def serial_loop (E : Env) : List Nat → State → State × Bool
  | [], s => (s, false)
  | c :: rest, s =>
    if s.buflen < E.BUFSIZE then
      let s : State := { s with rx := rest }
      if is_eol E c s = true then
        let r := end_of_line E s
        if r.2 = true then r else serial_loop E rest r.1
      else serial_loop E rest (store_char c s)
    else (s, false)

/-- The text written when the SD file has been read to its end (`MSG_FILE_PRINTED` and the
elapsed time, whose wording is not represented). -/
def file_printed : List Resp := [Resp.echo [], Resp.echo []]

/-- Lines 564-579 of `get_command`: at the end of the SD file the print is reported as
finished. `card.printingHasFinished()` clears `card.sdprinting`; `card.checkautostart(true)`
is not represented. -/
def sd_eof (rest : List Int) (s : State) : State :=
  if rest = [] then { s with out := s.out ++ file_printed, card_sdprinting := false } else s

/-- Lines 585-592 of `get_command`: a line read from the SD file is enqueued. -/
def sd_enqueue (E : Env) (s : State) : State :=
  let s : State := { s with cmdbuffer := setCell s.cmdbuffer s.bufindw s.serial_count 0 }
  let s : State :=
    { s with fromsd := setFlag s.fromsd s.bufindw true,
             buflen := s.buflen + 1,
             bufindw := (s.bufindw + 1) % E.BUFSIZE }
  { s with comment_mode := false, serial_count := 0 }

/-- The second `while` loop of `get_command`, over the SD file. -/
def sd_loop (E : Env) : List Int → State → State
  | [], s => s
  | n :: rest, s =>
    if s.buflen < E.BUFSIZE then
      let s : State := { s with card_file := rest }
      let c := (n % 256).toNat
      if is_eol E c s = true ∨ n = -1 then
        let s : State := sd_eof rest s
        if s.serial_count = 0 then { s with comment_mode := false }
        else sd_loop E rest (sd_enqueue E s)
      else sd_loop E rest (store_char c s)
    else s

/-- Function `get_command`. -/
def get_command (E : Env) (s : State) : State :=
  let r := serial_loop E s.rx s
  if r.2 = true then r.1
  else
    let s := r.1
    if E.SDSUPPORT = true then
      if s.card_sdprinting = false ∨ s.serial_count ≠ 0 then s
      else sd_loop E s.card_file s
    else s

/-! ## Kinematics of the arm -/

/-- `RADIANS(x)`. -/
def RADIANS {α : Type} [LinearOrderedField α] (K : Scara α) (x : α) : α :=
  x * (1 / K.SCARA_RAD2DEG)

/-- `sqr(x)`. -/
def sqr {α : Type} [LinearOrderedField α] (x : α) : α := x * x

/-- The local `s` of `calculate_forward`: the distance between the two elbows. -/
def forward_s {α : Type} [LinearOrderedField α] (L : Libm α) (K : Scara α)
    (f_delta : Nat → α) : α :=
  L.sqrt (sqr K.LengthTheta + sqr K.LengthPsi
    - 2 * K.LengthTheta * K.LengthPsi * L.cos (RADIANS K (f_delta 1 - f_delta 0)))

/-- The local `P1 = B2 + C2` of `calculate_forward`: the angle at the theta elbow. -/
def forward_P1 {α : Type} [LinearOrderedField α] (L : Libm α) (K : Scara α)
    (f_delta : Nat → α) : α :=
  let s := forward_s L K f_delta
  let sSquared := sqr s
  let C2 := L.acos ((sqr K.LengthPsiExt - sSquared - sqr K.LengthThetaExt)
    / (-2 * s * K.LengthThetaExt))
  let B2 := L.acos ((sqr K.LengthPsi - sSquared - sqr K.LengthTheta) / (-2 * s * K.LengthTheta))
  B2 + C2

/-- The local `p` of `calculate_forward`: the distance of the tool from the shoulder. -/
def forward_p {α : Type} [LinearOrderedField α] (L : Libm α) (K : Scara α)
    (f_delta : Nat → α) : α :=
  L.sqrt (sqr K.LengthTheta + sqr K.LengthThetaExt
    - 2 * K.LengthTheta * K.LengthThetaExt * L.cos (forward_P1 L K f_delta))

/-- The local `D` of `calculate_forward`: the angle between the theta arm and the tool. -/
def forward_D {α : Type} [LinearOrderedField α] (L : Libm α) (K : Scara α)
    (f_delta : Nat → α) : α :=
  let p := forward_p L K f_delta
  L.acos ((sqr K.LengthThetaExt - sqr K.LengthTheta - sqr p) / (-2 * K.LengthTheta * p))

/-- `calculate_forward(f_delta)`: the values it stores in `delta[X_AXIS]` and
`delta[Y_AXIS]`, from the angles `f_delta[X_AXIS]` (theta) and `f_delta[Y_AXIS]` (psi). -/
def calculate_forward {α : Type} [LinearOrderedField α] (L : Libm α) (K : Scara α)
    (f_delta : Nat → α) : α × α :=
  let p := forward_p L K f_delta
  let D := forward_D L K f_delta
  let rho := RADIANS K (f_delta 0) + D
  (p * L.cos rho + K.SCARA_offset_x, p * L.sin rho + K.SCARA_offset_y)

/-- `MAX_THETA`. -/
def MAX_THETA {α : Type} [LinearOrderedField α] : α := 150

/-- `MIN_THETA`. -/
def MIN_THETA {α : Type} [LinearOrderedField α] : α := -50

/-- `MAX_PSI`. -/
def MAX_PSI {α : Type} [LinearOrderedField α] : α := 245

/-- `MIN_PSI`. -/
def MIN_PSI {α : Type} [LinearOrderedField α] : α := -30

/-- `SMALLEST_DIFFERENCE_ANGLE`. -/
def SMALLEST_DIFFERENCE_ANGLE {α : Type} [LinearOrderedField α] : α := 30

/-- What `calculate_delta` stores in `delta` and the lines it writes to the serial port. The
number that follows an `out of bounds=` text is not represented. -/
structure Delta (α : Type) where
  x : α
  y : α
  z : Option α
  echo : List (List Nat)

/-- The first part of `calculate_delta`: `SCARA_theta` and `SCARA_psi` before the angle
limits are applied, in exact arithmetic and with `acos` total; `raw_angles_float` is the
computation on floats, where `acos` can be NaN. -/
def raw_angles {α : Type} [LinearOrderedField α] (L : Libm α) (K : Scara α)
    (add_homeing : Nat → α) (cartesian : Nat → α) : α × α :=
  let SCARA_pos_x := cartesian 0 - K.SCARA_offset_x
  let SCARA_pos_y := cartesian 1 - K.SCARA_offset_y
  let rho := L.atan2 SCARA_pos_y SCARA_pos_x
  let pSquared := sqr SCARA_pos_x + sqr SCARA_pos_y
  let p := L.sqrt pSquared
  let D := L.acos ((sqr K.LengthThetaExt - sqr K.LengthTheta - pSquared)
    / (-2 * K.LengthTheta * p))
  let C1 := L.acos ((sqr K.LengthPsiExt - sqr K.LengthPsi - pSquared) / (-2 * K.LengthPsi * p))
  ((rho - D) * K.SCARA_RAD2DEG - add_homeing 0, (rho + C1) * K.SCARA_RAD2DEG - add_homeing 1)

/-- The block of `calculate_delta` that widens an angle between psi and theta that is too
small. -/
def widen {α : Type} [LinearOrderedField α] (a : α × α) : (α × α) × List (List Nat) :=
  let SCARA_theta := a.1
  let SCARA_psi := a.2
  if SCARA_psi - SCARA_theta < SMALLEST_DIFFERENCE_ANGLE then
    let echo := [bytes "angle between psi and theta too small"]
    if SCARA_theta + SMALLEST_DIFFERENCE_ANGLE < MAX_PSI then
      ((SCARA_theta, SCARA_theta + SMALLEST_DIFFERENCE_ANGLE), echo)
    else if SCARA_psi - SMALLEST_DIFFERENCE_ANGLE > MIN_THETA then
      ((SCARA_psi - SMALLEST_DIFFERENCE_ANGLE, SCARA_psi), echo)
    else
      ((MAX_THETA, MAX_THETA + SMALLEST_DIFFERENCE_ANGLE), echo)
  else ((SCARA_theta, SCARA_psi), [])

/-- The two blocks of `calculate_delta` that bring theta and psi into their ranges, for
angles that are numbers; `limit_angles_float` covers NaN. -/
def limit_angles {α : Type} [LinearOrderedField α] (a : α × α) : (α × α) × List (List Nat) :=
  let SCARA_theta := a.1
  let SCARA_psi := a.2
  let t : α × List (List Nat) :=
    if SCARA_theta > MAX_THETA ∨ SCARA_theta < MIN_THETA then
      (min MAX_THETA (max MIN_THETA SCARA_theta), [bytes "theta out of bounds="])
    else (SCARA_theta, [])
  let p : α × List (List Nat) :=
    if SCARA_psi > MAX_PSI ∨ SCARA_psi < MIN_PSI then
      (min MAX_PSI (max MIN_PSI SCARA_psi), [bytes "psi out of bounds="])
    else (SCARA_psi, [])
  ((t.1, p.1), t.2 ++ p.2)

/-- `calculate_delta(cartesian)` in exact arithmetic, for computed angles that are numbers.
`bed` is the value of `calc_bed_delta(cartesian)`, which is used only when `Y_gridcal` is
off. -/
def calculate_delta {α : Type} [LinearOrderedField α] (L : Libm α) (K : Scara α)
    (add_homeing : Nat → α) ( Y_gridcal : Bool) (bed : Option α) (cartesian : Nat → α) :
    Delta α :=
  let w := widen (raw_angles L K add_homeing cartesian)
  let l := limit_angles w.1
  { x := l.1.1
    y := l.1.2
    z := if Y_gridcal = true then some (cartesian 2) else bed.map (fun b => cartesian 2 + b)
    echo := w.2 ++ l.2 }

/-! ## calculate_delta on floats

The routine as the hardware runs it: a `float` is a number or NaN (`none`), every
arithmetic operation is followed by the rounding `fl`, and a comparison with NaN is false.
Infinities are not represented. With `fl` the identity and computed angles that are numbers
it is `calculate_delta` (`calculate_delta_float_exact`). -/

/-- The comparison `a < b` of two floats: false when either is NaN. -/
def nan_lt {α : Type} [LinearOrderedField α] (a b : Option α) : Bool :=
  match a, b with
  | some x, some y => decide (x < y)
  | _, _ => false

/-- The sum `a + b` of two floats. -/
def nan_add {α : Type} [LinearOrderedField α] (fl : α → α) (a b : Option α) : Option α :=
  match a, b with
  | some x, some y => some (fl (x + y))
  | _, _ => none

/-- The difference `a - b` of two floats. -/
def nan_sub {α : Type} [LinearOrderedField α] (fl : α → α) (a b : Option α) : Option α :=
  match a, b with
  | some x, some y => some (fl (x - y))
  | _, _ => none

/-- The product `a * b` of two floats. -/
def nan_mul {α : Type} [LinearOrderedField α] (fl : α → α) (a b : Option α) : Option α :=
  match a, b with
  | some x, some y => some (fl (x * y))
  | _, _ => none

/-- The value `acos(num / den)`. It is NaN when the quotient is outside [-1, 1], and when
`den` is 0: the quotient is then NaN or infinite, and `acos` of either is NaN. -/
def nan_acos {α : Type} [LinearOrderedField α] (fl : α → α) (L : Libm α) (num den : α) :
    Option α :=
  if den = 0 then none
  else if -1 ≤ fl (num / den) ∧ fl (num / den) ≤ 1 then some (L.acos (fl (num / den)))
  else none

/-- The first part of `calculate_delta` on floats: `SCARA_theta` and `SCARA_psi` before the
angle limits are applied. -/
def raw_angles_float {α : Type} [LinearOrderedField α] (fl : α → α) (L : Libm α) (K : Scara α)
    (add_homeing : Nat → α) (cartesian : Nat → α) : Option α × Option α :=
  let SCARA_pos_x := fl (cartesian 0 - K.SCARA_offset_x)
  let SCARA_pos_y := fl (cartesian 1 - K.SCARA_offset_y)
  let rho := L.atan2 SCARA_pos_y SCARA_pos_x
  let pSquared := fl (fl (sqr SCARA_pos_x) + fl (sqr SCARA_pos_y))
  let p := L.sqrt pSquared
  let D := nan_acos fl L
    (fl (fl (fl (sqr K.LengthThetaExt) - fl (sqr K.LengthTheta)) - pSquared))
    (fl (fl (-2 * K.LengthTheta) * p))
  let C1 := nan_acos fl L
    (fl (fl (fl (sqr K.LengthPsiExt) - fl (sqr K.LengthPsi)) - pSquared))
    (fl (fl (-2 * K.LengthPsi) * p))
  (nan_sub fl (nan_mul fl (nan_sub fl (some rho) D) (some K.SCARA_RAD2DEG))
      (some (add_homeing 0)),
   nan_sub fl (nan_mul fl (nan_add fl (some rho) C1) (some K.SCARA_RAD2DEG))
      (some (add_homeing 1)))

/-- The block of `calculate_delta` that widens an angle between psi and theta that is too
small, on floats. -/
def widen_float {α : Type} [LinearOrderedField α] (fl : α → α) (a : Option α × Option α) :
    (Option α × Option α) × List (List Nat) :=
  let SCARA_theta := a.1
  let SCARA_psi := a.2
  if nan_lt (nan_sub fl SCARA_psi SCARA_theta) (some SMALLEST_DIFFERENCE_ANGLE) = true then
    let echo := [bytes "angle between psi and theta too small"]
    if nan_lt (nan_add fl SCARA_theta (some SMALLEST_DIFFERENCE_ANGLE)) (some MAX_PSI) = true
    then ((SCARA_theta, nan_add fl SCARA_theta (some SMALLEST_DIFFERENCE_ANGLE)), echo)
    else if nan_lt (some MIN_THETA) (nan_sub fl SCARA_psi (some SMALLEST_DIFFERENCE_ANGLE))
        = true
    then ((nan_sub fl SCARA_psi (some SMALLEST_DIFFERENCE_ANGLE), SCARA_psi), echo)
    else
      ((some MAX_THETA, nan_add fl (some MAX_THETA) (some SMALLEST_DIFFERENCE_ANGLE)), echo)
  else ((SCARA_theta, SCARA_psi), [])

/-- The two blocks of `calculate_delta` that bring theta and psi into their ranges, on
floats. A block is entered only when one of its comparisons holds, so only for a number;
`max` and `min` are then those of numbers. -/
def limit_angles_float {α : Type} [LinearOrderedField α] (a : Option α × Option α) :
    (Option α × Option α) × List (List Nat) :=
  let SCARA_theta := a.1
  let SCARA_psi := a.2
  let t : Option α × List (List Nat) :=
    if nan_lt (some MAX_THETA) SCARA_theta = true ∨ nan_lt SCARA_theta (some MIN_THETA) = true
    then (SCARA_theta.map (fun v => min MAX_THETA (max MIN_THETA v)),
      [bytes "theta out of bounds="])
    else (SCARA_theta, [])
  let p : Option α × List (List Nat) :=
    if nan_lt (some MAX_PSI) SCARA_psi = true ∨ nan_lt SCARA_psi (some MIN_PSI) = true
    then (SCARA_psi.map (fun v => min MAX_PSI (max MIN_PSI v)), [bytes "psi out of bounds="])
    else (SCARA_psi, [])
  ((t.1, p.1), t.2 ++ p.2)

/-- What `calculate_delta` stores in `delta`, as floats, and the lines it writes: `none` for
an angle is NaN, `none` for Z is a read outside `Arm_lookup`. -/
structure FloatDelta (α : Type) where
  x : Option α
  y : Option α
  z : Option α
  echo : List (List Nat)

/-- `calculate_delta(cartesian)` on floats. `bed` is the value of
`calc_bed_delta(cartesian)`, which is used only when `Y_gridcal` is off. -/
def calculate_delta_float {α : Type} [LinearOrderedField α] (fl : α → α) (L : Libm α)
    (K : Scara α) (add_homeing : Nat → α) ( Y_gridcal : Bool) (bed : Option α)
    (cartesian : Nat → α) : FloatDelta α :=
  let w := widen_float fl (raw_angles_float fl L K add_homeing cartesian)
  let l := limit_angles_float w.1
  { x := l.1.1
    y := l.1.2
    z := if Y_gridcal = true then some (cartesian 2)
      else bed.map (fun b => fl (cartesian 2 + b))
    echo := w.2 ++ l.2 }

/-! ## Bed levelling -/

/-- The conversion `(int)x` of a `float`: truncation toward zero. -/
def trunc (q : ℚ) : Int := if 0 ≤ q then Int.floor q else Int.ceil q

/-- The read `Arm_lookup[i][j]`; `none` when the indices are outside the array, which is
undefined behaviour in C. -/
def lookup (E : Env) (m : Machine) (i j : Int) : Option ℚ :=
  if 0 ≤ i ∧ i < E.X_ARMLOOKUP_LENGTH ∧ 0 ≤ j ∧ j < E.Y_ARMLOOKUP_LENGTH then
    some (m.Arm_lookup i.toNat j.toNat)
  else none

/-- `calc_bed_delta(cartesian)`. -/
def calc_bed_delta (E : Env) (m : Machine) (cartesian : Nat → ℚ) : Option ℚ :=
  if cartesian 0 < E.X_MIN_POS ∨ cartesian 1 < E.Y_MIN_POS ∨
      cartesian 0 > E.X_MAX_POS ∨ cartesian 1 > E.Y_MAX_POS then some 0
  else
    let CartX : Int := trunc (cartesian 0 * m.dCal_X_Inv)
    let fCartX : ℚ := (trunc (cartesian 0) : ℚ) * m.dCal_X_Inv - (CartX : ℚ)
    let CartY : Int := trunc (cartesian 1 * m.dCal_Y_Inv)
    let fCartY : ℚ := (trunc (cartesian 1) : ℚ) * m.dCal_Y_Inv - (CartY : ℚ)
    let fCartXFrom1 : ℚ := 1 - fCartX
    let CartXPlus1 : Int := CartX + 1
    let CartYPlus1 : Int := CartY + 1
    match lookup E m CartX CartY, lookup E m CartXPlus1 CartY, lookup E m CartX CartYPlus1,
      lookup E m CartXPlus1 CartYPlus1 with
    | some a00, some a10, some a01, some a11 =>
      let dCartX1 : ℚ := fCartXFrom1 * a00 + fCartX * a10
      let dCartX2 : ℚ := fCartXFrom1 * a01 + fCartX * a11
      some (dCartX1 + fCartY * (dCartX2 - dCartX1))
    | _, _, _, _ => none

/-! ## get_coordinates, clamp_to_software_endstops, prepare_move -/

/-- `NUM_AXIS`. -/
def NUM_AXIS : Nat := 4

/-- `axis_codes`: the letters X, Y, Z, E. -/
def axis_codes : Nat → Nat
  | 0 => 88
  | 1 => 89
  | 2 => 90
  | _ => 69

/-- The array `a` after the assignment `a[i] = v`. -/
def setAxis (a : Nat → ℚ) (i : Nat) (v : ℚ) : Nat → ℚ :=
  fun k => if k = i then v else a k

/-- `code_seen(code)` on the command being processed: the rest of the line from the first
occurrence of `code` (the string at `strchr_pointer`), if there is one. -/
def code_seen (E : Env) (s : State) (code : Nat) : Option (List Nat) :=
  strchr (cstr E (s.cmdbuffer s.bufindr)) code

/-- `code_value()` when `strchr_pointer` points to the string `p`. -/
def code_value (E : Env) (p : List Nat) : ℚ := E.strtod p.tail

/-- The value that one round of the axis loop of `get_coordinates` assigns to
`destination[i]`. -/
def axis_value (E : Env) (apply_scaling : Bool) (i : Nat) (s : State) : ℚ :=
  match code_seen E s (axis_codes i) with
  | some p =>
    let scale : ℚ := if apply_scaling = true then s.m.axis_scaling i else 1
    let relative : ℚ := if s.m.axis_relative_modes i = true ∨ s.m.relative_mode = true then 1 else 0
    code_value E p * scale + relative * s.m.current_position i
  | none => s.m.current_position i

/-- One round of the axis loop of `get_coordinates`. -/
def resolve_axis (E : Env) (apply_scaling : Bool) (i : Nat) (s : State) : State :=
  { s with m := { s.m with destination :=
                    setAxis s.m.destination i (axis_value E apply_scaling i s) } }

/-- `seen[i]` at the end of the axis loop of `get_coordinates`. -/
def seen (E : Env) (s : State) (i : Nat) : Bool := (code_seen E s (axis_codes i)).isSome

/-- The block of `get_coordinates` under `#ifdef FWRETRACT`: an extruder-only move is turned
into a firmware retract or recover. -/
def auto_retract (E : Env) (s : State) : State :=
  if s.m.autoretract_enabled = true then
    if ¬ (seen E s 0 = true ∨ seen E s 1 = true ∨ seen E s 2 = true) ∧ seen E s 3 = true then
      let echange : ℚ := s.m.destination 3 - s.m.current_position 3
      if echange < -E.MIN_RETRACT then
        if s.m.retracted = false then
          let lifted : Nat → ℚ := setAxis s.m.destination 2 (s.m.destination 2 + s.m.retract_zlift)
          let m : Machine := { s.m with destination := lifted }
          let correctede : ℚ := -echange - m.retract_length
          let corrected : Nat → ℚ := setAxis m.current_position 3 (m.current_position 3 + -correctede)
          let m : Machine := { m with current_position := corrected }
          { s with m := { m with feedrate := m.retract_feedrate, retracted := true } }
        else s
      else if echange > E.MIN_RETRACT then
        if s.m.retracted = true then
          let correctede : ℚ := -echange + 1 * s.m.retract_length + s.m.retract_recover_length
          let corrected : Nat → ℚ :=
            setAxis s.m.current_position 3 (s.m.current_position 3 + correctede)
          let m : Machine := { s.m with current_position := corrected }
          { s with m := { m with feedrate := m.retract_recover_feedrate, retracted := false } }
        else s
      else s
    else s
  else s

/-- The `F` word of `get_coordinates`. -/
def resolve_feedrate (E : Env) (s : State) : State :=
  match code_seen E s 70 with
  | some p =>
    let s : State := { s with m := { s.m with next_feedrate := code_value E p } }
    if s.m.next_feedrate > 0 then { s with m := { s.m with feedrate := s.m.next_feedrate } }
    else s
  | none => s

/-- `get_coordinates(apply_scaling)`. -/
def get_coordinates (E : Env) (apply_scaling : Bool) (s : State) : State :=
  let s : State := resolve_axis E apply_scaling 0 s
  let s : State := resolve_axis E apply_scaling 1 s
  let s : State := resolve_axis E apply_scaling 2 s
  let s : State := resolve_axis E apply_scaling 3 s
  let s : State := resolve_feedrate E s
  if E.FWRETRACT = true then auto_retract E s else s

/-- The statement `if (target[i] < min_pos[i]) target[i] = min_pos[i];`. -/
def clamp_min (m : Machine) (target : Nat → ℚ) (i : Nat) : Nat → ℚ :=
  if target i < m.min_pos i then setAxis target i (m.min_pos i) else target

/-- The statement `if (target[i] > max_pos[i]) target[i] = max_pos[i];`. -/
def clamp_max (m : Machine) (target : Nat → ℚ) (i : Nat) : Nat → ℚ :=
  if target i > m.max_pos i then setAxis target i (m.max_pos i) else target

/-- `clamp_to_software_endstops(target)`, as a function of the array. -/
def clamp_to_software_endstops (E : Env) (m : Machine) (target : Nat → ℚ) : Nat → ℚ :=
  let target : Nat → ℚ :=
    if E.min_software_endstops = true then clamp_min m (clamp_min m (clamp_min m target 0) 1) 2
    else target
  if E.max_software_endstops = true then clamp_max m (clamp_max m (clamp_max m target 0) 1) 2
  else target

/-- What `calculate_delta(destination)` returns in the segment loop of `prepare_move`. -/
def delta_of (E : Env) (m : Machine) : FloatDelta ℚ :=
  calculate_delta_float E.fl E.libm E.scara m.add_homeing m.Y_gridcal
    (calc_bed_delta E m m.destination) m.destination

/-- The arguments of the call `plan_buffer_line(delta[X_AXIS], delta[Y_AXIS], delta[Z_AXIS],
destination[E_AXIS], feedrate*feedmultiply/60/100.0, active_extruder)` in the segment loop;
the conversion of the `int` `feedmultiply` to `float`, the product and the two quotients of
the feed rate are rounded. -/
def segment_of (E : Env) (m : Machine) : Segment :=
  { x := (delta_of E m).x, y := (delta_of E m).y, z := (delta_of E m).z, e := m.destination 3,
    feed_rate := E.fl (E.fl (E.fl (m.feedrate * E.fl m.feedmultiply) / 60) / 100) }

/-- The two calls `calculate_delta(destination); plan_buffer_line(...)` of the segment loop
of `prepare_move`. -/
def plan_segment (E : Env) (s : State) : State :=
  { s with out := s.out ++ (delta_of E s.m).echo.map Resp.echo,
           m := { s.m with segments := s.m.segments ++ [segment_of E s.m] } }

/-- The segment loop of `prepare_move`: `n` rounds, starting with the loop variable at `k`.
The two products and the sum of
`current_position[i] + difference[i] * (fraction_steps * s)` and the conversion of the loop
variable `s` to `float` are rounded. The loop variable is an `int`: its increment past
`INT_MAX` is undefined in C and is not represented, so the loop is that of the source for
fewer than `INT_MAX` rounds. -/
def segment_loop (E : Env) (difference : Nat → ℚ) (fraction_steps : ℚ) :
    Nat → Nat → State → State
  | 0, _, s => s
  | n + 1, k, s =>
    let waypoint : Nat → ℚ := fun i =>
      if i < NUM_AXIS then
        E.fl (s.m.current_position i + E.fl (difference i * E.fl (fraction_steps * E.fl k)))
      else s.m.destination i
    let s : State := { s with m := { s.m with destination := waypoint } }
    segment_loop E difference fraction_steps n (k + 1) (plan_segment E s)

/-- The first statement of `prepare_move`: the destination is clamped when `SoftEndsEnabled`
is set. -/
def soft_endstops (E : Env) (s : State) : State :=
  if s.m.SoftEndsEnabled = true then
    { s with m := { s.m with destination := clamp_to_software_endstops E s.m s.m.destination } }
  else s

/-- The local array `difference` of `prepare_move`: the rounded differences. -/
def difference (E : Env) (s : State) (i : Nat) : ℚ :=
  E.fl (s.m.destination i - s.m.current_position i)

/-- The local `cartesian_mm` of `prepare_move` at its second test against the threshold: the
length of the move, or the length of the extruder move when the tool does not move. The
squares (`sq(x)` is `x * x`) and their sums are rounded, and the threshold is the `float`
nearest to 0.000001. -/
def cartesian_mm (E : Env) (s : State) : ℚ :=
  let cartesian_mm : ℚ :=
    E.libm.sqrt (E.fl (E.fl (E.fl (difference E s 0 * difference E s 0)
      + E.fl (difference E s 1 * difference E s 1))
      + E.fl (difference E s 2 * difference E s 2)))
  if cartesian_mm < E.fl (1 / 1000000) then |difference E s 3| else cartesian_mm

/-- The local `steps` of `prepare_move`; the product and the two quotients of `seconds` and
the product with `DELTA_SEGMENTS_PER_SECOND` are rounded. The conversion to `int` is the
truncation; a value beyond `INT_MAX`, for which the conversion is undefined in C, is not
represented. -/
def steps (E : Env) (s : State) : Int :=
  let seconds : ℚ :=
    E.fl (E.fl (E.fl (6000 * cartesian_mm E s) / s.m.feedrate) / E.fl s.m.feedmultiply)
  max 1 (trunc (E.fl (E.DELTA_SEGMENTS_PER_SECOND * seconds)))

/-- The value that `prepare_move` converts to `int` for `steps` is in the range of `int` and
`steps` is below `INT_MAX`: the conversion and every increment of the loop variable are
defined. -/
def StepsInRange (E : Env) (s : State) : Prop :=
  -E.INT_MAX - 1 ≤ trunc (E.fl (E.DELTA_SEGMENTS_PER_SECOND
    * E.fl (E.fl (E.fl (6000 * cartesian_mm E s) / s.m.feedrate) / E.fl s.m.feedmultiply))) ∧
  steps E s < E.INT_MAX

/-- The part of `prepare_move` after the clamping of the destination; `fraction_steps` is
the rounded quotient `1.0 / float(steps)`, the conversion `float(steps)` being rounded
too. -/
def plan_move (E : Env) (s : State) : State :=
  if cartesian_mm E s < E.fl (1 / 1000000) then s
  else
    let fraction_steps : ℚ := E.fl (1 / E.fl (steps E s : ℚ))
    let a : State := segment_loop E (difference E s) fraction_steps (steps E s).toNat 1 s
    let arrived : Nat → ℚ := fun i =>
      if i < NUM_AXIS then a.m.destination i else a.m.current_position i
    { a with m := { a.m with current_position := arrived } }

/-- `prepare_move()`. -/
def prepare_move (E : Env) (s : State) : State := plan_move E (soft_endstops E s)

/-- The body of `case 10` (`G10`) of `process_commands`. -/
def gcode_G10 (E : Env) (s : State) : State :=
  if s.m.retracted = false then
    let m : Machine := s.m
    let m : Machine := { m with destination := setAxis m.destination 0 (m.current_position 0) }
    let m : Machine := { m with destination := setAxis m.destination 1 (m.current_position 1) }
    let m : Machine := { m with destination := setAxis m.destination 2 (m.current_position 2) }
    let lowered : Nat → ℚ := setAxis m.current_position 2 (m.current_position 2 + -m.retract_zlift)
    let m : Machine := { m with current_position := lowered }
    let pulled : Nat → ℚ := setAxis m.destination 3 (m.current_position 3 - m.retract_length)
    let m : Machine := { m with destination := pulled }
    let m : Machine := { m with feedrate := m.retract_feedrate }
    let m : Machine := { m with retracted := true }
    prepare_move E { s with m := m }
  else s

/-- The body of `case 11` (`G11`) of `process_commands`. -/
def gcode_G11 (E : Env) (s : State) : State :=
  if s.m.retracted = false then
    let m : Machine := s.m
    let m : Machine := { m with destination := setAxis m.destination 0 (m.current_position 0) }
    let m : Machine := { m with destination := setAxis m.destination 1 (m.current_position 1) }
    let m : Machine := { m with destination := setAxis m.destination 2 (m.current_position 2) }
    let raised : Nat → ℚ := setAxis m.current_position 2 (m.current_position 2 + m.retract_zlift)
    let m : Machine := { m with current_position := raised }
    let pushed : Nat → ℚ :=
      setAxis m.current_position 3 (m.current_position 3 + -m.retract_recover_length)
    let m : Machine := { m with current_position := pushed }
    let m : Machine := { m with feedrate := m.retract_recover_feedrate }
    let m : Machine := { m with retracted := false }
    prepare_move E { s with m := m }
  else s

/-! ## process_commands and loop -/

/-- Something that code outside `Marlin_main.cpp`, or a command body that is not translated
here, does to the state of the protocol. -/
inductive Event where
  /-- A call `enquecommand(cmd)` or `enquecommand_P(cmd)` (LCD menu, SD autostart). -/
  | enque (cmd : List Nat)
  /-- A call `Stop()` (temperature supervision). -/
  | stop
  /-- A text line written to the serial port. -/
  | echo (text : List Nat)
  /-- An assignment to `dCal_X` (`HomeAllAxis`, `M370`). -/
  | homed (v : Rat)
  /-- A change of the SD card reader: `card.saving`, `card.sdprinting` and the file read. -/
  | card (saving printing : Bool) (file : List Int)
  /-- Bytes arriving on the serial line. -/
  | recv (data : List Nat)
  /-- An assignment to the motion globals by a command body that is not translated
  (`G28`, `G92`, `M370` and the like). -/
  | motion (m : Machine)

/-- The effect of one event. An `enque` whose string does not fit a slot is outside what
the embedding represents (see `enquecommand`) and is taken to do nothing. -/
def run_event (E : Env) : Event → State → State
  | Event.enque cmd, s => (enquecommand E cmd s).getD s
  | Event.stop, s => Stop s
  | Event.echo text, s => { s with out := s.out ++ [Resp.echo text] }
  | Event.homed v, s => { s with dCal_X := v }
  | Event.card saving printing file, s =>
    { s with card_saving := saving, card_sdprinting := printing, card_file := file }
  | Event.recv data, s => { s with rx := s.rx ++ data }
  | Event.motion m, s => { s with m := m }

/-- The effect of a sequence of events, oldest first. -/
def run_events (E : Env) : List Event → State → State
  | [], s => s
  | e :: es, s => run_events E es (run_event E e s)

/-- What happens during one iteration of `loop` in code that is not translated here. -/
structure Oracle where
  /-- Events of `card.checkautostart(false)`. -/
  autostart : List Event
  /-- Events of the body of the selected `case` of `process_commands`, for the cases that are
  not translated (`G0`/`G1` with their move, and `M999`, are). -/
  body : List Event
  /-- Whether that body leaves `process_commands` by `return`, skipping the final `ClearToSend()`. -/
  returns : Bool
  /-- Events of `manage_heater`, `manage_inactivity`, `checkHitEndstops`, `lcd_update`. -/
  housekeeping : List Event

/-- The text `"  No movement - Home first..."`. -/
def no_movement : List Nat :=
  [32, 32, 78, 111, 32, 109, 111, 118, 101, 109, 101, 110, 116, 32, 45, 32, 72, 111, 109, 101,
   32, 102, 105, 114, 115, 116, 46, 46, 46]

/-- Function `process_commands`: the selection of the command family and code, the cases
`G0`/`G1`, `G10`, `G11` (under `FWRETRACT`) and `M999`, the tool and unknown-command branches
and the final `ClearToSend()`. In the motion cases `o.body` is what the planner does to the
protocol state while `plan_buffer_line` waits for room (`manage_heater`, `lcd_update`); it is
placed after the move. The other cases are `o.body` and `o.returns`. The tool branch writes
one text line (the active tool is not represented).
`M28` and `M30` cut the file name inside the slot being dispatched; that store into the slot
at `bufindr` is not represented. -/
def process_commands (E : Env) (o : Oracle) (s : State) : State :=
  let line := cstr E (s.cmdbuffer s.bufindr)
  match strchr line 71 with
  | some p =>
    let code := E.strtod_int p.tail
    if code = 0 ∨ code = 1 then
      if s.Stopped = false ∧ s.dCal_X ≠ 0 then
        run_events E o.body (prepare_move E (get_coordinates E true s))
      else ClearToSend E { s with out := s.out ++ [Resp.echo no_movement] }
    else if E.FWRETRACT = true ∧ code = 10 then
      ClearToSend E (run_events E o.body (gcode_G10 E s))
    else if E.FWRETRACT = true ∧ code = 11 then
      ClearToSend E (run_events E o.body (gcode_G11 E s))
    else
      let s : State := run_events E o.body s
      if o.returns = true then s else ClearToSend E s
  | none =>
    match strchr line 77 with
    | some p =>
      let code := E.strtod_int p.tail
      if code = 999 then
        let s : State := { s with Stopped := false }
        let s : State := { s with gcode_LastN := s.Stopped_gcode_LastN }
        let s : State := FlushSerialRequestResend E s
        ClearToSend E s
      else
        let s : State := run_events E o.body s
        if o.returns = true then s else ClearToSend E s
    | none =>
      match strchr line 84 with
      | some _ => ClearToSend E { s with out := s.out ++ [Resp.echo []] }
      | none => ClearToSend E { s with out := s.out ++ [Resp.echo line] }

/-- The line that `loop` hands to the dispatcher in this iteration, if any. -/
def dispatched (E : Env) (o : Oracle) (s : State) : Option (List Nat) :=
  let s : State := if s.buflen < E.BUFSIZE - 1 then get_command E s else s
  let s : State := if E.SDSUPPORT = true then run_events E o.autostart s else s
  if s.buflen ≠ 0 then some (cstr E (s.cmdbuffer s.bufindr)) else none

/-- Function `loop`. With `card.saving` the line goes to the SD file (`card.write_command`)
or, for `M29`, closes it (`card.closefile()` clears `card.saving`). -/
def loop (E : Env) (o : Oracle) (s : State) : State :=
  let s : State := if s.buflen < E.BUFSIZE - 1 then get_command E s else s
  let s : State := if E.SDSUPPORT = true then run_events E o.autostart s else s
  let s : State :=
    if s.buflen ≠ 0 then
      let s : State :=
        if E.SDSUPPORT = true ∧ s.card_saving = true then
          if strstr (cstr E (s.cmdbuffer s.bufindr)) M29 = false then
            { s with out := s.out ++ [Resp.ok] }
          else { s with card_saving := false, out := s.out ++ [Resp.echo []] }
        else process_commands E o s
      { s with buflen := s.buflen - 1, bufindr := (s.bufindr + 1) % E.BUFSIZE }
    else s
  run_events E o.housekeeping s

/-- A C string that fits a slot of the command ring. -/
def Fits (E : Env) (cmd : List Nat) : Prop :=
  cmd.length < E.MAX_CMD_SIZE ∧ 0 ∉ cmd

/-- The `enquecommand` calls among the events all pass a string that fits a slot. -/
def EventsFit (E : Env) (es : List Event) : Prop :=
  ∀ cmd, Event.enque cmd ∈ es → Fits E cmd

/-- One step of the firmware as seen by the command queue: an outside event, a call of
`get_command`, or an iteration of `loop`. -/
inductive Step (E : Env) : State → State → Prop where
  | event (s : State) (e : Event) (h : EventsFit E [e]) : Step E s (run_event E e s)
  | get_command (s : State) : Step E s (get_command E s)
  | loop (s : State) (o : Oracle)
      (h : EventsFit E (o.autostart ++ o.body ++ o.housekeeping)) : Step E s (loop E o s)

/-- The states reachable from startup. -/
def Reachable (E : Env) (s : State) : Prop :=
  Relation.ReflTransGen (Step E) State.init s

/-- The lines waiting in the command ring, oldest first. -/
def pending (E : Env) (s : State) : List (List Nat) :=
  (List.range s.buflen).map (fun i => cstr E (s.cmdbuffer ((s.bufindr + i) % E.BUFSIZE)))

/-! ## The command families -/

/-- The branches of the chain `if(code_seen('G')) ... else if(code_seen('M')) ...
else if(code_seen('T')) ... else ...` of `process_commands`. -/
inductive Family where
  | G
  | M
  | T
  | unknown
  deriving DecidableEq, Repr

/-- The branch of that chain which runs for the command `line`. -/
def command_family (line : List Nat) : Family :=
  match strchr line 71 with
  | some _ => Family.G
  | none =>
    match strchr line 77 with
    | some _ => Family.M
    | none =>
      match strchr line 84 with
      | some _ => Family.T
      | none => Family.unknown

/-- The `switch((int)code_value())` under `if(code_seen('G'))`, followed by the final
`ClearToSend()`; `p` is the string at `strchr_pointer`. -/
def G_commands (E : Env) (o : Oracle) (p : List Nat) (s : State) : State :=
  let code := E.strtod_int p.tail
  if code = 0 ∨ code = 1 then
    if s.Stopped = false ∧ s.dCal_X ≠ 0 then
      run_events E o.body (prepare_move E (get_coordinates E true s))
    else ClearToSend E { s with out := s.out ++ [Resp.echo no_movement] }
  else if E.FWRETRACT = true ∧ code = 10 then
    ClearToSend E (run_events E o.body (gcode_G10 E s))
  else if E.FWRETRACT = true ∧ code = 11 then
    ClearToSend E (run_events E o.body (gcode_G11 E s))
  else
    let s : State := run_events E o.body s
    if o.returns = true then s else ClearToSend E s

/-- The `switch((int)code_value())` under `else if(code_seen('M'))`, followed by the final
`ClearToSend()`; `p` is the string at `strchr_pointer`. -/
def M_commands (E : Env) (o : Oracle) (p : List Nat) (s : State) : State :=
  let code := E.strtod_int p.tail
  if code = 999 then
    let s : State := { s with Stopped := false }
    let s : State := { s with gcode_LastN := s.Stopped_gcode_LastN }
    let s : State := FlushSerialRequestResend E s
    ClearToSend E s
  else
    let s : State := run_events E o.body s
    if o.returns = true then s else ClearToSend E s

/-- The branch `else if(code_seen('T'))`, followed by the final `ClearToSend()`. -/
def T_commands (E : Env) (s : State) : State :=
  ClearToSend E { s with out := s.out ++ [Resp.echo []] }

/-- The last branch, which echoes the unknown command, followed by the final
`ClearToSend()`. -/
def unknown_command (E : Env) (s : State) : State :=
  ClearToSend E { s with out := s.out ++ [Resp.echo (cstr E (s.cmdbuffer s.bufindr))] }

/-! ## M92

The bodies of `M92` and of the calibration commands `M370`, `M371`, `M372` are translated
on their own; in `process_commands` these cases are among those of `o.body`. -/

/-- One round of the loop of `case 92` (`M92`). The rescaling is done when the new value is
below 20. `axis_steps_per_sqr_second` is declared in `planner.h`; `steps_cast` is the
conversion of the product on assignment. A value of 0, for which `factor` is not finite, is
outside what the embedding represents. -/
def M92_axis (E : Env) (i : Nat) (s : State) : State :=
  match code_seen E s (axis_codes i) with
  | some p =>
    if i = 3 then
      let value : ℚ := code_value E p
      let m : Machine :=
        if value < 20 then
          let factor : ℚ := s.m.axis_steps_per_unit i / value
          let jerk : ℚ := s.m.max_e_jerk * factor
          let feed : Nat → ℚ := setAxis s.m.max_feedrate i (s.m.max_feedrate i * factor)
          let accel : Nat → ℚ := setAxis s.m.axis_steps_per_sqr_second i
            (E.steps_cast (s.m.axis_steps_per_sqr_second i * factor))
          { s.m with max_e_jerk := jerk, max_feedrate := feed, axis_steps_per_sqr_second := accel }
        else s.m
      { s with m := { m with axis_steps_per_unit := setAxis m.axis_steps_per_unit i value } }
    else
      let steps : Nat → ℚ := setAxis s.m.axis_steps_per_unit i (code_value E p)
      { s with m := { s.m with axis_steps_per_unit := steps } }
  | none => s

/-- The body of `case 92` (`M92`) of `process_commands`. -/
def gcode_M92 (E : Env) (s : State) : State :=
  M92_axis E 3 (M92_axis E 2 (M92_axis E 1 (M92_axis E 0 s)))

/-! ## Grid calibration -/

/-- The pair of indices `(int)(current_position[X_AXIS]/X_MAX_POS * GCal_X)` and
`(int)(current_position[Y_AXIS]/Y_MAX_POS * GCal_Y)` with which `ZCalMoveIntoToPosition` and
`M372` index `Arm_lookup`. -/
def cal_cell (E : Env) (m : Machine) : Int × Int :=
  (trunc (m.current_position 0 / E.X_MAX_POS * m.GCal_X),
   trunc (m.current_position 1 / E.Y_MAX_POS * m.GCal_Y))

/-- The state in which `ZCalMoveIntoToPosition` calls `prepare_move` the second time: after
the move to Z = 5 at the feed rate 10000, with the X and Y of the grid point in
`destination`. `X_MAX_POS` and `Y_MAX_POS` are taken as `float` constants, so the quotients
are exact; `st_synchronize` waits for the planner and is not represented. -/
def ZCal_target (E : Env) (s : State) : State :=
  let m : Machine := { s.m with destination := setAxis s.m.destination 2 5, feedrate := 10000 }
  let s : State := prepare_move E { s with m := m }
  let x : ℚ := s.m.GPos_X * E.X_MAX_POS / s.m.GCal_X + 1
  let s : State := { s with m := { s.m with destination := setAxis s.m.destination 0 x } }
  let y : ℚ := s.m.GPos_Y * E.Y_MAX_POS / s.m.GCal_X + 1
  { s with m := { s.m with destination := setAxis s.m.destination 1 y } }

/-- `ZCalMoveIntoToPosition()`. It is undefined when `GCal_X`, `X_MAX_POS` or `Y_MAX_POS` is
0 (a division by zero) and when the cell read from `Arm_lookup` is outside the array. The
numbers of the report are not represented. -/
def ZCalMoveIntoToPosition (E : Env) (s : State) : Option State :=
  if s.m.GCal_X = 0 ∨ E.X_MAX_POS = 0 ∨ E.Y_MAX_POS = 0 then none
  else
    let s : State := prepare_move E (ZCal_target E s)
    match lookup E s.m (cal_cell E s.m).1 (cal_cell E s.m).2 with
    | none => none
    | some z =>
      let s : State := { s with m := { s.m with destination := setAxis s.m.destination 2 z } }
      let s : State := prepare_move E s
      some { s with out := s.out ++ [Resp.echo (bytes "Moved to lookup position :"),
                                     Resp.echo (bytes " X: Y: Z:")] }

/-- The body of `case 370` (`M370`) of `process_commands`; `home` is what `HomeAllAxis()`
does. It is undefined when `GCal_X` or `GCal_Y` becomes 0, or `X_MAX_POS` or `Y_MAX_POS` is
0 (divisions by zero). -/
def gcode_M370 (E : Env) (home : List Event) (s : State) : Option State :=
  let s : State := run_events E home s
  let s : State := { s with m := { s.m with Y_gridcal := true } }
  let gx : Int :=
    match code_seen E s 88 with
    | some p => trunc (code_value E p - 1)
    | none => s.m.GCal_X
  let gy : Int :=
    match code_seen E s 89 with
    | some p => trunc (code_value E p - 1)
    | none => s.m.GCal_Y
  if gx = 0 ∨ gy = 0 ∨ E.X_MAX_POS = 0 ∨ E.Y_MAX_POS = 0 then none
  else
    let dCal_X : ℚ := E.X_MAX_POS / gx
    let dCal_Y : ℚ := E.Y_MAX_POS / gy
    let m : Machine :=
      { s.m with GCal_X := gx, GCal_Y := gy, GPos_X := 0, GPos_Y := 0,
                 dCal_X_Inv := 1 / dCal_X, dCal_Y_Inv := 1 / dCal_Y }
    let s : State := { s with m := m, dCal_X := dCal_X }
    match code_seen E s 67 with
    | some _ =>
      let cleared : Nat → Nat → ℚ := fun i j =>
        if i < E.X_ARMLOOKUP_LENGTH ∧ j < E.Y_ARMLOOKUP_LENGTH then 0 else s.m.Arm_lookup i j
      ZCalMoveIntoToPosition E
        { s with m := { s.m with Arm_lookup := cleared },
                 out := s.out ++ [Resp.echo (bytes " Y-level grid cleared  ")] }
    | none =>
      ZCalMoveIntoToPosition E
        { s with out := s.out ++ [Resp.echo (bytes
            " Using Y-level grid from previous calibration. Use M370 C to clear it.  ")] }

/-- The statements of `case 371` that step `GPos_X` and `GPos_Y` to the next grid point, the
quotients being exact as in `ZCal_target`. -/
def next_point (E : Env) (s : State) : State :=
  let s : State := { s with m := { s.m with GPos_X := s.m.GPos_X + 1 } }
  if s.m.GPos_X * E.X_MAX_POS / s.m.GCal_X > E.X_MAX_POS then
    let s : State := { s with m := { s.m with GPos_X := 0, GPos_Y := s.m.GPos_Y + 1 } }
    if s.m.GPos_Y * E.Y_MAX_POS / s.m.GCal_Y > E.Y_MAX_POS then
      { s with m := { s.m with GPos_Y := 0 },
               out := s.out ++ [Resp.echo (bytes " - Last calibration point...")] }
    else s
  else s

/-- The body of `case 371` (`M371`) of `process_commands`. It is undefined when `GCal_X` or
`GCal_Y` is 0. -/
def gcode_M371 (E : Env) (s : State) : Option State :=
  if s.m.Y_gridcal = true then
    if s.m.GCal_X = 0 ∨ s.m.GCal_Y = 0 then none
    else ZCalMoveIntoToPosition E (next_point E s)
  else some s

/-- The array `a` after the assignment `a[i][j] = v`. -/
def setCell2 (a : Nat → Nat → ℚ) (i j : Nat) (v : ℚ) : Nat → Nat → ℚ :=
  fun k l => if k = i ∧ l = j then v else a k l

/-- The body of `case 372` (`M372`) of `process_commands`, which falls through to
`case 371`. The store is undefined when the cell is outside `Arm_lookup`. The numbers of the
report are not represented. -/
def gcode_M372 (E : Env) (s : State) : Option State :=
  if s.m.Y_gridcal = true then
    match lookup E s.m (cal_cell E s.m).1 (cal_cell E s.m).2 with
    | none => none
    | some _ =>
      let stored : Nat → Nat → ℚ :=
        setCell2 s.m.Arm_lookup (cal_cell E s.m).1.toNat (cal_cell E s.m).2.toNat
          (s.m.current_position 2)
      gcode_M371 E
        { s with m := { s.m with Arm_lookup := stored },
                 out := s.out ++ [Resp.echo (bytes "Storing lookup for:"),
                                  Resp.echo (bytes " X: Y: Z:"), Resp.echo (bytes " - OK")] }
  else gcode_M371 E { s with out := s.out ++ [Resp.echo (bytes "No GridCal")] }

/-! ## Vocabulary of the statements -/

/-- The text that follows the first occurrence of `c` in `l`. -/
def after (c : Nat) (l : List Nat) : List Nat :=
  (l.dropWhile (fun x => decide (x ≠ c))).tail

/-- The text that precedes the first occurrence of `c` in `l`. -/
def before (c : Nat) (l : List Nat) : List Nat :=
  l.takeWhile (fun x => decide (x ≠ c))

/-- The XOR of all the bytes of a text. -/
def xor_bytes (l : List Nat) : Nat :=
  l.foldl (fun a c => a ^^^ c) 0

/-- A line as the framer stores it: no NUL, no line terminator, no comment
mark, every character a byte, and short enough for a slot. -/
def PlainLine (E : Env) (l : List Nat) : Prop :=
  l.length < E.MAX_CMD_SIZE ∧
  ∀ c ∈ l, c ≠ 0 ∧ c ≠ 10 ∧ c ≠ 13 ∧ c ≠ 58 ∧ c ≠ 59 ∧ c < 256

/-- A line terminator: newline, carriage return or colon. -/
def Terminator (t : Nat) : Prop :=
  t = 10 ∨ t = 13 ∨ t = 58

/-- The framer is at the start of a line, the ring has room, and the pending serial bytes
are the line `l`, the terminator `t` and then `rest`. -/
def AtLine (E : Env) (s : State) (l : List Nat) (t : Nat) (rest : List Nat) : Prop :=
  s.serial_count = 0 ∧ s.comment_mode = false ∧ s.buflen < E.BUFSIZE ∧
  PlainLine E l ∧ l ≠ [] ∧ Terminator t ∧ s.rx = l ++ t :: rest

/-- No SD print is being read, so `get_command` reads the serial line only. -/
def NoSdPrint (E : Env) (s : State) : Prop :=
  E.SDSUPPORT = true → s.card_sdprinting = false

/-! ## Auxiliary definitions for the proofs -/

/-- The stores `buf[slot][k] = l[0]`, `buf[slot][k+1] = l[1]`, ... taken together. -/
def writeRow (buf : Nat → Nat → Nat) (slot k : Nat) (l : List Nat) : Nat → Nat → Nat :=
  fun i j => if i = slot ∧ k ≤ j ∧ j < k + l.length then l.getD (j - k) 0 else buf i j

/-- The state of the framer once the characters of the line `l` have been stored and the
bytes `rest` are still pending. -/
def framed (s : State) (l rest : List Nat) : State :=
  { s with cmdbuffer := writeRow s.cmdbuffer s.bufindw s.serial_count l,
           serial_count := s.serial_count + l.length, rx := rest }

/-- The state of `get_command` after line 461: the line is NUL-terminated and tagged as
not coming from the SD card. -/
def terminated (u : State) : State :=
  { u with cmdbuffer := setCell u.cmdbuffer u.bufindw u.serial_count 0,
           comment_mode := false, fromsd := setFlag u.fromsd u.bufindw false }

/-- The three rejections of `get_command` that ask for a resend: error line `r`, then
`FlushSerialRequestResend()`, `serial_count = 0`. -/
def rejected (E : Env) (v : State) (r : Resp) : State :=
  { FlushSerialRequestResend E { v with out := v.out ++ [r] } with serial_count := 0 }

/-- Two states agree on the command ring, the sequence number and the response sink. -/
def SameQueue (a s : State) : Prop :=
  a.buflen = s.buflen ∧ a.bufindw = s.bufindw ∧ a.bufindr = s.bufindr ∧
  a.cmdbuffer = s.cmdbuffer ∧ a.gcode_LastN = s.gcode_LastN ∧ a.out = s.out

/-- The invariant of the command ring: the length is at most the capacity, the read index
is reduced modulo the capacity, and the write index is the read index plus the length. -/
def RingInv (E : Env) (s : State) : Prop :=
  s.buflen ≤ E.BUFSIZE ∧ s.bufindr % E.BUFSIZE = s.bufindr ∧
  s.bufindw = (s.bufindr + s.buflen) % E.BUFSIZE

/-- From `s` to `a` the read index is kept, only the slot at the write index of `s` may have
been written, and either nothing or that one slot has been enqueued. -/
def Produces (E : Env) (s a : State) : Prop :=
  a.bufindr = s.bufindr ∧ (∀ i, i ≠ s.bufindw → a.cmdbuffer i = s.cmdbuffer i) ∧
  ((a.bufindw = s.bufindw ∧ a.buflen = s.buflen) ∨
   (a.bufindw = (s.bufindw + 1) % E.BUFSIZE ∧ a.buflen = s.buflen + 1))

/-- From `s` to `a` the ring invariant holds again, the read index is kept and the waiting
lines of `s` are still waiting, in the same order, followed by the new ones. -/
def Extends (E : Env) (s a : State) : Prop :=
  RingInv E a ∧ a.bufindr = s.bufindr ∧ ∃ new, pending E a = pending E s ++ new

/-- The state of `loop` after `get_command()` and `card.checkautostart(false)`. -/
def fetched (E : Env) (o : Oracle) (s : State) : State :=
  let s : State := if s.buflen < E.BUFSIZE - 1 then get_command E s else s
  if E.SDSUPPORT = true then run_events E o.autostart s else s

/-- The state of `loop` after the waiting line has been handled, before it leaves the ring. -/
def handled (E : Env) (o : Oracle) (s : State) : State :=
  if E.SDSUPPORT = true ∧ s.card_saving = true then
    if strstr (cstr E (s.cmdbuffer s.bufindr)) M29 = false then
      { s with out := s.out ++ [Resp.ok] }
    else { s with card_saving := false, out := s.out ++ [Resp.echo []] }
  else process_commands E o s

/-- The line passes the checks of `get_command`: either it has a sequence field that is
`last_sequence + 1` (or the line contains `M110`) and a `'*'` field equal to the XOR of the
characters before it, or it has neither a sequence field nor a `'*'`. -/
def Accepts (E : Env) (s : State) (l : List Nat) : Prop :=
  (78 ∈ l ∧ (E.strtol (after 78 l) = s.gcode_LastN + 1 ∨ strstr l M110 = true) ∧ 42 ∈ l ∧
    E.strtod_int (after 42 l) = (xor_bytes (before 42 l) : Int)) ∨
  (78 ∉ l ∧ 42 ∉ l)

/-- The line is a `G0` or `G1` command: it contains a `G` and the number after the first
`G` is 0 or 1. -/
def IsG0G1 (E : Env) (l : List Nat) : Prop :=
  71 ∈ l ∧ (E.strtod_int (after 71 l) = 0 ∨ E.strtod_int (after 71 l) = 1)

/-- An oracle under which nothing happens outside the translated code. -/
def quietOracle : Oracle where
  autostart := []
  body := []
  returns := false
  housekeeping := []

/-- Number of error lines among the responses. -/
def errors (rs : List Resp) : Nat := (rs.filter Resp.isError).length

/-- The state `a` differs from `s` at most in the motion globals and in echo lines written
after the output of `s`. -/
def Moved (s a : State) : Prop :=
  ∃ (m : Machine) (texts : List (List Nat)),
    a = { s with m := m, out := s.out ++ texts.map Resp.echo }

/-! ## A concrete environment for evaluating the model -/

/-- Drops the leading white space of a C string (`isspace`). -/
def skip_space : List Nat → List Nat
  | [] => []
  | c :: cs => if c = 32 ∨ (9 ≤ c ∧ c ≤ 13) then skip_space cs else c :: cs

/-- Value of the leading run of decimal digits of a C string, after the value `acc`. -/
def digits_value : List Nat → Nat → Nat
  | [], acc => acc
  | c :: cs, acc => if 48 ≤ c ∧ c ≤ 57 then digits_value cs (acc * 10 + (c - 48)) else acc

/-- Decimal reading of a C string: white space, an optional sign, then decimal digits; 0 when
no digit follows. It is the value of `strtol(p, NULL, 10)` when the number fits a `long`, and
of `(int)strtod(p, NULL)` when the digits are not followed by a fraction or an exponent and the
text does not start a hexadecimal, infinity or NaN literal. -/
def parse_decimal (p : List Nat) : Int :=
  match skip_space p with
  | 45 :: cs => - (digits_value cs 0 : Int)
  | 43 :: cs => (digits_value cs 0 : Int)
  | cs => (digits_value cs 0 : Int)

/-- One round of Newton's iteration for the integer square root of `n`, `k` times. -/
def isqrt_iter : Nat → Nat → Nat → Nat
  | 0, _, x => x
  | k + 1, n, x => isqrt_iter k n ((x + n / x) / 2)

/-- Rational stand-ins for the libm routines: the square root to six decimals, and the
leading terms of the power series of the others. -/
def stdLibm : Libm ℚ where
  sqrt := fun q =>
    (isqrt_iter 200 (Int.toNat (Int.floor (q * 1000000000000)))
      (Int.toNat (Int.floor (q * 1000000000000))) : ℚ) / 1000000
  cos := fun x => 1 - x * x / 2 + x * x * x * x / 24
  sin := fun x => x - x * x * x / 6 + x * x * x * x * x / 120
  acos := fun x => 355 / 226 - (x + x * x * x / 6)
  atan2 := fun y x => if x = 0 then (if 0 ≤ y then 355 / 226 else -355 / 226) else y / x

/-- A configuration (`BUFSIZE` 4, `MAX_CMD_SIZE` 96, no SD support, firmware retract, a bed
of 200 by 200 and a grid array of 5 by 5) with decimal number parsing, a `flush` that
discards the pending bytes and `stdLibm`. -/
def stdEnv : Env where
  BUFSIZE := 4
  MAX_CMD_SIZE := 96
  SDSUPPORT := false
  strtol := parse_decimal
  strtod_int := parse_decimal
  flush := fun _ => []
  strtod := fun p => (parse_decimal p : ℚ)
  libm := stdLibm
  scara := { LengthTheta := 150, LengthPsi := 150, LengthThetaExt := 150, LengthPsiExt := 150,
             SCARA_offset_x := 100, SCARA_offset_y := -56, SCARA_RAD2DEG := 57295779 / 1000000 }
  FWRETRACT := true
  MIN_RETRACT := 1 / 10
  DELTA_SEGMENTS_PER_SECOND := 200
  min_software_endstops := true
  max_software_endstops := true
  X_MIN_POS := 0
  X_MAX_POS := 200
  Y_MIN_POS := 0
  Y_MAX_POS := 200
  X_ARMLOOKUP_LENGTH := 5
  Y_ARMLOOKUP_LENGTH := 5
  steps_cast := fun q => q
  fl := fun q => q
  fl_zero := rfl
  fl_small := by norm_num
  INT_MAX := 32767

/-- Rounding to the nearest integer, a tie going to the even one. -/
def round_even (x : ℚ) : Int :=
  if x - Int.floor x < 1 / 2 then Int.floor x
  else if 1 / 2 < x - Int.floor x then Int.floor x + 1
  else if Int.floor x % 2 = 0 then Int.floor x
  else Int.floor x + 1

/-- The number of halvings that bring `n` below 2, at most `fuel` of them. -/
def halvings : Nat → Nat → Nat
  | 0, _ => 0
  | fuel + 1, n => if 2 ≤ n then halvings fuel (n / 2) + 1 else 0

/-- The binary exponent of a rational `q` other than 0: the `e` with
`2 ^ e <= |q| < 2 ^ (e + 1)`. -/
def ilog2 (q : ℚ) : Int :=
  if (2 : ℚ) ^ ((halvings q.num.natAbs q.num.natAbs : Int) - (halvings q.den q.den : Int)) ≤ |q|
  then (halvings q.num.natAbs q.num.natAbs : Int) - (halvings q.den q.den : Int)
  else (halvings q.num.natAbs q.num.natAbs : Int) - (halvings q.den q.den : Int) - 1

/-- The unit in the last place of the binary32 numbers around `q`: `2 ^ (e - 23)` for
`2 ^ e <= |q| < 2 ^ (e + 1)`, and `2 ^ (-149)` below `2 ^ (-126)`. -/
def ulp32 (q : ℚ) : ℚ := 2 ^ (max (ilog2 q) (-126) - 23)

/-- The binary32 number nearest to `q`, a tie going to the even significand (the default
rounding of IEEE 754). Results beyond the largest binary32 number are not represented. -/
def fl32 (q : ℚ) : ℚ := (round_even (q / ulp32 q) : ℚ) * ulp32 q

/-- The stand-ins of `stdLibm` with their results rounded to binary32. -/
def floatLibm : Libm ℚ where
  sqrt := fun q => fl32 (stdLibm.sqrt q)
  cos := fun x => fl32 (stdLibm.cos x)
  sin := fun x => fl32 (stdLibm.sin x)
  acos := fun x => fl32 (stdLibm.acos x)
  atan2 := fun y x => fl32 (stdLibm.atan2 y x)

/-- The configuration `stdEnv` with binary32 arithmetic. -/
def floatEnv : Env :=
  { stdEnv with libm := floatLibm, fl := fl32, fl_zero := by decide!, fl_small := by decide! }

/-- The state after five `G28` lines have arrived and `get_command` has run: the ring is full. -/
def fullState : State :=
  get_command stdEnv
    (run_event stdEnv (Event.recv (bytes "G28\nG28\nG28\nG28\nG28\n")) State.init)

/-- A state whose destination is beyond the X maximum, below the Y minimum and on the Z
maximum of a 200 mm range. -/
def clampState : State :=
  { State.init with m := { Machine.init with
      max_pos := fun _ => 200,
      destination := fun i => if i = 0 then 201 else if i = 1 then -1 else 200 } }

/-- The block of `get_coordinates` under `#ifdef FWRETRACT` turns the command into a firmware
retract: the block is compiled in, automatic retraction is on, the machine is not retracted,
the command has an `E` word and no `X`, `Y` or `Z` word, and the extruder move it asks for is
more negative than `-MIN_RETRACT`. -/
def AutoRetracts (E : Env) (apply_scaling : Bool) (s : State) : Prop :=
  E.FWRETRACT = true ∧ s.m.autoretract_enabled = true ∧ s.m.retracted = false ∧
  code_seen E s 88 = none ∧ code_seen E s 89 = none ∧ code_seen E s 90 = none ∧
  ∃ p, code_seen E s 69 = some p ∧
    code_value E p * (if apply_scaling = true then s.m.axis_scaling 3 else 1)
      + (if s.m.relative_mode = true ∨ s.m.axis_relative_modes 3 = true
          then s.m.current_position 3 else 0)
      - s.m.current_position 3 < -E.MIN_RETRACT

/-- The state in which the line `G1 E-5` is about to be dispatched. -/
def retractLine : State :=
  get_command stdEnv (run_event stdEnv (Event.recv (bytes "G1 E-5\n")) State.init)

/-- The initial motion globals with the upper software endstops at 200 on every axis. -/
def bedMachine : Machine := { Machine.init with max_pos := fun _ => 200 }

/-- The state in which the line `G1 X10 Y10 F600` is about to be dispatched, the upper
software endstops being at 200. -/
def moveLine : State :=
  get_command stdEnv (run_event stdEnv (Event.recv (bytes "G1 X10 Y10 F600\n"))
    (run_event stdEnv (Event.motion bedMachine) State.init))

/-- A state whose position and destination are both 250 on X, beyond the upper software
endstop at 200, as after `G92 X250`. -/
def beyondState : State :=
  { State.init with m := { bedMachine with
      current_position := fun i => if i = 0 then 250 else 0,
      destination := fun i => if i = 0 then 250 else 0 } }

/-- The line is the `M999` command: it contains no `G`, and the number after the first `M`
is 999. -/
def IsM999 (E : Env) (l : List Nat) : Prop :=
  71 ∉ l ∧ 77 ∈ l ∧ E.strtod_int (after 77 l) = 999

/-- One step of the firmware other than the dispatch of an `M999`: an outside event (a call
of `Stop` included), a call of `get_command`, the dispatch of a line that is not `M999`, or
the removal of the dispatched line from the ring. -/
inductive Halt (E : Env) : State → State → Prop where
  | event (s : State) (e : Event) : Halt E s (run_event E e s)
  | get_command (s : State) : Halt E s (get_command E s)
  | dispatch (s : State) (o : Oracle) (h : ¬ IsM999 E (cstr E (s.cmdbuffer s.bufindr))) :
      Halt E s (process_commands E o s)
  | dequeue (s : State) :
      Halt E s { s with buflen := s.buflen - 1, bufindr := (s.bufindr + 1) % E.BUFSIZE }

/-- The machine is Stopped and the sequence number saved by `Stop` is `v`. -/
def Halted (v : Int) (s : State) : Prop :=
  s.Stopped = true ∧ s.Stopped_gcode_LastN = v

/-- The state in which the line `G1 X5`, received and acknowledged before a call of `Stop`,
is about to be dispatched. -/
def stoppedLine : State :=
  run_event stdEnv Event.stop
    (get_command stdEnv (run_event stdEnv (Event.recv (bytes "G1 X5\n")) State.init))

/-- The state in which the line `M999` is about to be dispatched, after a call of `Stop` at
sequence number 7 and a second call of `Stop`. -/
def restartLine : State :=
  get_command stdEnv (run_event stdEnv (Event.recv (bytes "M999\n"))
    (run_event stdEnv Event.stop (Stop { State.init with gcode_LastN := 7 })))

/-- The state in which the line `G11` is about to be dispatched, the machine not being
retracted. -/
def recoverLine : State :=
  get_command stdEnv (run_event stdEnv (Event.recv (bytes "G11\n")) State.init)

/-- The bilinear interpolation of a grid `g` of heights with cells of `step_x` by `step_y`,
as the specification words it: with `i = floor(x/step_x)`, `j = floor(y/step_y)` and the
fractional offsets `fx = x/step_x - i`, `fy = y/step_y - j`. -/
def bilinear_spec (g : Int → Int → ℚ) (step_x step_y x y : ℚ) : ℚ :=
  let i : Int := Int.floor (x / step_x)
  let j : Int := Int.floor (y / step_y)
  let fx : ℚ := x / step_x - i
  let fy : ℚ := y / step_y - j
  (1 - fy) * ((1 - fx) * g i j + fx * g (i + 1) j)
    + fy * ((1 - fx) * g i (j + 1) + fx * g (i + 1) (j + 1))

/-- Motion globals with a grid of cells of 50 by 50 on the bed of 200 by 200 (`M370 X5 Y5`)
whose heights are 0 except for a height of 1 at the grid point (50, 0). -/
def gridMachine : Machine :=
  { Machine.init with
      dCal_X_Inv := 1 / 50, dCal_Y_Inv := 1 / 50,
      Arm_lookup := fun i j => if i = 1 ∧ j = 0 then 1 else 0 }

/-- Motion globals with a grid of cells of 50 by 50 on the bed of 200 by 200 (`M370 X5 Y5`,
five points a side in the array of 5 by 5), all heights cleared. -/
def clearedMachine : Machine :=
  { Machine.init with dCal_X_Inv := 1 / 50, dCal_Y_Inv := 1 / 50, Arm_lookup := fun _ _ => 0 }

/-- Motion globals with the initial grid of three cells a side on the bed of 200 by 200, all
heights cleared. -/
def defaultGrid : Machine :=
  { Machine.init with dCal_X_Inv := 3 / 200, dCal_Y_Inv := 3 / 200, Arm_lookup := fun _ _ => 0 }

/-- The Cartesian point `(x, y, 0)`. -/
def point (x y : ℚ) : Nat → ℚ := fun i => if i = 0 then x else if i = 1 then y else 0

/-- The libm routines on the real numbers; `atan2(y, x)` is the argument of `x + y i`. -/
noncomputable def realLibm : Libm ℝ where
  sqrt := Real.sqrt
  cos := Real.cos
  sin := Real.sin
  acos := Real.arccos
  atan2 := fun y x => Complex.arg ⟨x, y⟩

/-- An arm with four links of 150, the offsets 100 and -56, and angles in degrees. -/
noncomputable def realArm : Scara ℝ where
  LengthTheta := 150
  LengthPsi := 150
  LengthThetaExt := 150
  LengthPsiExt := 150
  SCARA_offset_x := 100
  SCARA_offset_y := -56
  SCARA_RAD2DEG := 180 / Real.pi

/-- The array with the entries `a`, `b` and, from index 2 on, `c`. -/
def triple {α : Type} (a b c : α) : Nat → α := fun i => if i = 0 then a else if i = 1 then b else c

/-- In real arithmetic `calculate_forward` followed by `calculate_delta` gives back the
angles `theta` and `psi`, whatever the Z coordinate and the bed correction. -/
def RoundTrip (K : Scara ℝ) (add_homeing : Nat → ℝ) (theta psi : ℝ) : Prop :=
  ∀ ( Y_gridcal : Bool) (bed : Option ℝ) (z : ℝ),
    (calculate_delta realLibm K add_homeing Y_gridcal bed
      (triple (calculate_forward realLibm K (triple theta psi 0)).1
        (calculate_forward realLibm K (triple theta psi 0)).2 z)).x = theta ∧
    (calculate_delta realLibm K add_homeing Y_gridcal bed
      (triple (calculate_forward realLibm K (triple theta psi 0)).1
        (calculate_forward realLibm K (triple theta psi 0)).2 z)).y = psi

/-- Whether the text starts with a decimal digit. -/
def starts_digit : List Nat → Bool
  | [] => false
  | d :: _ => decide (48 ≤ d ∧ d ≤ 57)

/-- The family of the leftmost verb of the line, as the specification words the selection:
the first of the letters `G`, `M`, `T` that is followed by a digit. -/
def first_verb_spec : List Nat → Family
  | [] => Family.unknown
  | c :: cs =>
    if c = 71 ∧ starts_digit cs = true then Family.G
    else if c = 77 ∧ starts_digit cs = true then Family.M
    else if c = 84 ∧ starts_digit cs = true then Family.T
    else first_verb_spec cs

/-- The state in which the line `M999 G1` is about to be dispatched, after a call of
`Stop`. -/
def verbsLine : State :=
  get_command stdEnv (run_event stdEnv (Event.recv (bytes "M999 G1\n"))
    (run_event stdEnv Event.stop State.init))

/-- Planner settings with 7 steps per unit on E. -/
def plannerMachine : Machine :=
  { Machine.init with
      axis_steps_per_unit := fun i => if i = 3 then 7 else 80,
      max_feedrate := fun _ => 45,
      axis_steps_per_sqr_second := fun _ => 9000,
      max_e_jerk := 5 }

/-- The state in which the line `M92 E14` is about to be dispatched, with 7 steps per unit
on E. -/
def stepsLine : State :=
  get_command stdEnv (run_event stdEnv (Event.recv (bytes "M92 E14\n"))
    (run_event stdEnv (Event.motion plannerMachine) State.init))

/-- The waypoint of round `k` of the segment loop of `prepare_move`, the loop being entered
in the state `t`: `current_position[i] + difference[i] * (fraction_steps * k)` with its
roundings. -/
def waypoint (E : Env) (t : State) (k : Nat) : Nat → ℚ := fun i =>
  if i < NUM_AXIS then
    E.fl (t.m.current_position i
      + E.fl (difference E t i * E.fl (E.fl (1 / E.fl (steps E t : ℚ)) * E.fl k)))
  else t.m.destination i

/-- The state in which the line `G1 E1` is about to be dispatched, the machine being
retracted. -/
def unretractLine : State :=
  get_command stdEnv (run_event stdEnv (Event.recv (bytes "G1 E1\n"))
    (run_event stdEnv (Event.motion { Machine.init with retracted := true }) State.init))

/-- The calibration indices are on the grid and the grid has at least one cell a side. -/
def OnGrid (s : State) : Prop :=
  0 < s.m.GCal_X ∧ 0 < s.m.GCal_Y ∧
  0 ≤ s.m.GPos_X ∧ s.m.GPos_X ≤ s.m.GCal_X ∧ 0 ≤ s.m.GPos_Y ∧ s.m.GPos_Y ≤ s.m.GCal_Y

/-- One calibration command that returns: `M370` leaving at least one cell a side (two
points a side or more), `M371` or `M372`. -/
inductive GridStep (E : Env) : State → State → Prop where
  | m370 (s a : State) (home : List Event) (h : gcode_M370 E home s = some a)
      (hx : 0 < a.m.GCal_X) (hy : 0 < a.m.GCal_Y) : GridStep E s a
  | m371 (s a : State) (h : gcode_M371 E s = some a) : GridStep E s a
  | m372 (s a : State) (h : gcode_M372 E s = some a) : GridStep E s a

/-- The state in which the line `M370` is about to be dispatched, the upper software
endstops being at 200. -/
def gridLine : State :=
  get_command stdEnv (run_event stdEnv (Event.recv (bytes "M370\n"))
    (run_event stdEnv (Event.motion bedMachine) State.init))

/-- A calibration of four cells a side on X and two on Y (`M370 X5 Y3`) that has come to the
grid point (0, 1), the upper software endstops being at 200. -/
def unevenGrid : State :=
  { State.init with m := { bedMachine with
      Y_gridcal := true, GCal_X := 4, GCal_Y := 2, GPos_X := 0, GPos_Y := 1 } }

/-- The state of `get_coordinates` when it reaches the block under `#ifdef FWRETRACT`: after
the axis loop and the `F` word. -/
def resolved (E : Env) (apply_scaling : Bool) (s : State) : State :=
  resolve_feedrate E (resolve_axis E apply_scaling 3 (resolve_axis E apply_scaling 2
    (resolve_axis E apply_scaling 1 (resolve_axis E apply_scaling 0 s))))

/-- The calibration globals `GCal_X`, `GCal_Y`, `GPos_X`, `GPos_Y`. -/
def grid_of (s : State) : Int × Int × Int × Int :=
  (s.m.GCal_X, s.m.GCal_Y, s.m.GPos_X, s.m.GPos_Y)

/-- The motion globals `m` with the destination that round `k` of the segment loop of
`prepare_move` assigns, for the array `d` of differences and the fraction `f` a round. -/
def loop_machine (E : Env) (m : Machine) (d : Nat → ℚ) (f : ℚ) (k : Nat) : Machine :=
  { m with destination := fun i =>
      if i < NUM_AXIS then E.fl (m.current_position i + E.fl (d i * E.fl (f * E.fl k)))
      else m.destination i }

/-- The motion globals in round `k` of the segment loop of `prepare_move` when
`calculate_delta` is called, the loop being entered in the state `t`. -/
def at_waypoint (E : Env) (t : State) (k : Nat) : Machine :=
  { t.m with destination := waypoint E t k }

/-! ## The framer on one line -/

theorem strchr_of_not_mem {l : List Nat} {c : Nat} (h : c ∉ l) : strchr l c = none := by
  induction l with
  | nil => rfl
  | cons x xs ih =>
    simp only [List.mem_cons, not_or] at h
    have hx : ¬ x = c := fun e => h.1 e.symm
    simp [strchr, hx, ih h.2]

theorem strchr_of_mem {l : List Nat} {c : Nat} (h : c ∈ l) :
    ∃ p, strchr l c = some p ∧ p.tail = after c l := by
  induction l with
  | nil => simp at h
  | cons x xs ih =>
    by_cases hx : x = c
    · exact ⟨x :: xs, by simp [strchr, hx], by simp [after, List.dropWhile, hx]⟩
    · have hc : c ∈ xs := by
        rcases List.mem_cons.mp h with e | e
        · exact absurd e.symm hx
        · exact e
      obtain ⟨p, hp, ht⟩ := ih hc
      exact ⟨p, by simp [strchr, hx, hp], by simp [after, List.dropWhile, hx] at ht ⊢; exact ht⟩

theorem cstrFrom_eq (row : Nat → Nat) : ∀ (l : List Nat) (k fuel : Nat),
    (∀ i, i < l.length → row (k + i) = l.getD i 0) → row (k + l.length) = 0 →
    (∀ c ∈ l, c ≠ 0) → l.length < fuel → cstrFrom row k fuel = l := by
  intro l
  induction l with
  | nil =>
    intro k fuel _ h0 _ hf
    cases fuel with
    | zero => simp at hf
    | succ f => simpa [cstrFrom] using h0
  | cons c cs ih =>
    intro k fuel hrow h0 hnz hf
    cases fuel with
    | zero => simp at hf
    | succ f =>
      have hk : row k = c := by simpa using hrow 0 (by simp)
      have hc : c ≠ 0 := hnz c (by simp)
      have htail : cstrFrom row (k + 1) f = cs := by
        apply ih
        · intro i hi
          have := hrow (i + 1) (by simpa using hi)
          simpa [Nat.add_assoc, Nat.add_comm 1 i] using this
        · simpa [Nat.add_assoc, Nat.add_comm 1] using h0
        · intro x hx
          exact hnz x (by simp [hx])
        · simpa using hf
      simp [cstrFrom, hk, hc, htail]

theorem writeRow_cons (buf : Nat → Nat → Nat) (w k c : Nat) (cs : List Nat) :
    writeRow (setCell buf w k c) w (k + 1) cs = writeRow buf w k (c :: cs) := by
  funext i j
  simp only [writeRow, setCell, List.length_cons]
  by_cases hi : i = w
  · by_cases hj : j = k
    · subst hj
      simp [hi]
    · by_cases hlo : k + 1 ≤ j
      · have e : j - k = (j - (k + 1)) + 1 := by omega
        by_cases hhi : j < k + 1 + cs.length
        · have h1 : k ≤ j ∧ j < k + (cs.length + 1) := by omega
          simp [hi, hlo, hhi, h1, e]
        · have h1 : ¬ (j < k + (cs.length + 1)) := by omega
          simp [hi, hj, hhi, h1]
      · have h1 : ¬ k ≤ j := by omega
        simp [hi, hj, hlo, h1]
  · simp [hi]

theorem writeRow_nil (buf : Nat → Nat → Nat) (w k : Nat) : writeRow buf w k [] = buf := by
  funext i j
  simp only [writeRow, List.length_nil]
  have : ¬ (i = w ∧ k ≤ j ∧ j < k + 0) := by omega
  simp [this]

theorem framed_nil (s : State) (rest : List Nat) (h : s.rx = rest) : framed s [] rest = s := by
  cases s
  simp only [framed, writeRow_nil, List.length_nil, Nat.add_zero] at h ⊢
  simp [← h]

theorem framed_cons (s : State) (c : Nat) (cs r rest : List Nat)
    (hm : s.comment_mode = false) (hc : c ≠ 59) :
    framed (store_char c { s with rx := r }) cs rest = framed s (c :: cs) rest := by
  cases s
  simp only at hm
  simp [framed, store_char, hm, hc, writeRow_cons, Nat.add_assoc, Nat.add_comm 1]

theorem store_char_fields (s : State) (c : Nat) (hm : s.comment_mode = false) (hc : c ≠ 59) :
    (store_char c s).buflen = s.buflen ∧ (store_char c s).comment_mode = false ∧
    (store_char c s).serial_count = s.serial_count + 1 ∧ (store_char c s).rx = s.rx := by
  simp [store_char, hm, hc]

theorem serial_loop_store (E : Env) (rest : List Nat) : ∀ (l : List Nat) (s : State),
    s.buflen < E.BUFSIZE → s.comment_mode = false →
    s.serial_count + l.length < E.MAX_CMD_SIZE →
    (∀ c ∈ l, c ≠ 10 ∧ c ≠ 13 ∧ c ≠ 58 ∧ c ≠ 59) → s.rx = l ++ rest →
    serial_loop E (l ++ rest) s = serial_loop E rest (framed s l rest) := by
  intro l
  induction l with
  | nil =>
    intro s _ _ _ _ hrx
    rw [framed_nil s rest (by simpa using hrx)]
    rfl
  | cons c cs ih =>
    intro s hb hm hlen hpl hrx
    obtain ⟨h10, h13, h58, h59⟩ := hpl c (by simp)
    have hsc : ¬ (E.MAX_CMD_SIZE - 1 ≤ s.serial_count) := by
      simp only [List.length_cons] at hlen
      omega
    have heol : is_eol E c { s with rx := cs ++ rest } = false := by
      simp [is_eol, h10, h13, h58, hsc]
    have hf := store_char_fields { s with rx := cs ++ rest } c hm h59
    have hstep : serial_loop E (c :: cs ++ rest) s =
        serial_loop E (cs ++ rest) (store_char c { s with rx := cs ++ rest }) := by
      simp [serial_loop, hb, heol]
    rw [hstep, ih _ (by rw [hf.1]; exact hb) hf.2.1
      (by rw [hf.2.2.1]; simp only [List.length_cons] at hlen; simpa using (by omega))
      (fun x hx => hpl x (by simp [hx])) (by rw [hf.2.2.2]),
      framed_cons s c cs _ rest hm h59]

theorem end_of_line_row (E : Env) (u : State) (l : List Nat) (hsc : u.serial_count ≠ 0)
    (hm : u.comment_mode = false)
    (hrow : cstr E (setCell u.cmdbuffer u.bufindw u.serial_count 0 u.bufindw) = l) :
    end_of_line E u =
      if 78 ∈ l then
        if E.strtol (after 78 l) ≠ u.gcode_LastN + 1 ∧ strstr l M110 = false then
          (rejected E { terminated u with gcode_N := E.strtol (after 78 l) }
            (Resp.err_line_no u.gcode_LastN), true)
        else if 42 ∈ l then
          if E.strtod_int (after 42 l) ≠ (checksum_loop l 0 : Int) then
            (rejected E { terminated u with gcode_N := E.strtol (after 78 l) }
              (Resp.err_checksum_mismatch u.gcode_LastN), true)
          else
            (enqueue_line E
              { terminated u with
                gcode_N := E.strtol (after 78 l), gcode_LastN := E.strtol (after 78 l) }, false)
        else
          (rejected E { terminated u with gcode_N := E.strtol (after 78 l) }
            (Resp.err_no_checksum u.gcode_LastN), true)
      else if 42 ∈ l then
        ({ terminated u with
            out := u.out ++ [Resp.err_no_linenumber_with_checksum u.gcode_LastN],
            serial_count := 0 }, true)
      else (enqueue_line E (terminated u), false) := by
  unfold end_of_line
  simp only [hsc, hm, if_false, if_true, hrow]
  by_cases h78 : 78 ∈ l
  · obtain ⟨p, hp, hpt⟩ := strchr_of_mem h78
    simp only [hp, hpt, h78, if_true]
    by_cases hseq : E.strtol (after 78 l) ≠ u.gcode_LastN + 1 ∧ strstr l M110 = false
    · simp only [hseq, and_self, if_true, ne_eq, not_false_eq_true]
      rfl
    · rw [if_neg hseq, if_neg hseq]
      by_cases h42 : 42 ∈ l
      · obtain ⟨q, hq, hqt⟩ := strchr_of_mem h42
        simp only [hq, hqt, h42, if_true]
        by_cases hck : E.strtod_int (after 42 l) ≠ (checksum_loop l 0 : Int)
        · rw [if_pos hck, if_pos hck]
          rfl
        · rw [if_neg hck, if_neg hck]
          rfl
      · simp only [strchr_of_not_mem h42, h42, if_false]
        rfl
  · simp only [strchr_of_not_mem h78, h78, if_false]
    by_cases h42 : 42 ∈ l
    · obtain ⟨q, hq, _⟩ := strchr_of_mem h42
      simp only [hq, h42, if_true]
      rfl
    · simp only [strchr_of_not_mem h42, h42, if_false]
      rfl

theorem framed_row (E : Env) (s : State) (l rest : List Nat) (h0 : s.serial_count = 0)
    (hl : PlainLine E l) :
    cstr E (setCell (framed s l rest).cmdbuffer (framed s l rest).bufindw
      (framed s l rest).serial_count 0 (framed s l rest).bufindw) = l := by
  unfold cstr
  apply cstrFrom_eq
  · intro i hi
    have hne : ¬ (i = l.length) := by omega
    simp [framed, setCell, writeRow, h0, hi, hne]
  · simp [framed, setCell, h0]
  · intro c hc
    exact (hl.2 c hc).1
  · exact hl.1

theorem serial_loop_line (E : Env) (s : State) (l : List Nat) (t : Nat) (rest : List Nat)
    (h : AtLine E s l t rest) :
    serial_loop E s.rx s =
      if (end_of_line E (framed s l rest)).2 = true then end_of_line E (framed s l rest)
      else serial_loop E rest (end_of_line E (framed s l rest)).1 := by
  obtain ⟨h0, hm, hb, hl, _, ht, hrx⟩ := h
  have hpl : ∀ c ∈ l, c ≠ 10 ∧ c ≠ 13 ∧ c ≠ 58 ∧ c ≠ 59 := fun c hc =>
    ⟨(hl.2 c hc).2.1, (hl.2 c hc).2.2.1, (hl.2 c hc).2.2.2.1, (hl.2 c hc).2.2.2.2.1⟩
  have hlen : s.serial_count + l.length < E.MAX_CMD_SIZE := by
    rw [h0]
    simpa using hl.1
  rw [hrx, serial_loop_store E (t :: rest) l s hb hm (by
    have := hl.1
    omega) hpl hrx]
  have hb2 : (framed s l (t :: rest)).buflen < E.BUFSIZE := by simpa [framed] using hb
  have heol : is_eol E t (framed s l rest) = true := by
    rcases ht with e | e | e <;> simp [is_eol, framed, e, hm]
  have hfr : ({ framed s l (t :: rest) with rx := rest } : State) = framed s l rest := by
    simp [framed]
  simp only [serial_loop, hb2, if_true, hfr, heol]

theorem checksum_loop_xor : ∀ (l : List Nat) (acc : Nat), acc < 256 → (∀ c ∈ l, c < 256) →
    checksum_loop l acc = (before 42 l).foldl (fun a c => a ^^^ c) acc := by
  intro l
  induction l with
  | nil => intro acc _ _; rfl
  | cons c cs ih =>
    intro acc hacc hb
    by_cases hc : c = 42
    · simp [checksum_loop, before, hc]
    · have hx : acc ^^^ c < 256 := Nat.xor_lt_two_pow (n := 8) hacc (hb c (by simp))
      have := ih (acc ^^^ c) hx (fun x hx => hb x (by simp [hx]))
      simp [checksum_loop, before, hc, Nat.mod_eq_of_lt hx] at this ⊢
      exact this

theorem checksum_loop_eq (E : Env) (l : List Nat) (hl : PlainLine E l) :
    checksum_loop l 0 = xor_bytes (before 42 l) :=
  checksum_loop_xor l 0 (by norm_num) (fun c hc => (hl.2 c hc).2.2.2.2.2)

theorem ack_G_fields (E : Env) (s : State) :
    (ack_G E s).buflen = s.buflen ∧ (ack_G E s).bufindw = s.bufindw ∧
    (ack_G E s).bufindr = s.bufindr ∧ (ack_G E s).gcode_LastN = s.gcode_LastN ∧
    (ack_G E s).cmdbuffer = s.cmdbuffer ∧ (ack_G E s).serial_count = s.serial_count ∧
    (ack_G E s).card_sdprinting = s.card_sdprinting ∧ (ack_G E s).fromsd = s.fromsd ∧
    (ack_G E s).comment_mode = s.comment_mode ∧ (ack_G E s).Stopped = s.Stopped := by
  unfold ack_G
  cases strchr (cstr E (s.cmdbuffer s.bufindw)) 71 with
  | none => simp
  | some p =>
    by_cases h1 : E.strtod_int p.tail = 0 ∨ E.strtod_int p.tail = 1 ∨ E.strtod_int p.tail = 2 ∨
      E.strtod_int p.tail = 3 <;>
    by_cases h2 : s.Stopped = false <;>
    by_cases h3 : E.SDSUPPORT = true ∧ s.card_saving = true <;>
    simp [h1, h2, h3]

theorem framed_fields (s : State) (l rest : List Nat) :
    (framed s l rest).buflen = s.buflen ∧ (framed s l rest).bufindw = s.bufindw ∧
    (framed s l rest).bufindr = s.bufindr ∧ (framed s l rest).gcode_LastN = s.gcode_LastN ∧
    (framed s l rest).comment_mode = s.comment_mode ∧
    (framed s l rest).serial_count = s.serial_count + l.length ∧
    (framed s l rest).out = s.out ∧ (framed s l rest).fromsd = s.fromsd ∧
    (framed s l rest).card_sdprinting = s.card_sdprinting ∧
    (framed s l rest).Stopped = s.Stopped ∧ (framed s l rest).rx = rest := by
  simp [framed]

theorem framed_count_ne (s : State) (l rest : List Nat) (hl : l ≠ []) :
    (framed s l rest).serial_count ≠ 0 := by
  have : 0 < l.length := List.length_pos.mpr hl
  simp only [framed]
  omega

/-- What `get_command` does with one complete line, in terms of the text of the line. -/
theorem end_of_line_framed (E : Env) (s : State) (l : List Nat) (t : Nat) (rest : List Nat)
    (h : AtLine E s l t rest) :
    end_of_line E (framed s l rest) =
      if 78 ∈ l then
        if E.strtol (after 78 l) ≠ s.gcode_LastN + 1 ∧ strstr l M110 = false then
          (rejected E { terminated (framed s l rest) with gcode_N := E.strtol (after 78 l) }
            (Resp.err_line_no s.gcode_LastN), true)
        else if 42 ∈ l then
          if E.strtod_int (after 42 l) ≠ (xor_bytes (before 42 l) : Int) then
            (rejected E { terminated (framed s l rest) with gcode_N := E.strtol (after 78 l) }
              (Resp.err_checksum_mismatch s.gcode_LastN), true)
          else
            (enqueue_line E
              { terminated (framed s l rest) with
                gcode_N := E.strtol (after 78 l), gcode_LastN := E.strtol (after 78 l) }, false)
        else
          (rejected E { terminated (framed s l rest) with gcode_N := E.strtol (after 78 l) }
            (Resp.err_no_checksum s.gcode_LastN), true)
      else if 42 ∈ l then
        ({ terminated (framed s l rest) with
            out := s.out ++ [Resp.err_no_linenumber_with_checksum s.gcode_LastN],
            serial_count := 0 }, true)
      else (enqueue_line E (terminated (framed s l rest)), false) := by
  obtain ⟨h0, hm, _, hl, hne, _, _⟩ := h
  have hf := framed_fields s l rest
  rw [end_of_line_row E (framed s l rest) l (framed_count_ne s l rest hne)
    (by rw [hf.2.2.2.2.1]; exact hm) (framed_row E s l rest h0 hl),
    checksum_loop_eq E l hl, hf.2.2.2.1, hf.2.2.2.2.2.2.1]

theorem rejected_fields (E : Env) (v : State) (r : Resp) :
    (rejected E v r).buflen = v.buflen ∧ (rejected E v r).bufindw = v.bufindw ∧
    (rejected E v r).bufindr = v.bufindr ∧ (rejected E v r).gcode_LastN = v.gcode_LastN ∧
    (rejected E v r).cmdbuffer = v.cmdbuffer ∧
    ((rejected E v r).out = v.out ++ [r, Resp.resend (v.gcode_LastN + 1), Resp.ok] ∨
     (rejected E v r).out = v.out ++ [r, Resp.resend (v.gcode_LastN + 1)]) := by
  unfold rejected FlushSerialRequestResend ClearToSend
  split_ifs <;> simp

theorem enqueue_line_fields (E : Env) (v : State) :
    (enqueue_line E v).buflen = v.buflen + 1 ∧
    (enqueue_line E v).bufindw = (v.bufindw + 1) % E.BUFSIZE ∧
    (enqueue_line E v).bufindr = v.bufindr ∧ (enqueue_line E v).gcode_LastN = v.gcode_LastN ∧
    (enqueue_line E v).cmdbuffer = v.cmdbuffer ∧ (enqueue_line E v).serial_count = 0 ∧
    (enqueue_line E v).card_sdprinting = v.card_sdprinting ∧
    (enqueue_line E v).fromsd = v.fromsd ∧ (enqueue_line E v).comment_mode = v.comment_mode ∧
    (enqueue_line E v).out = (ack_G E v).out := by
  have h := ack_G_fields E v
  simp [enqueue_line, h]

theorem get_command_of_returned (E : Env) (s : State) (a : State)
    (h : serial_loop E s.rx s = (a, true)) : get_command E s = a := by
  simp [get_command, h]

theorem get_command_of_fallthrough (E : Env) (s : State) (a : State)
    (h : serial_loop E s.rx s = (a, false)) (hsd : E.SDSUPPORT = true → a.card_sdprinting = false) :
    get_command E s = a := by
  unfold get_command
  simp only [h]
  by_cases hS : E.SDSUPPORT = true
  · simp [hS, hsd hS]
  · simp [hS]

theorem serial_loop_nil (E : Env) (s : State) : serial_loop E [] s = (s, false) := rfl

/-- A numbered line with the expected number and a matching checksum is enqueued. -/
theorem numbered_line_accepted (E : Env) (s : State) (l : List Nat) (t : Nat)
    (h : AtLine E s l t []) (hsd : NoSdPrint E s)
    (hN : 78 ∈ l) (hseq : E.strtol (after 78 l) = s.gcode_LastN + 1)
    (hstar : 42 ∈ l) (hck : E.strtod_int (after 42 l) = (xor_bytes (before 42 l) : Int)) :
    (get_command E s).buflen = s.buflen + 1 ∧
    (get_command E s).bufindw = (s.bufindw + 1) % E.BUFSIZE ∧
    (get_command E s).gcode_LastN = s.gcode_LastN + 1 ∧
    cstr E ((get_command E s).cmdbuffer s.bufindw) = l ∧
    (get_command E s).fromsd s.bufindw = false := by
  have hloop := serial_loop_line E s l t [] h
  rw [end_of_line_framed E s l t [] h] at hloop
  simp only [hN, hseq, hstar, hck, if_true, ne_eq, not_true_eq_false, false_and, if_false,
    serial_loop_nil, Bool.false_eq_true] at hloop
  have hrow := framed_row E s l [] h.1 h.2.2.2.1
  have hf := framed_fields s l []
  rw [hf.2.1] at hrow
  rw [get_command_of_fallthrough E s _ hloop (by
    intro hS
    simpa [enqueue_line_fields, terminated, framed] using hsd hS)]
  refine ⟨?_, ?_, ?_, ?_, ?_⟩
  · simp [enqueue_line_fields, terminated, framed]
  · simp [enqueue_line_fields, terminated, framed]
  · simp [enqueue_line_fields, terminated, framed]
  · rw [(enqueue_line_fields E _).2.2.2.2.1]
    simpa [terminated] using hrow
  · simp [enqueue_line_fields, terminated, framed, setFlag]

/-- The result of a rejection that asks for a resend, seen from the state before the line. -/
theorem rejected_framed (E : Env) (s : State) (l rest : List Nat) (n : Int) (r : Resp) :
    let a := rejected E { terminated (framed s l rest) with gcode_N := n } r
    a.buflen = s.buflen ∧ a.bufindw = s.bufindw ∧ a.bufindr = s.bufindr ∧
    a.gcode_LastN = s.gcode_LastN ∧
    (a.out = s.out ++ [r, Resp.resend (s.gcode_LastN + 1), Resp.ok] ∨
     a.out = s.out ++ [r, Resp.resend (s.gcode_LastN + 1)]) := by
  intro a
  have h := rejected_fields E { terminated (framed s l rest) with gcode_N := n } r
  refine ⟨h.1, h.2.1, h.2.2.1, h.2.2.2.1, ?_⟩
  simpa [terminated, framed] using h.2.2.2.2.2

/-- C1. A streamed line whose sequence field is `last_sequence + 1` and whose checksum field
equals the XOR of the characters before `'*'` is enqueued when the queue is not full: the queue
length grows by one, the write index advances, the slot holds the line, and `last_sequence`
becomes the line number. -/
theorem C1_next_sequence_accepted (E : Env) (s : State) (l : List Nat) (t : Nat)
    (h : AtLine E s l t []) (hsd : NoSdPrint E s)
    (hN : 78 ∈ l) (hseq : E.strtol (after 78 l) = s.gcode_LastN + 1)
    (hstar : 42 ∈ l) (hck : E.strtod_int (after 42 l) = (xor_bytes (before 42 l) : Int)) :
    (get_command E s).buflen = s.buflen + 1 ∧
    (get_command E s).bufindw = (s.bufindw + 1) % E.BUFSIZE ∧
    (get_command E s).gcode_LastN = s.gcode_LastN + 1 ∧
    cstr E ((get_command E s).cmdbuffer s.bufindw) = l ∧
    (get_command E s).fromsd s.bufindw = false :=
  numbered_line_accepted E s l t h hsd hN hseq hstar hck

/-- Scenario B: `N5 G1 X10*84` after `last_sequence = 4` is accepted and leaves
`last_sequence = 5`. -/
theorem C1_witness :
    (get_command stdEnv { State.init with gcode_LastN := 4, rx := bytes "N5 G1 X10*84\n" }).buflen
      = 0 + 1 ∧
    (get_command stdEnv { State.init with gcode_LastN := 4, rx := bytes "N5 G1 X10*84\n" }).bufindw
      = (0 + 1) % 4 ∧
    (get_command stdEnv
      { State.init with gcode_LastN := 4, rx := bytes "N5 G1 X10*84\n" }).gcode_LastN = 4 + 1 ∧
    cstr stdEnv ((get_command stdEnv
      { State.init with gcode_LastN := 4, rx := bytes "N5 G1 X10*84\n" }).cmdbuffer 0)
      = bytes "N5 G1 X10*84" ∧
    (get_command stdEnv
      { State.init with gcode_LastN := 4, rx := bytes "N5 G1 X10*84\n" }).fromsd 0 = false :=
  C1_next_sequence_accepted stdEnv
    { State.init with gcode_LastN := 4, rx := bytes "N5 G1 X10*84\n" } (bytes "N5 G1 X10*84") 10
    ⟨rfl, rfl, by decide, ⟨by decide, by decide⟩, by decide, Or.inl rfl, by decide⟩
    (fun h => by cases h) (by decide) (by decide) (by decide) (by decide)

/-- C2. A streamed line whose sequence field is not `last_sequence + 1`, and which does not
contain `M110`, is rejected: queue length, write index and `last_sequence` are unchanged, and
the response is the line-number error followed by a resend request for `last_sequence + 1`. -/
theorem C2_out_of_sequence_rejected (E : Env) (s : State) (l : List Nat) (t : Nat)
    (rest : List Nat) (h : AtLine E s l t rest)
    (hN : 78 ∈ l) (hseq : E.strtol (after 78 l) ≠ s.gcode_LastN + 1)
    (hreset : strstr l M110 = false) :
    (get_command E s).buflen = s.buflen ∧ (get_command E s).bufindw = s.bufindw ∧
    (get_command E s).bufindr = s.bufindr ∧
    (get_command E s).gcode_LastN = s.gcode_LastN ∧
    Resp.resend (s.gcode_LastN + 1) ∈ (get_command E s).out ∧
    ((get_command E s).out =
        s.out ++ [Resp.err_line_no s.gcode_LastN, Resp.resend (s.gcode_LastN + 1), Resp.ok] ∨
      (get_command E s).out =
        s.out ++ [Resp.err_line_no s.gcode_LastN, Resp.resend (s.gcode_LastN + 1)]) := by
  have hloop := serial_loop_line E s l t rest h
  rw [end_of_line_framed E s l t rest h] at hloop
  simp only [hN, hseq, hreset, if_true, ne_eq, not_false_eq_true, and_self] at hloop
  rw [get_command_of_returned E s _ hloop]
  have hr := rejected_framed E s l rest (E.strtol (after 78 l)) (Resp.err_line_no s.gcode_LastN)
  refine ⟨hr.1, hr.2.1, hr.2.2.1, hr.2.2.2.1, ?_, hr.2.2.2.2⟩
  rcases hr.2.2.2.2 with e | e <;> rw [e] <;> simp

/-- Scenario B, second half: `N7 G1 X10*86` after `last_sequence = 4` is rejected and the
response includes the resend request for line 5. -/
theorem C2_witness :
    (get_command stdEnv { State.init with gcode_LastN := 4, rx := bytes "N7 G1 X10*86\n" }).buflen
      = 0 ∧
    (get_command stdEnv { State.init with gcode_LastN := 4, rx := bytes "N7 G1 X10*86\n" }).out
      = [Resp.err_line_no 4, Resp.resend 5, Resp.ok] ∧
    Resp.resend (4 + 1) ∈
      (get_command stdEnv
        { State.init with gcode_LastN := 4, rx := bytes "N7 G1 X10*86\n" }).out :=
  ⟨by decide, by decide,
   (C2_out_of_sequence_rejected stdEnv
      { State.init with gcode_LastN := 4, rx := bytes "N7 G1 X10*86\n" }
      (bytes "N7 G1 X10*86") 10 []
      ⟨rfl, rfl, by decide, ⟨by decide, by decide⟩, by decide, Or.inl rfl, by decide⟩
      (by decide) (by decide) (by decide)).2.2.2.2.1⟩

/-- C3. For a streamed line whose sequence field is `last_sequence + 1`, the line is
accepted (enqueued, `last_sequence` advanced) exactly when it has a `'*'` field whose number
is the XOR of the characters before the `'*'`; otherwise it is rejected, with queue length,
write index and `last_sequence` unchanged and a resend request for `last_sequence + 1`. -/
theorem C3_checksum_decides (E : Env) (s : State) (l : List Nat) (t : Nat)
    (h : AtLine E s l t []) (hsd : NoSdPrint E s)
    (hN : 78 ∈ l) (hseq : E.strtol (after 78 l) = s.gcode_LastN + 1) :
    (((get_command E s).buflen = s.buflen + 1 ∧
        (get_command E s).gcode_LastN = s.gcode_LastN + 1) ↔
      (42 ∈ l ∧ E.strtod_int (after 42 l) = (xor_bytes (before 42 l) : Int))) ∧
    (¬ (42 ∈ l ∧ E.strtod_int (after 42 l) = (xor_bytes (before 42 l) : Int)) →
      (get_command E s).buflen = s.buflen ∧ (get_command E s).bufindw = s.bufindw ∧
      (get_command E s).gcode_LastN = s.gcode_LastN ∧
      Resp.resend (s.gcode_LastN + 1) ∈ (get_command E s).out) := by
  have hrej : ¬ (42 ∈ l ∧ E.strtod_int (after 42 l) = (xor_bytes (before 42 l) : Int)) →
      (get_command E s).buflen = s.buflen ∧ (get_command E s).bufindw = s.bufindw ∧
      (get_command E s).gcode_LastN = s.gcode_LastN ∧
      Resp.resend (s.gcode_LastN + 1) ∈ (get_command E s).out := by
    intro hbad
    have hloop := serial_loop_line E s l t [] h
    rw [end_of_line_framed E s l t [] h] at hloop
    simp only [hN, hseq, if_true, ne_eq, not_true_eq_false, false_and, if_false] at hloop
    by_cases hstar : 42 ∈ l
    · have hck : ¬ E.strtod_int (after 42 l) = (xor_bytes (before 42 l) : Int) :=
        fun e => hbad ⟨hstar, e⟩
      simp only [hstar, hck, if_true, not_false_eq_true] at hloop
      rw [get_command_of_returned E s _ hloop]
      have hr := rejected_framed E s l [] (s.gcode_LastN + 1)
        (Resp.err_checksum_mismatch s.gcode_LastN)
      refine ⟨hr.1, hr.2.1, hr.2.2.2.1, ?_⟩
      rcases hr.2.2.2.2 with e | e <;> rw [e] <;> simp
    · simp only [hstar, if_false, if_true] at hloop
      rw [get_command_of_returned E s _ hloop]
      have hr := rejected_framed E s l [] (s.gcode_LastN + 1)
        (Resp.err_no_checksum s.gcode_LastN)
      refine ⟨hr.1, hr.2.1, hr.2.2.2.1, ?_⟩
      rcases hr.2.2.2.2 with e | e <;> rw [e] <;> simp
  refine ⟨⟨?_, ?_⟩, hrej⟩
  · intro hacc
    by_contra hbad
    have := (hrej hbad).1
    omega
  · intro hgood
    have := numbered_line_accepted E s l t h hsd hN hseq hgood.1 hgood.2
    exact ⟨this.1, this.2.2.1⟩

/-- The line `N5 G1 X10*85` (the XOR is 84) after `last_sequence = 4` is not accepted. -/
theorem C3_witness :
    (((get_command stdEnv
          { State.init with gcode_LastN := 4, rx := bytes "N5 G1 X10*85\n" }).buflen = 0 + 1 ∧
        (get_command stdEnv
          { State.init with gcode_LastN := 4, rx := bytes "N5 G1 X10*85\n" }).gcode_LastN
          = 4 + 1) ↔
      (42 ∈ bytes "N5 G1 X10*85" ∧
        parse_decimal (after 42 (bytes "N5 G1 X10*85")) =
          (xor_bytes (before 42 (bytes "N5 G1 X10*85")) : Int))) ∧
    (get_command stdEnv
      { State.init with gcode_LastN := 4, rx := bytes "N5 G1 X10*85\n" }).out =
      [Resp.err_checksum_mismatch 4, Resp.resend 5, Resp.ok] :=
  ⟨(C3_checksum_decides stdEnv
      { State.init with gcode_LastN := 4, rx := bytes "N5 G1 X10*85\n" }
      (bytes "N5 G1 X10*85") 10
      ⟨rfl, rfl, by decide, ⟨by decide, by decide⟩, by decide, Or.inl rfl, by decide⟩
      (fun h => by cases h) (by decide) (by decide)).1,
   by decide⟩

theorem foldl_xor (l : List Nat) : ∀ a : Nat,
    l.foldl (fun a c => a ^^^ c) a = a ^^^ xor_bytes l := by
  induction l with
  | nil => intro a; simp [xor_bytes]
  | cons c cs ih =>
    intro a
    have h1 := ih (a ^^^ c)
    have h2 := ih (0 ^^^ c)
    simp only [xor_bytes, List.foldl_cons] at h1 h2 ⊢
    rw [h1, h2, Nat.zero_xor, Nat.xor_assoc]

theorem xor_bytes_split (pre post : List Nat) (c : Nat) :
    xor_bytes (pre ++ c :: post) = (xor_bytes pre ^^^ xor_bytes post) ^^^ c := by
  have h1 : xor_bytes (pre ++ c :: post) = (xor_bytes pre ^^^ c) ^^^ xor_bytes post := by
    simp only [xor_bytes, List.foldl_append, List.foldl_cons]
    exact foldl_xor post _
  rw [h1, Nat.xor_assoc, Nat.xor_assoc, Nat.xor_comm c]

theorem before_split (pre post : List Nat) (c : Nat) (hpre : 42 ∉ pre) (hc : c ≠ 42) :
    before 42 (pre ++ c :: post) = pre ++ c :: before 42 post := by
  induction pre with
  | nil => simp [before, List.takeWhile, hc]
  | cons x xs ih =>
    simp only [List.mem_cons, not_or] at hpre
    have hx : x ≠ 42 := fun e => hpre.1 e.symm
    simpa [before, List.takeWhile, hx] using ih hpre.2

theorem after_split (pre post : List Nat) (c : Nat) (hpre : 42 ∉ pre) (hc : c ≠ 42) :
    after 42 (pre ++ c :: post) = after 42 post := by
  induction pre with
  | nil => simp [after, List.dropWhile, hc]
  | cons x xs ih =>
    simp only [List.mem_cons, not_or] at hpre
    have hx : x ≠ 42 := fun e => hpre.1 e.symm
    simpa [after, List.dropWhile, hx] using ih hpre.2

/-- C4 (amended). When a line carries a correct checksum, replacing one character before
the `'*'` by a different character that is itself stored in the line (no NUL, line terminator
or `';'`) and is not `'*'` changes the XOR of the characters before `'*'`, and the corrupted
line is rejected: queue length, write index and `last_sequence` are unchanged. -/
theorem C4_single_corruption_rejected (E : Env) (s : State) (pre post : List Nat) (c c' t : Nat)
    (rest : List Nat) (h : AtLine E s (pre ++ c' :: post) t rest)
    (hpre : 42 ∉ pre) (hc : c ≠ 42) (hc' : c' ≠ 42) (hne : c' ≠ c) (hstar : 42 ∈ post)
    (hck : E.strtod_int (after 42 (pre ++ c :: post)) =
      (xor_bytes (before 42 (pre ++ c :: post)) : Int)) :
    xor_bytes (before 42 (pre ++ c' :: post)) ≠ xor_bytes (before 42 (pre ++ c :: post)) ∧
    (get_command E s).buflen = s.buflen ∧ (get_command E s).bufindw = s.bufindw ∧
    (get_command E s).gcode_LastN = s.gcode_LastN := by
  have hx : xor_bytes (before 42 (pre ++ c' :: post)) ≠
      xor_bytes (before 42 (pre ++ c :: post)) := by
    rw [before_split pre post c' hpre hc', before_split pre post c hpre hc,
      xor_bytes_split, xor_bytes_split]
    intro e
    exact hne (Nat.xor_right_injective e)
  have hbad : ¬ E.strtod_int (after 42 (pre ++ c' :: post)) =
      (xor_bytes (before 42 (pre ++ c' :: post)) : Int) := by
    rw [after_split pre post c' hpre hc', ← after_split pre post c hpre hc, hck]
    intro e
    exact hx (Nat.cast_injective e).symm
  have hmem : 42 ∈ pre ++ c' :: post := by simp [hstar]
  refine ⟨hx, ?_⟩
  have hloop := serial_loop_line E s (pre ++ c' :: post) t rest h
  rw [end_of_line_framed E s (pre ++ c' :: post) t rest h] at hloop
  simp only [hmem, hbad, if_true, ne_eq, not_false_eq_true] at hloop
  by_cases hN : 78 ∈ pre ++ c' :: post
  · simp only [hN, if_true] at hloop
    by_cases hseq : ¬ E.strtol (after 78 (pre ++ c' :: post)) = s.gcode_LastN + 1 ∧
        strstr (pre ++ c' :: post) M110 = false
    · simp only [hseq, and_self, if_true] at hloop
      rw [get_command_of_returned E s _ hloop]
      have hr := rejected_framed E s (pre ++ c' :: post) rest
        (E.strtol (after 78 (pre ++ c' :: post))) (Resp.err_line_no s.gcode_LastN)
      exact ⟨hr.1, hr.2.1, hr.2.2.2.1⟩
    · rw [if_neg hseq] at hloop
      rw [get_command_of_returned E s _ hloop]
      have hr := rejected_framed E s (pre ++ c' :: post) rest
        (E.strtol (after 78 (pre ++ c' :: post))) (Resp.err_checksum_mismatch s.gcode_LastN)
      exact ⟨hr.1, hr.2.1, hr.2.2.2.1⟩
  · simp only [hN, if_false] at hloop
    rw [get_command_of_returned E s _ hloop]
    simp [terminated, framed]

/-- The corrupted line `N5 G1 Y13*87` (for `N5 G1 X13*87`) is rejected. -/
theorem C4_witness :
    xor_bytes (before 42 (bytes "N5 G1 " ++ 89 :: bytes "13*87")) ≠
      xor_bytes (before 42 (bytes "N5 G1 " ++ 88 :: bytes "13*87")) ∧
    (get_command stdEnv
      { State.init with gcode_LastN := 4, rx := bytes "N5 G1 Y13*87\n" }).buflen = 0 ∧
    (get_command stdEnv
      { State.init with gcode_LastN := 4, rx := bytes "N5 G1 Y13*87\n" }).bufindw = 0 ∧
    (get_command stdEnv
      { State.init with gcode_LastN := 4, rx := bytes "N5 G1 Y13*87\n" }).gcode_LastN = 4 :=
  C4_single_corruption_rejected stdEnv
    { State.init with gcode_LastN := 4, rx := bytes "N5 G1 Y13*87\n" }
    (bytes "N5 G1 ") (bytes "13*87") 88 89 10 []
    ⟨rfl, rfl, by decide, ⟨by decide, by decide⟩, by decide, Or.inl rfl, by decide⟩
    (by decide) (by decide) (by decide) (by decide) (by decide) (by decide)

/-- C4 (counterexample). The line `N5 G1 X13*87` has the sequence field 5 and a correct
checksum. Replacing its `X` by `*` gives `N5 G1 *13*87`, whose first `'*'` now follows
`N5 G1 ` (XOR 13) and is followed by `13`: after `last_sequence = 4` the corrupted line is
enqueued and `last_sequence` advances to 5. -/
theorem C4_counterexample :
    bytes "N5 G1 X13*87" = bytes "N5 G1 " ++ 88 :: bytes "13*87" ∧
    bytes "N5 G1 *13*87" = bytes "N5 G1 " ++ 42 :: bytes "13*87" ∧
    42 ∉ bytes "N5 G1 " ∧
    parse_decimal (after 78 (bytes "N5 G1 X13*87")) = 4 + 1 ∧
    parse_decimal (after 42 (bytes "N5 G1 X13*87")) =
      (xor_bytes (before 42 (bytes "N5 G1 X13*87")) : Int) ∧
    (get_command stdEnv
      { State.init with gcode_LastN := 4, rx := bytes "N5 G1 *13*87\n" }).buflen = 1 ∧
    (get_command stdEnv
      { State.init with gcode_LastN := 4, rx := bytes "N5 G1 *13*87\n" }).gcode_LastN = 5 ∧
    cstr stdEnv ((get_command stdEnv
      { State.init with gcode_LastN := 4, rx := bytes "N5 G1 *13*87\n" }).cmdbuffer 0) =
      bytes "N5 G1 *13*87" := by
  decide

/-- C5 (amended). A streamed line with no sequence field but with a `'*'` is rejected: queue
length, write index and `last_sequence` are unchanged, and the only response is the error line
naming `last_sequence`; no resend request and no `ok` is written. -/
theorem C5_checksum_without_sequence (E : Env) (s : State) (l : List Nat) (t : Nat)
    (rest : List Nat) (h : AtLine E s l t rest) (hN : 78 ∉ l) (hstar : 42 ∈ l) :
    (get_command E s).buflen = s.buflen ∧ (get_command E s).bufindw = s.bufindw ∧
    (get_command E s).gcode_LastN = s.gcode_LastN ∧
    (get_command E s).out = s.out ++ [Resp.err_no_linenumber_with_checksum s.gcode_LastN] := by
  have hloop := serial_loop_line E s l t rest h
  rw [end_of_line_framed E s l t rest h] at hloop
  simp only [hN, hstar, if_true, if_false] at hloop
  rw [get_command_of_returned E s _ hloop]
  simp [terminated, framed]

/-- The line `G28*5` gets the error line only. -/
theorem C5_witness :
    (get_command stdEnv { State.init with rx := bytes "G28*5\n" }).buflen = 0 ∧
    (get_command stdEnv { State.init with rx := bytes "G28*5\n" }).bufindw = 0 ∧
    (get_command stdEnv { State.init with rx := bytes "G28*5\n" }).gcode_LastN = 0 ∧
    (get_command stdEnv { State.init with rx := bytes "G28*5\n" }).out =
      [] ++ [Resp.err_no_linenumber_with_checksum 0] :=
  C5_checksum_without_sequence stdEnv { State.init with rx := bytes "G28*5\n" }
    (bytes "G28*5") 10 []
    ⟨rfl, rfl, by decide, ⟨by decide, by decide⟩, by decide, Or.inl rfl, by decide⟩
    (by decide) (by decide)

/-- C5 (counterexample). The line `G28*5` has no sequence field and a `'*'`; the response to
it holds no resend request. -/
theorem C5_counterexample :
    78 ∉ bytes "G28*5" ∧ 42 ∈ bytes "G28*5" ∧
    (get_command stdEnv { State.init with rx := bytes "G28*5\n" }).out =
      [Resp.err_no_linenumber_with_checksum 0] ∧
    (get_command stdEnv { State.init with rx := bytes "G28*5\n" }).out.any Resp.isResend
      = false := by
  decide

/-- C6 (the code at the failing input). The line `G28;home` is not enqueued, although `G28`
alone is, and nothing is written; `comment_mode` stays set, so the next line `G1 X5` is
swallowed as well. -/
theorem C6_comment_line_dropped :
    (get_command stdEnv { State.init with rx := bytes "G28;home\n" }).buflen = 0 ∧
    (get_command stdEnv { State.init with rx := bytes "G28;home\n" }).bufindw = 0 ∧
    (get_command stdEnv { State.init with rx := bytes "G28;home\n" }).out = [] ∧
    (get_command stdEnv { State.init with rx := bytes "G28;home\n" }).comment_mode = true ∧
    (get_command stdEnv { State.init with rx := bytes "G28;home\nG1 X5\n" }).buflen = 0 ∧
    (get_command stdEnv { State.init with rx := bytes "G28;home\nG1 X5\n" }).rx = [] ∧
    (get_command stdEnv { State.init with rx := bytes "G28;home\nG1 X5\n" }).out = [] ∧
    (get_command stdEnv { State.init with rx := bytes "G28\n" }).buflen = 1 ∧
    cstr stdEnv ((get_command stdEnv { State.init with rx := bytes "G28\n" }).cmdbuffer 0) =
      bytes "G28" := by
  decide

theorem end_of_line_empty (E : Env) (s : State) (h0 : s.serial_count = 0) :
    end_of_line E s = ({ s with comment_mode := false }, true) := by
  simp [end_of_line, h0]

theorem serial_loop_eol_empty (E : Env) (c : Nat) (rest : List Nat) (s : State)
    (hb : s.buflen < E.BUFSIZE) (h0 : s.serial_count = 0)
    (heol : is_eol E c { s with rx := rest } = true) :
    serial_loop E (c :: rest) s = ({ { s with rx := rest } with comment_mode := false }, true) := by
  have he := end_of_line_empty E { s with rx := rest } h0
  simp only [serial_loop, hb, if_true, heol, he]

theorem serial_loop_skip (E : Env) (c : Nat) (rest : List Nat) (s : State)
    (hb : s.buflen < E.BUFSIZE) (heol : ¬ is_eol E c { s with rx := rest } = true) :
    serial_loop E (c :: rest) s = serial_loop E rest (store_char c { s with rx := rest }) := by
  simp [serial_loop, hb, heol]

/-- Inside a comment that began at the start of a line nothing is stored, and the line
terminator makes `get_command` return. -/
theorem serial_loop_comment (E : Env) (t : Nat) (rest : List Nat) (ht : t = 10 ∨ t = 13) :
    ∀ (cs : List Nat) (s : State), s.serial_count = 0 → s.comment_mode = true →
    s.buflen < E.BUFSIZE →
    ∃ a, serial_loop E (cs ++ t :: rest) s = (a, true) ∧ SameQueue a s := by
  intro cs
  induction cs with
  | nil =>
    intro s h0 _ hb
    have heol : is_eol E t { s with rx := rest } = true := by
      rcases ht with e | e <;> simp [is_eol, e]
    exact ⟨_, serial_loop_eol_empty E t rest s hb h0 heol, by simp [SameQueue]⟩
  | cons c cs ih =>
    intro s h0 hm hb
    by_cases heol : is_eol E c { s with rx := cs ++ t :: rest } = true
    · exact ⟨_, serial_loop_eol_empty E c _ s hb h0 heol, by simp [SameQueue]⟩
    · have hst : store_char c { s with rx := cs ++ t :: rest } =
          { s with rx := cs ++ t :: rest } := by
        by_cases hc : c = 59 <;> simp [store_char, hc, hm]
      obtain ⟨a, ha, hq⟩ := ih { s with rx := cs ++ t :: rest } h0 hm hb
      refine ⟨a, ?_, ?_⟩
      · rw [List.cons_append, serial_loop_skip E c _ s hb heol, hst]
        exact ha
      · simpa [SameQueue] using hq

theorem serial_loop_full (E : Env) (rx : List Nat) (s : State) (hb : ¬ s.buflen < E.BUFSIZE) :
    serial_loop E rx s = (s, false) := by
  cases rx <;> simp [serial_loop, hb]

theorem sd_loop_full (E : Env) (file : List Int) (s : State) (hb : ¬ s.buflen < E.BUFSIZE) :
    sd_loop E file s = s := by
  cases file <;> simp [sd_loop, hb]

theorem get_command_full (E : Env) (s : State) (hb : ¬ s.buflen < E.BUFSIZE) :
    get_command E s = s := by
  unfold get_command
  simp only [serial_loop_full E s.rx s hb]
  by_cases hS : E.SDSUPPORT = true <;> by_cases hp : s.card_sdprinting = false ∨ s.serial_count ≠ 0
    <;> simp [hS, hp, sd_loop_full E _ s hb]

/-- C7. An empty streamed line, that is a terminator read when no character is stored,
also after a comment that began at the start of the line, is ignored: the command ring, its
indices and length, `last_sequence` and the response sink are unchanged. -/
theorem C7_empty_line_ignored (E : Env) (s : State) (cs : List Nat) (t : Nat) (rest : List Nat)
    (h0 : s.serial_count = 0)
    (hrx : (s.rx = t :: rest ∧ is_eol E t s = true) ∨
      (s.rx = 59 :: cs ++ t :: rest ∧ (t = 10 ∨ t = 13))) :
    (get_command E s).buflen = s.buflen ∧ (get_command E s).bufindw = s.bufindw ∧
    (get_command E s).bufindr = s.bufindr ∧ (get_command E s).cmdbuffer = s.cmdbuffer ∧
    (get_command E s).gcode_LastN = s.gcode_LastN ∧ (get_command E s).out = s.out := by
  by_cases hb : s.buflen < E.BUFSIZE
  · have key : ∃ a, serial_loop E s.rx s = (a, true) ∧ SameQueue a s := by
      rcases hrx with ⟨hrx, heol⟩ | ⟨hrx, ht⟩
      · have heol2 : is_eol E t { s with rx := rest } = true := by
          simpa [is_eol] using heol
        rw [hrx]
        exact ⟨_, serial_loop_eol_empty E t rest s hb h0 heol2, by simp [SameQueue]⟩
      · rw [hrx]
        by_cases heol : is_eol E 59 { s with rx := cs ++ t :: rest } = true
        · exact ⟨_, serial_loop_eol_empty E 59 _ s hb h0 heol, by simp [SameQueue]⟩
        · obtain ⟨a, ha, hq⟩ := serial_loop_comment E t rest ht cs
            (store_char 59 { s with rx := cs ++ t :: rest })
            (by simp [store_char, h0]) (by simp [store_char]) (by simpa [store_char] using hb)
          refine ⟨a, ?_, ?_⟩
          · rw [List.cons_append, serial_loop_skip E 59 _ s hb heol]
            exact ha
          · simpa [SameQueue, store_char] using hq
    obtain ⟨a, ha, hq⟩ := key
    rw [get_command_of_returned E s a ha]
    exact hq
  · rw [get_command_full E s hb]
    simp

/-- A comment-only line at startup leaves the queue, `last_sequence` and the sink as they were. -/
theorem C7_witness :
    (get_command stdEnv { State.init with rx := bytes ";only a comment: x\n" }).buflen
      = ({ State.init with rx := bytes ";only a comment: x\n" } : State).buflen ∧
    (get_command stdEnv { State.init with rx := bytes ";only a comment: x\n" }).out
      = ({ State.init with rx := bytes ";only a comment: x\n" } : State).out :=
  ⟨(C7_empty_line_ignored stdEnv { State.init with rx := bytes ";only a comment: x\n" }
      (bytes "only a comment: x") 10 [] rfl (Or.inr ⟨by decide, Or.inl rfl⟩)).1,
   (C7_empty_line_ignored stdEnv { State.init with rx := bytes ";only a comment: x\n" }
      (bytes "only a comment: x") 10 [] rfl (Or.inr ⟨by decide, Or.inl rfl⟩)).2.2.2.2.2⟩

theorem setCell_ne (buf : Nat → Nat → Nat) (w col v i : Nat) (h : i ≠ w) :
    setCell buf w col v i = buf i := by
  funext j
  simp [setCell, h]

theorem strcpy_ne (buf : Nat → Nat → Nat) (w : Nat) (cmd : List Nat) (i : Nat) (h : i ≠ w) :
    strcpy buf w cmd i = buf i := by
  funext j
  simp [strcpy, h]

theorem Extends.refl (E : Env) (s : State) (h : RingInv E s) : Extends E s s :=
  ⟨h, rfl, [], by simp⟩

theorem Extends.trans {E : Env} {s a b : State} (h1 : Extends E s a) (h2 : Extends E a b) :
    Extends E s b := by
  obtain ⟨_, hr1, n1, hp1⟩ := h1
  obtain ⟨hi2, hr2, n2, hp2⟩ := h2
  exact ⟨hi2, hr2.trans hr1, n1 ++ n2, by rw [hp2, hp1, List.append_assoc]⟩

/-- A waiting slot is not the slot at the write index while the ring has room. -/
theorem pending_slot_ne (E : Env) (s : State) (h : RingInv E s) (hb : s.buflen < E.BUFSIZE)
    (i : Nat) (hi : i < s.buflen) : (s.bufindr + i) % E.BUFSIZE ≠ s.bufindw := by
  rw [h.2.2]
  intro e
  have h1 : i ≡ s.buflen [MOD E.BUFSIZE] := Nat.ModEq.add_left_cancel' s.bufindr e
  have h2 : i % E.BUFSIZE = s.buflen % E.BUFSIZE := h1
  rw [Nat.mod_eq_of_lt (by omega), Nat.mod_eq_of_lt hb] at h2
  omega

theorem pending_congr (E : Env) (s a : State) (hr : a.bufindr = s.bufindr)
    (hn : a.buflen = s.buflen)
    (hrow : ∀ i, i < s.buflen →
      a.cmdbuffer ((s.bufindr + i) % E.BUFSIZE) = s.cmdbuffer ((s.bufindr + i) % E.BUFSIZE)) :
    pending E a = pending E s := by
  unfold pending
  rw [hr, hn]
  apply List.map_congr_left
  intro i hi
  rw [hrow i (List.mem_range.mp hi)]

theorem pending_snoc (E : Env) (s a : State) (hr : a.bufindr = s.bufindr)
    (hn : a.buflen = s.buflen + 1)
    (hrow : ∀ i, i < s.buflen →
      a.cmdbuffer ((s.bufindr + i) % E.BUFSIZE) = s.cmdbuffer ((s.bufindr + i) % E.BUFSIZE)) :
    pending E a =
      pending E s ++ [cstr E (a.cmdbuffer ((s.bufindr + s.buflen) % E.BUFSIZE))] := by
  unfold pending
  rw [hr, hn, List.range_succ, List.map_append]
  congr 1
  apply List.map_congr_left
  intro i hi
  rw [hrow i (List.mem_range.mp hi)]

/-- A production in a ring with room extends the ring; an enqueue appends the slot written. -/
theorem Produces.extends {E : Env} {s a : State} (h : RingInv E s) (hb : s.buflen < E.BUFSIZE)
    (hp : Produces E s a) :
    Extends E s a ∧
    (a.buflen = s.buflen + 1 → pending E a = pending E s ++ [cstr E (a.cmdbuffer s.bufindw)]) := by
  obtain ⟨hr, hrow, hq⟩ := hp
  have hrows : ∀ i, i < s.buflen →
      a.cmdbuffer ((s.bufindr + i) % E.BUFSIZE) = s.cmdbuffer ((s.bufindr + i) % E.BUFSIZE) :=
    fun i hi => hrow _ (pending_slot_ne E s h hb i hi)
  rcases hq with ⟨hw, hn⟩ | ⟨hw, hn⟩
  · refine ⟨⟨⟨by omega, by rw [hr]; exact h.2.1, by rw [hw, hr, hn]; exact h.2.2⟩, hr, [], ?_⟩,
      fun e => by omega⟩
    rw [pending_congr E s a hr hn hrows, List.append_nil]
  · have hps := pending_snoc E s a hr hn hrows
    rw [← h.2.2] at hps
    refine ⟨⟨⟨by omega, by rw [hr]; exact h.2.1, ?_⟩, hr, _, hps⟩, fun _ => hps⟩
    rw [hw, hr, hn, h.2.2, ← Nat.add_assoc, Nat.mod_add_mod]

theorem produces_of_same {E : Env} {s a : State} (hr : a.bufindr = s.bufindr)
    (hc : a.cmdbuffer = s.cmdbuffer) (hw : a.bufindw = s.bufindw) (hn : a.buflen = s.buflen) :
    Produces E s a :=
  ⟨hr, fun i _ => by rw [hc], Or.inl ⟨hw, hn⟩⟩

theorem ClearToSend_queue (E : Env) (s : State) :
    (ClearToSend E s).cmdbuffer = s.cmdbuffer ∧ (ClearToSend E s).bufindr = s.bufindr ∧
    (ClearToSend E s).bufindw = s.bufindw ∧ (ClearToSend E s).buflen = s.buflen := by
  unfold ClearToSend
  split_ifs <;> simp

theorem FlushSerialRequestResend_queue (E : Env) (s : State) :
    (FlushSerialRequestResend E s).cmdbuffer = s.cmdbuffer ∧
    (FlushSerialRequestResend E s).bufindr = s.bufindr ∧
    (FlushSerialRequestResend E s).bufindw = s.bufindw ∧
    (FlushSerialRequestResend E s).buflen = s.buflen := by
  unfold FlushSerialRequestResend
  have h := ClearToSend_queue E
    { s with rx := E.flush s.rx, out := s.out ++ [Resp.resend (s.gcode_LastN + 1)] }
  exact h

theorem Stop_queue (s : State) :
    (Stop s).cmdbuffer = s.cmdbuffer ∧ (Stop s).bufindr = s.bufindr ∧
    (Stop s).bufindw = s.bufindw ∧ (Stop s).buflen = s.buflen := by
  unfold Stop
  split_ifs <;> simp

theorem store_char_produces (E : Env) (c : Nat) (s : State) :
    Produces E s (store_char c s) ∧ (store_char c s).buflen = s.buflen := by
  unfold store_char
  by_cases hc : c = 59 <;> by_cases hm : s.comment_mode = false <;>
    simp only [hc, hm, if_true, if_false, Bool.true_eq_false, and_true] <;>
    first
      | exact produces_of_same rfl rfl rfl rfl
      | exact ⟨rfl, fun i hi => setCell_ne _ _ _ _ i hi, Or.inl ⟨rfl, rfl⟩⟩

theorem rejected_produces (E : Env) (s v : State) (r : Resp)
    (hv : Produces E s v ∧ v.buflen = s.buflen) :
    Produces E s (rejected E v r) ∧ (rejected E v r).buflen = s.buflen := by
  have h := rejected_fields E v r
  obtain ⟨⟨hr, hrow, hq⟩, hn⟩ := hv
  refine ⟨⟨by rw [h.2.2.1, hr], fun i hi => by rw [h.2.2.2.2.1, hrow i hi], Or.inl ⟨?_, ?_⟩⟩, ?_⟩
  · rw [h.2.1]
    rcases hq with q | q
    · exact q.1
    · omega
  · rw [h.1, hn]
  · rw [h.1, hn]

theorem terminated_produces (E : Env) (s : State) :
    Produces E s (terminated s) ∧ (terminated s).buflen = s.buflen := by
  exact ⟨⟨rfl, fun i hi => setCell_ne _ _ _ _ i hi, Or.inl ⟨rfl, rfl⟩⟩, rfl⟩

theorem enqueue_line_produces (E : Env) (s v : State)
    (hv : Produces E s v ∧ v.buflen = s.buflen) : Produces E s (enqueue_line E v) := by
  have h := enqueue_line_fields E v
  obtain ⟨⟨hr, hrow, hq⟩, hn⟩ := hv
  have hw : v.bufindw = s.bufindw := by
    rcases hq with q | q
    · exact q.1
    · omega
  exact ⟨by rw [h.2.2.1, hr], fun i hi => by rw [h.2.2.2.2.1, hrow i hi],
    Or.inr ⟨by rw [h.2.1, hw], by rw [h.1, hn]⟩⟩

theorem end_of_line_produces (E : Env) (s : State) : Produces E s (end_of_line E s).1 := by
  have ht := terminated_produces E s
  have hN : ∀ n : Int, Produces E s { terminated s with gcode_N := n } ∧
      ({ terminated s with gcode_N := n } : State).buflen = s.buflen := fun n => ht
  have hL : ∀ n m : Int, Produces E s { terminated s with gcode_N := n, gcode_LastN := m } ∧
      ({ terminated s with gcode_N := n, gcode_LastN := m } : State).buflen = s.buflen :=
    fun n m => ht
  by_cases h0 : s.serial_count = 0
  · rw [end_of_line_empty E s h0]
    exact produces_of_same rfl rfl rfl rfl
  · by_cases hm : s.comment_mode = false
    · rw [end_of_line_row E s _ h0 hm rfl]
      split_ifs
      · exact (rejected_produces E s _ _ (hN _)).1
      · exact (rejected_produces E s _ _ (hN _)).1
      · exact enqueue_line_produces E s _ (hL _ _)
      · exact (rejected_produces E s _ _ (hN _)).1
      · exact ⟨rfl, fun i hi => setCell_ne _ _ _ _ i hi, Or.inl ⟨rfl, rfl⟩⟩
      · exact enqueue_line_produces E s _ ht
    · simp only [end_of_line, h0, hm, if_false]
      exact ⟨rfl, fun i hi => setCell_ne _ _ _ _ i hi, Or.inl ⟨rfl, rfl⟩⟩

theorem extends_of_same {E : Env} {s a : State} (h : RingInv E s) (hr : a.bufindr = s.bufindr)
    (hc : a.cmdbuffer = s.cmdbuffer) (hw : a.bufindw = s.bufindw) (hn : a.buflen = s.buflen) :
    Extends E s a := by
  refine ⟨⟨by rw [hn]; exact h.1, by rw [hr]; exact h.2.1, by rw [hw, hr, hn]; exact h.2.2⟩,
    hr, [], ?_⟩
  rw [pending_congr E s a hr hn (fun i _ => by rw [hc]), List.append_nil]

theorem serial_loop_extends (E : Env) : ∀ (rx : List Nat) (s : State), RingInv E s →
    Extends E s (serial_loop E rx s).1 := by
  intro rx
  induction rx with
  | nil => intro s h; exact Extends.refl E s h
  | cons c rest ih =>
    intro s h
    by_cases hb : s.buflen < E.BUFSIZE
    · by_cases heol : is_eol E c { s with rx := rest } = true
      · have hp : Produces E s (end_of_line E { s with rx := rest }).1 :=
          end_of_line_produces E { s with rx := rest }
        have he := (Produces.extends h hb hp).1
        by_cases hret : (end_of_line E { s with rx := rest }).2 = true
        · have : serial_loop E (c :: rest) s = end_of_line E { s with rx := rest } := by
            simp [serial_loop, hb, heol, hret]
          rw [this]
          exact he
        · have : serial_loop E (c :: rest) s =
              serial_loop E rest (end_of_line E { s with rx := rest }).1 := by
            simp [serial_loop, hb, heol, hret]
          rw [this]
          exact he.trans (ih _ he.1)
      · rw [serial_loop_skip E c rest s hb heol]
        have hp : Produces E s (store_char c { s with rx := rest }) :=
          (store_char_produces E c { s with rx := rest }).1
        have he := (Produces.extends h hb hp).1
        exact he.trans (ih _ he.1)
    · rw [serial_loop_full E _ s hb]
      exact Extends.refl E s h

theorem sd_eof_queue (rest : List Int) (s : State) :
    (sd_eof rest s).cmdbuffer = s.cmdbuffer ∧ (sd_eof rest s).bufindr = s.bufindr ∧
    (sd_eof rest s).bufindw = s.bufindw ∧ (sd_eof rest s).buflen = s.buflen ∧
    (sd_eof rest s).serial_count = s.serial_count := by
  unfold sd_eof
  split_ifs <;> simp

theorem sd_enqueue_produces (E : Env) (s v : State)
    (hv : v.cmdbuffer = s.cmdbuffer ∧ v.bufindr = s.bufindr ∧ v.bufindw = s.bufindw ∧
      v.buflen = s.buflen) : Produces E s (sd_enqueue E v) := by
  obtain ⟨hc, hr, hw, hn⟩ := hv
  refine ⟨hr, fun i hi => ?_, Or.inr ⟨?_, ?_⟩⟩
  · show setCell v.cmdbuffer v.bufindw v.serial_count 0 i = s.cmdbuffer i
    rw [hw, hc, setCell_ne _ _ _ _ i hi]
  · show (v.bufindw + 1) % E.BUFSIZE = (s.bufindw + 1) % E.BUFSIZE
    rw [hw]
  · show v.buflen + 1 = s.buflen + 1
    rw [hn]

theorem sd_loop_extends (E : Env) : ∀ (file : List Int) (s : State), RingInv E s →
    Extends E s (sd_loop E file s) := by
  intro file
  induction file with
  | nil => intro s h; exact Extends.refl E s h
  | cons n rest ih =>
    intro s h
    by_cases hb : s.buflen < E.BUFSIZE
    · have hq := sd_eof_queue rest { s with card_file := rest }
      simp only [sd_loop, hb, if_true]
      split_ifs
      · exact extends_of_same h hq.2.1 hq.1 hq.2.2.1 hq.2.2.2.1
      · have hp := sd_enqueue_produces E s (sd_eof rest { s with card_file := rest })
          ⟨hq.1, hq.2.1, hq.2.2.1, hq.2.2.2.1⟩
        have he := (Produces.extends h hb hp).1
        exact he.trans (ih _ he.1)
      · have hp : Produces E s (store_char (n % 256).toNat { s with card_file := rest }) :=
          (store_char_produces E _ { s with card_file := rest }).1
        have he := (Produces.extends h hb hp).1
        exact he.trans (ih _ he.1)
    · rw [sd_loop_full E _ s hb]
      exact Extends.refl E s h

theorem get_command_extends (E : Env) (s : State) (h : RingInv E s) :
    Extends E s (get_command E s) := by
  have h1 := serial_loop_extends E s.rx s h
  unfold get_command
  by_cases hret : (serial_loop E s.rx s).2 = true
  · simp only [hret, if_true]
    exact h1
  · simp only [hret, if_false]
    by_cases hS : E.SDSUPPORT = true
    · by_cases hp : (serial_loop E s.rx s).1.card_sdprinting = false ∨
          (serial_loop E s.rx s).1.serial_count ≠ 0
      · simp only [hS, hp, if_true]
        exact h1
      · simp only [hS, hp, if_true, if_false]
        exact h1.trans (sd_loop_extends E _ _ h1.1)
    · simp only [hS, if_false]
      exact h1

theorem enqueued_produces (E : Env) (cmd : List Nat) (s : State) :
    Produces E s
      { s with cmdbuffer := strcpy s.cmdbuffer s.bufindw cmd,
               out := s.out ++ [Resp.echo cmd],
               bufindw := (s.bufindw + 1) % E.BUFSIZE,
               buflen := s.buflen + 1 } :=
  ⟨rfl, fun i hi => strcpy_ne _ _ _ i hi, Or.inr ⟨rfl, rfl⟩⟩

theorem enquecommand_extends (E : Env) (cmd : List Nat) (s : State) (h : RingInv E s) :
    Extends E s ((enquecommand E cmd s).getD s) := by
  unfold enquecommand
  by_cases hb : s.buflen < E.BUFSIZE
  · by_cases hf : cmd.length < E.MAX_CMD_SIZE ∧ 0 ∉ cmd
    · rw [if_pos hb, if_pos hf, Option.getD_some]
      exact (Produces.extends h hb (enqueued_produces E cmd s)).1
    · rw [if_pos hb, if_neg hf, Option.getD_none]
      exact Extends.refl E s h
  · rw [if_neg hb, Option.getD_some]
    exact Extends.refl E s h

theorem enquecommand_full (E : Env) (cmd : List Nat) (s : State) (hb : ¬ s.buflen < E.BUFSIZE) :
    enquecommand E cmd s = some s := by
  simp [enquecommand, hb]

theorem run_event_extends (E : Env) (e : Event) (s : State) (h : RingInv E s) :
    Extends E s (run_event E e s) := by
  cases e with
  | enque cmd => exact enquecommand_extends E cmd s h
  | stop =>
    exact extends_of_same h (Stop_queue s).2.1 (Stop_queue s).1 (Stop_queue s).2.2.1
      (Stop_queue s).2.2.2
  | echo text => exact extends_of_same h rfl rfl rfl rfl
  | homed v => exact extends_of_same h rfl rfl rfl rfl
  | card a b f => exact extends_of_same h rfl rfl rfl rfl
  | recv d => exact extends_of_same h rfl rfl rfl rfl
  | motion m => exact extends_of_same h rfl rfl rfl rfl

theorem run_events_extends (E : Env) : ∀ (es : List Event) (s : State), RingInv E s →
    Extends E s (run_events E es s) := by
  intro es
  induction es with
  | nil => intro s h; exact Extends.refl E s h
  | cons e es ih =>
    intro s h
    have h1 := run_event_extends E e s h
    exact h1.trans (ih _ h1.1)

theorem Moved.same (s : State) : Moved s s := ⟨s.m, [], by simp⟩

theorem Moved.machine (s : State) (m : Machine) : Moved s { s with m := m } :=
  ⟨m, [], by simp⟩

theorem Moved.andThen {s a b : State} (h1 : Moved s a) (h2 : Moved a b) : Moved s b := by
  obtain ⟨m1, t1, rfl⟩ := h1
  obtain ⟨m2, t2, rfl⟩ := h2
  exact ⟨m2, t1 ++ t2, by simp⟩

theorem resolve_axis_moved (E : Env) (b : Bool) (i : Nat) (s : State) :
    Moved s (resolve_axis E b i s) :=
  Moved.machine s _

theorem resolve_feedrate_moved (E : Env) (s : State) : Moved s (resolve_feedrate E s) := by
  unfold resolve_feedrate
  split
  · dsimp only
    split
    · exact Moved.machine s _
    · exact Moved.machine s _
  · exact Moved.same s

theorem auto_retract_moved (E : Env) (s : State) : Moved s (auto_retract E s) := by
  unfold auto_retract
  dsimp only
  repeat' split
  all_goals first
    | exact Moved.same s
    | exact Moved.machine s _

theorem get_coordinates_moved (E : Env) (b : Bool) (s : State) :
    Moved s (get_coordinates E b s) := by
  unfold get_coordinates
  dsimp only
  have h := ((((resolve_axis_moved E b 0 s).andThen (resolve_axis_moved E b 1 _)).andThen
    (resolve_axis_moved E b 2 _)).andThen (resolve_axis_moved E b 3 _)).andThen
    (resolve_feedrate_moved E _)
  split
  · exact h.andThen (auto_retract_moved E _)
  · exact h

theorem plan_segment_moved (E : Env) (s : State) : Moved s (plan_segment E s) :=
  ⟨_, _, rfl⟩

theorem segment_loop_moved (E : Env) (difference : Nat → ℚ) (f : ℚ) :
    ∀ (n k : Nat) (s : State), Moved s (segment_loop E difference f n k s) := by
  intro n
  induction n with
  | zero => intro k s; exact Moved.same s
  | succ n ih =>
    intro k s
    unfold segment_loop
    exact ((Moved.machine s _).andThen (plan_segment_moved E _)).andThen (ih _ _)

theorem soft_endstops_moved (E : Env) (s : State) : Moved s (soft_endstops E s) := by
  unfold soft_endstops
  split
  · exact Moved.machine s _
  · exact Moved.same s

theorem plan_move_moved (E : Env) (s : State) : Moved s (plan_move E s) := by
  unfold plan_move
  split
  · exact Moved.same s
  · exact (segment_loop_moved E _ _ _ _ _).andThen (Moved.machine _ _)

theorem prepare_move_moved (E : Env) (s : State) : Moved s (prepare_move E s) :=
  (soft_endstops_moved E s).andThen (plan_move_moved E _)

theorem gcode_G10_moved (E : Env) (s : State) : Moved s (gcode_G10 E s) := by
  unfold gcode_G10
  split
  · exact (Moved.machine s _).andThen (prepare_move_moved E _)
  · exact Moved.same s

theorem gcode_G11_moved (E : Env) (s : State) : Moved s (gcode_G11 E s) := by
  unfold gcode_G11
  split
  · exact (Moved.machine s _).andThen (prepare_move_moved E _)
  · exact Moved.same s

theorem Moved.queue {E : Env} {s a : State} (h : RingInv E s) (hm : Moved s a) :
    Extends E s a := by
  obtain ⟨m, t, rfl⟩ := hm
  exact extends_of_same h rfl rfl rfl rfl

theorem Extends.clear {E : Env} {s a : State} (h : Extends E s a) :
    Extends E s (ClearToSend E a) :=
  h.trans (extends_of_same h.1 (ClearToSend_queue E a).2.1 (ClearToSend_queue E a).1
    (ClearToSend_queue E a).2.2.1 (ClearToSend_queue E a).2.2.2)

theorem Extends.flush {E : Env} {s a : State} (h : Extends E s a) :
    Extends E s (FlushSerialRequestResend E a) :=
  h.trans (extends_of_same h.1 (FlushSerialRequestResend_queue E a).2.1
    (FlushSerialRequestResend_queue E a).1 (FlushSerialRequestResend_queue E a).2.2.1
    (FlushSerialRequestResend_queue E a).2.2.2)

theorem process_commands_extends (E : Env) (o : Oracle) (s : State) (h : RingInv E s) :
    Extends E s (process_commands E o s) := by
  have hev := run_events_extends E o.body s h
  have hmoved : ∀ a : State, Moved s a → Extends E s (run_events E o.body a) :=
    fun a ha => (Moved.queue h ha).trans (run_events_extends E o.body a (Moved.queue h ha).1)
  have hsame : ∀ a : State, a.bufindr = s.bufindr → a.cmdbuffer = s.cmdbuffer →
      a.bufindw = s.bufindw → a.buflen = s.buflen → Extends E s a :=
    fun a h1 h2 h3 h4 => extends_of_same h h1 h2 h3 h4
  unfold process_commands
  dsimp only
  repeat' split
  all_goals first
    | exact hev
    | exact Extends.clear hev
    | exact hmoved _ ((get_coordinates_moved E true s).andThen (prepare_move_moved E _))
    | exact Extends.clear (hmoved _ (gcode_G10_moved E s))
    | exact Extends.clear (hmoved _ (gcode_G11_moved E s))
    | (apply Extends.clear; exact hsame _ rfl rfl rfl rfl)
    | (apply Extends.clear; apply Extends.flush; exact hsame _ rfl rfl rfl rfl)

theorem dequeue_fifo (E : Env) (s : State) (h : RingInv E s) (hn : s.buflen ≠ 0) :
    RingInv E { s with buflen := s.buflen - 1, bufindr := (s.bufindr + 1) % E.BUFSIZE } ∧
    pending E { s with buflen := s.buflen - 1, bufindr := (s.bufindr + 1) % E.BUFSIZE } =
      (pending E s).tail := by
  obtain ⟨m, hm⟩ : ∃ m, s.buflen = m + 1 := ⟨s.buflen - 1, by omega⟩
  refine ⟨⟨?_, ?_, ?_⟩, ?_⟩
  · show s.buflen - 1 ≤ E.BUFSIZE
    have := h.1
    omega
  · show (s.bufindr + 1) % E.BUFSIZE % E.BUFSIZE = (s.bufindr + 1) % E.BUFSIZE
    exact Nat.mod_mod _ _
  · show s.bufindw = ((s.bufindr + 1) % E.BUFSIZE + (s.buflen - 1)) % E.BUFSIZE
    rw [Nat.mod_add_mod, h.2.2, hm]
    congr 1
    omega
  · show List.map (fun i => cstr E (s.cmdbuffer (((s.bufindr + 1) % E.BUFSIZE + i) % E.BUFSIZE)))
        (List.range (s.buflen - 1)) = (pending E s).tail
    unfold pending
    rw [hm, List.range_succ_eq_map]
    simp only [Nat.add_sub_cancel, List.map_cons, List.tail_cons, List.map_map]
    apply List.map_congr_left
    intro i _
    simp only [Function.comp, Nat.mod_add_mod]
    have e : s.bufindr + 1 + i = s.bufindr + (i + 1) := by omega
    rw [e]

theorem loop_eq (E : Env) (o : Oracle) (s : State) :
    loop E o s = run_events E o.housekeeping
      (if (fetched E o s).buflen ≠ 0 then
        { handled E o (fetched E o s) with
          buflen := (handled E o (fetched E o s)).buflen - 1,
          bufindr := ((handled E o (fetched E o s)).bufindr + 1) % E.BUFSIZE }
       else fetched E o s) := rfl

theorem dispatched_eq (E : Env) (o : Oracle) (s : State) :
    dispatched E o s =
      if (fetched E o s).buflen ≠ 0 then
        some (cstr E ((fetched E o s).cmdbuffer (fetched E o s).bufindr))
      else none := rfl

theorem RingInv.init (E : Env) : RingInv E State.init :=
  ⟨Nat.zero_le _, Nat.zero_mod _, (Nat.zero_mod _).symm⟩

theorem pending_head (E : Env) (s : State) (h : RingInv E s) (hn : s.buflen ≠ 0) :
    (pending E s).head? = some (cstr E (s.cmdbuffer s.bufindr)) := by
  obtain ⟨m, hm⟩ : ∃ m, s.buflen = m + 1 := ⟨s.buflen - 1, by omega⟩
  unfold pending
  rw [hm, List.range_succ_eq_map]
  simp [h.2.1]

theorem pending_empty (E : Env) (s : State) (hn : s.buflen = 0) : pending E s = [] := by
  simp [pending, hn]

theorem fetched_extends (E : Env) (o : Oracle) (s : State) (h : RingInv E s) :
    Extends E s (fetched E o s) := by
  have h1 : Extends E s (if s.buflen < E.BUFSIZE - 1 then get_command E s else s) := by
    split_ifs
    · exact get_command_extends E s h
    · exact Extends.refl E s h
  unfold fetched
  dsimp only
  split_ifs
  · exact (get_command_extends E s h).trans (run_events_extends E _ _ (get_command_extends E s h).1)
  · exact (Extends.refl E s h).trans (run_events_extends E _ _ h)
  · exact get_command_extends E s h
  · exact Extends.refl E s h

theorem handled_extends (E : Env) (o : Oracle) (s : State) (h : RingInv E s) :
    Extends E s (handled E o s) := by
  unfold handled
  split_ifs
  · exact extends_of_same h rfl rfl rfl rfl
  · exact extends_of_same h rfl rfl rfl rfl
  · exact process_commands_extends E o s h

/-- One iteration of `loop`: the line dispatched is the oldest waiting line, it leaves the
ring, and the other lines keep their order. -/
theorem loop_fifo (E : Env) (o : Oracle) (s : State) (h : RingInv E s) :
    RingInv E (loop E o s) ∧
    ∃ new1 new2, dispatched E o s = (pending E s ++ new1).head? ∧
      pending E (loop E o s) = (pending E s ++ new1).tail ++ new2 := by
  obtain ⟨hi2, _, new1, hp2⟩ := fetched_extends E o s h
  rw [loop_eq, dispatched_eq]
  by_cases hn : (fetched E o s).buflen ≠ 0
  · obtain ⟨hi3, hr3, newA, hp3⟩ := handled_extends E o (fetched E o s) hi2
    have hn3 : (handled E o (fetched E o s)).buflen ≠ 0 := by
      intro e
      have := congrArg List.length hp3
      simp [pending, e] at this
      omega
    obtain ⟨hi4, hp4⟩ := dequeue_fifo E (handled E o (fetched E o s)) hi3 hn3
    obtain ⟨hi5, _, newB, hp5⟩ := run_events_extends E o.housekeeping _ hi4
    rw [if_pos hn, if_pos hn]
    refine ⟨hi5, new1, newA ++ newB, ?_, ?_⟩
    · rw [← hp2, pending_head E _ hi2 hn]
    · have hne : pending E (fetched E o s) ≠ [] := by
        intro e
        have := pending_head E _ hi2 hn
        rw [e] at this
        simp at this
      rw [hp5, hp4, hp3, List.tail_append_of_ne_nil hne, ← hp2, List.append_assoc]
  · have hn0 : (fetched E o s).buflen = 0 := by
      by_contra e
      exact hn e
    obtain ⟨hi5, _, newB, hp5⟩ := run_events_extends E o.housekeeping _ hi2
    rw [if_neg hn, if_neg hn]
    refine ⟨hi5, new1, newB, ?_, ?_⟩
    · rw [← hp2, pending_empty E _ hn0]
      rfl
    · rw [hp5, ← hp2, pending_empty E _ hn0]
      rfl

theorem reachable_inv (E : Env) (s : State) (h : Reachable E s) : RingInv E s := by
  induction h with
  | refl => exact RingInv.init E
  | tail _ hstep ih =>
    cases hstep with
    | event e _ => exact (run_event_extends E e _ ih).1
    | get_command => exact (get_command_extends E _ ih).1
    | loop o _ => exact (loop_fifo E o _ ih).1

/-- An accepted line leaves `get_command` through `enqueue_line`. -/
theorem accepted_state (E : Env) (s : State) (l : List Nat) (t : Nat)
    (h : AtLine E s l t []) (hsd : NoSdPrint E s) (ha : Accepts E s l) :
    ∃ n m : Int, get_command E s =
      enqueue_line E { terminated (framed s l []) with gcode_N := n, gcode_LastN := m } := by
  have hloop := serial_loop_line E s l t [] h
  rw [end_of_line_framed E s l t [] h] at hloop
  have hsd2 : ∀ n m : Int, E.SDSUPPORT = true →
      (enqueue_line E { terminated (framed s l []) with
        gcode_N := n, gcode_LastN := m }).card_sdprinting = false := by
    intro n m hS
    simpa [enqueue_line_fields, terminated, framed] using hsd hS
  rcases ha with ⟨hN, hseq, hstar, hck⟩ | ⟨hN, hstar⟩
  · have hseq2 : ¬ (E.strtol (after 78 l) ≠ s.gcode_LastN + 1 ∧ strstr l M110 = false) := by
      rintro ⟨h1, h2⟩
      rcases hseq with e | e
      · exact h1 e
      · rw [h2] at e
        cases e
    simp only [hN, hstar, hck, if_true, ne_eq, not_true_eq_false, if_false,
      serial_loop_nil, Bool.false_eq_true] at hloop
    rw [if_neg hseq2] at hloop
    exact ⟨_, _, get_command_of_fallthrough E s _ hloop (hsd2 _ _)⟩
  · simp only [hN, hstar, if_false, serial_loop_nil, Bool.false_eq_true] at hloop
    exact ⟨s.gcode_N, s.gcode_LastN, get_command_of_fallthrough E s _ hloop (hsd2 _ _)⟩

/-- C8. In every state reachable from startup the queue length satisfies
`0 ≤ buflen ≤ BUFSIZE`, and when `buflen = BUFSIZE` an enqueue attempt, by `enquecommand` or
by `get_command`, leaves the whole state unchanged. -/
theorem C8_queue_bounded (E : Env) (s : State) (h : Reachable E s) :
    0 ≤ s.buflen ∧ s.buflen ≤ E.BUFSIZE ∧
    (s.buflen = E.BUFSIZE →
      (∀ cmd, enquecommand E cmd s = some s) ∧ get_command E s = s) := by
  refine ⟨Nat.zero_le _, (reachable_inv E s h).1, fun hfull => ⟨fun cmd => ?_, ?_⟩⟩
  · exact enquecommand_full E cmd s (by omega)
  · exact get_command_full E s (by omega)

theorem recv_fits (E : Env) (data : List Nat) : EventsFit E [Event.recv data] := by
  intro cmd h
  simp at h

/-- With four lines waiting in a ring of four slots nothing more is enqueued. -/
theorem C8_witness :
    fullState.buflen = 4 ∧ 0 ≤ fullState.buflen ∧ fullState.buflen ≤ stdEnv.BUFSIZE ∧
    (fullState.buflen = stdEnv.BUFSIZE →
      (∀ cmd, enquecommand stdEnv cmd fullState = some fullState) ∧
      get_command stdEnv fullState = fullState) :=
  ⟨by decide,
   C8_queue_bounded stdEnv fullState
    (Relation.ReflTransGen.tail
      (Relation.ReflTransGen.tail Relation.ReflTransGen.refl
        (Step.event State.init (Event.recv (bytes "G28\nG28\nG28\nG28\nG28\n")) (recv_fits _ _)))
      (Step.get_command _))⟩

theorem ClearToSend_out (E : Env) (s : State) (h : s.fromsd s.bufindr = false) :
    (ClearToSend E s).out = s.out ++ [Resp.ok] := by
  simp [ClearToSend, h]

/-- The framer's answer to an accepted line. -/
theorem accepted_out (E : Env) (s : State) (l : List Nat) (t : Nat)
    (h : AtLine E s l t []) (hsd : NoSdPrint E s) (ha : Accepts E s l)
    (hsave : E.SDSUPPORT = true → s.card_saving = false) :
    (IsG0G1 E l → s.Stopped = false → (get_command E s).out = s.out ++ [Resp.ok]) ∧
    (IsG0G1 E l → s.Stopped = true → (get_command E s).out = s.out ++ [Resp.err_stopped]) ∧
    (71 ∉ l → (get_command E s).out = s.out) := by
  obtain ⟨n, m, e⟩ := accepted_state E s l t h hsd ha
  have hrow := framed_row E s l [] h.1 h.2.2.2.1
  have hrow2 : cstr E (setCell (writeRow s.cmdbuffer s.bufindw s.serial_count l) s.bufindw
      (s.serial_count + l.length) 0 s.bufindw) = l := hrow
  have hnosave : ¬ (E.SDSUPPORT = true ∧ s.card_saving = true) := by
    rintro ⟨h1, h2⟩
    rw [hsave h1] at h2
    cases h2
  rw [e, (enqueue_line_fields E _).2.2.2.2.2.2.2.2.2]
  refine ⟨?_, ?_, ?_⟩
  · rintro ⟨hG, hcode⟩ hst
    obtain ⟨p, hp, hpt⟩ := strchr_of_mem hG
    have hc : E.strtod_int (after 71 l) = 0 ∨ E.strtod_int (after 71 l) = 1 ∨
        E.strtod_int (after 71 l) = 2 ∨ E.strtod_int (after 71 l) = 3 := by
      rcases hcode with c | c
      · exact Or.inl c
      · exact Or.inr (Or.inl c)
    simp [ack_G, terminated, framed, hrow2, hp, hpt, hc, hst, hnosave]
  · rintro ⟨hG, hcode⟩ hst
    obtain ⟨p, hp, hpt⟩ := strchr_of_mem hG
    have hc : E.strtod_int (after 71 l) = 0 ∨ E.strtod_int (after 71 l) = 1 ∨
        E.strtod_int (after 71 l) = 2 ∨ E.strtod_int (after 71 l) = 3 := by
      rcases hcode with c | c
      · exact Or.inl c
      · exact Or.inr (Or.inl c)
    simp [ack_G, terminated, framed, hrow2, hp, hpt, hc, hst]
  · intro hG
    simp [ack_G, terminated, framed, hrow2, strchr_of_not_mem hG]

/-- The dispatcher's answer to a streamed line. -/
theorem dispatch_out (E : Env) (o : Oracle) (d : State) (l : List Nat)
    (hd : cstr E (d.cmdbuffer d.bufindr) = l) (hfrom : d.fromsd d.bufindr = false) :
    (IsG0G1 E l → d.Stopped = false → d.dCal_X ≠ 0 →
      (process_commands E o d).out =
        (run_events E o.body (prepare_move E (get_coordinates E true d))).out) ∧
    (IsG0G1 E l → d.Stopped = true →
      (process_commands E o d).out = d.out ++ [Resp.echo no_movement, Resp.ok]) ∧
    (71 ∉ l → 77 ∉ l → 84 ∉ l →
      (process_commands E o d).out = d.out ++ [Resp.echo l, Resp.ok]) := by
  refine ⟨?_, ?_, ?_⟩
  · rintro ⟨hG, hcode⟩ hst hhome
    obtain ⟨p, hp, hpt⟩ := strchr_of_mem hG
    simp [process_commands, hd, hp, hpt, hcode, hst, hhome]
  · rintro ⟨hG, hcode⟩ hst
    obtain ⟨p, hp, hpt⟩ := strchr_of_mem hG
    simp [process_commands, ClearToSend, hd, hp, hpt, hcode, hst, hfrom]
  · intro hG hM hT
    simp [process_commands, ClearToSend, hd, strchr_of_not_mem hG, strchr_of_not_mem hM,
      strchr_of_not_mem hT, hfrom]

theorem setAxis_apply (a : Nat → ℚ) (i : Nat) (v : ℚ) (k : Nat) :
    setAxis a i v k = if k = i then v else a k := rfl

theorem clamp_min_apply (m : Machine) (t : Nat → ℚ) (j k : Nat) :
    clamp_min m t j k = if k = j then (if t j < m.min_pos j then m.min_pos j else t j) else t k := by
  unfold clamp_min
  by_cases h : t j < m.min_pos j <;> by_cases hk : k = j <;> simp [setAxis_apply, h, hk]

theorem clamp_max_apply (m : Machine) (t : Nat → ℚ) (j k : Nat) :
    clamp_max m t j k = if k = j then (if t j > m.max_pos j then m.max_pos j else t j) else t k := by
  unfold clamp_max
  by_cases h : t j > m.max_pos j <;> by_cases hk : k = j <;> simp [setAxis_apply, h, hk]

theorem clamp_apply (E : Env) (m : Machine) (t : Nat → ℚ)
    (hmin : E.min_software_endstops = true) (hmax : E.max_software_endstops = true) (i : Nat) :
    clamp_to_software_endstops E m t i =
      if i < 3 then
        (if (if t i < m.min_pos i then m.min_pos i else t i) > m.max_pos i then m.max_pos i
         else (if t i < m.min_pos i then m.min_pos i else t i))
      else t i := by
  have hi : i = 0 ∨ i = 1 ∨ i = 2 ∨ 3 ≤ i := by omega
  simp only [clamp_to_software_endstops, hmin, hmax, if_true, clamp_min_apply, clamp_max_apply]
  rcases hi with rfl | rfl | rfl | hi
  · simp
  · simp
  · simp
  · have e0 : i ≠ 0 := by omega
    have e1 : i ≠ 1 := by omega
    have e2 : i ≠ 2 := by omega
    have e3 : ¬ i < 3 := by omega
    simp [e0, e1, e2, e3]

theorem clamp_congr (E : Env) (m1 m2 : Machine) (t : Nat → ℚ) (h1 : m1.min_pos = m2.min_pos)
    (h2 : m1.max_pos = m2.max_pos) :
    clamp_to_software_endstops E m1 t = clamp_to_software_endstops E m2 t := by
  simp only [clamp_to_software_endstops, clamp_min, clamp_max, h1, h2]

/-- C12. With the software endstops compiled in, `SoftEndsEnabled` set and `min_pos` at most
`max_pos` on X, Y and Z, the clamping at the start of `prepare_move` leaves a destination
coordinate inside the range or on one of its bounds unchanged, moves a coordinate beyond a bound
to that bound, never changes the E coordinate, and clamping twice is the same as clamping
once. -/
theorem C12_clamp (E : Env) (s : State)
    (hmin : E.min_software_endstops = true) (hmax : E.max_software_endstops = true)
    (hon : s.m.SoftEndsEnabled = true)
    (hle : ∀ i, i < 3 → s.m.min_pos i ≤ s.m.max_pos i) :
    (∀ i, i < 3 → s.m.min_pos i ≤ s.m.destination i → s.m.destination i ≤ s.m.max_pos i →
      (soft_endstops E s).m.destination i = s.m.destination i) ∧
    (∀ i, i < 3 → s.m.destination i < s.m.min_pos i →
      (soft_endstops E s).m.destination i = s.m.min_pos i) ∧
    (∀ i, i < 3 → s.m.max_pos i < s.m.destination i →
      (soft_endstops E s).m.destination i = s.m.max_pos i) ∧
    (soft_endstops E s).m.destination 3 = s.m.destination 3 ∧
    soft_endstops E (soft_endstops E s) = soft_endstops E s := by
  have hd : ∀ i, (soft_endstops E s).m.destination i
      = clamp_to_software_endstops E s.m s.m.destination i := by
    intro i
    simp [soft_endstops, hon]
  refine ⟨?_, ?_, ?_, ?_, ?_⟩
  · intro i hi h1 h2
    rw [hd, clamp_apply E _ _ hmin hmax, if_pos hi, if_neg (not_lt.mpr h1), if_neg (not_lt.mpr h2)]
  · intro i hi h1
    rw [hd, clamp_apply E _ _ hmin hmax, if_pos hi, if_pos h1, if_neg (not_lt.mpr (hle i hi))]
  · intro i hi h1
    have h2 : ¬ s.m.destination i < s.m.min_pos i := not_lt.mpr ((hle i hi).trans h1.le)
    rw [hd, clamp_apply E _ _ hmin hmax, if_pos hi, if_neg h2, if_pos h1]
  · rw [hd, clamp_apply E _ _ hmin hmax, if_neg (by decide)]
  · have e : clamp_to_software_endstops E s.m (clamp_to_software_endstops E s.m s.m.destination)
        = clamp_to_software_endstops E s.m s.m.destination := by
      funext i
      rw [clamp_apply E _ _ hmin hmax, clamp_apply E _ _ hmin hmax]
      by_cases hi : i < 3
      · have := hle i hi
        simp only [if_pos hi]
        split_ifs <;> rfl
      · simp only [if_neg hi]
    have key : ∀ m1 : Machine, m1.min_pos = s.m.min_pos → m1.max_pos = s.m.max_pos →
        clamp_to_software_endstops E m1 (clamp_to_software_endstops E s.m s.m.destination)
          = clamp_to_software_endstops E s.m s.m.destination :=
      fun m1 h1 h2 => (clamp_congr E m1 s.m _ h1 h2).trans e
    simp only [soft_endstops, hon, if_true]
    rw [key _ (by rfl) (by rfl)]

theorem C12_witness :
    (soft_endstops stdEnv clampState).m.destination 0 = 200 ∧
    (soft_endstops stdEnv clampState).m.destination 1 = 0 ∧
    (soft_endstops stdEnv clampState).m.destination 2 = 200 ∧
    (soft_endstops stdEnv clampState).m.destination 3 = 200 ∧
    soft_endstops stdEnv (soft_endstops stdEnv clampState) = soft_endstops stdEnv clampState :=
  have h := C12_clamp stdEnv clampState rfl rfl rfl (fun i _ => by simp [clampState, Machine.init])
  ⟨h.2.2.1 0 (by decide) (by simp [clampState, Machine.init]; norm_num),
   h.2.1 1 (by decide) (by simp [clampState, Machine.init]),
   h.1 2 (by decide) (by simp [clampState, Machine.init]) (by simp [clampState, Machine.init]),
   h.2.2.2.1, h.2.2.2.2⟩

/-! ## get_coordinates -/

theorem code_seen_moved {s a : State} (h : Moved s a) (E : Env) (c : Nat) :
    code_seen E a c = code_seen E s c := by
  obtain ⟨m, t, rfl⟩ := h
  rfl

theorem axis_value_eq (E : Env) (b : Bool) (i : Nat) (s : State) :
    axis_value E b i s =
      match code_seen E s (axis_codes i) with
      | some p => code_value E p * (if b = true then s.m.axis_scaling i else 1)
          + (if s.m.relative_mode = true ∨ s.m.axis_relative_modes i = true
              then s.m.current_position i else 0)
      | none => s.m.current_position i := by
  unfold axis_value
  split
  · dsimp only
    by_cases h1 : s.m.axis_relative_modes i = true <;> by_cases h2 : s.m.relative_mode = true <;>
      simp [h1, h2]
  · rfl

theorem axis_loop_destination (E : Env) (b : Bool) (s : State) (i : Nat) (hi : i < 4) :
    (resolve_axis E b 3 (resolve_axis E b 2 (resolve_axis E b 1
      (resolve_axis E b 0 s)))).m.destination i = axis_value E b i s := by
  have h : i = 0 ∨ i = 1 ∨ i = 2 ∨ i = 3 := by omega
  rcases h with rfl | rfl | rfl | rfl <;> simp [resolve_axis, setAxis_apply] <;> rfl

theorem axis_loop_frame (E : Env) (b : Bool) (s : State) :
    ∃ d, resolve_axis E b 3 (resolve_axis E b 2 (resolve_axis E b 1 (resolve_axis E b 0 s)))
      = { s with m := { s.m with destination := d } } :=
  ⟨_, rfl⟩

theorem resolve_feedrate_frame (E : Env) (s : State) :
    ∃ f n, resolve_feedrate E s = { s with m := { s.m with feedrate := f, next_feedrate := n } } := by
  unfold resolve_feedrate
  split
  · dsimp only
    split
    · exact ⟨_, _, rfl⟩
    · exact ⟨_, _, rfl⟩
  · exact ⟨_, _, rfl⟩
theorem auto_retract_destination (E : Env) (s : State) (i : Nat) :
    (auto_retract E s).m.destination i =
      if i = 2 ∧ s.m.autoretract_enabled = true ∧ s.m.retracted = false ∧
          code_seen E s 88 = none ∧ code_seen E s 89 = none ∧ code_seen E s 90 = none ∧
          (code_seen E s 69).isSome = true ∧
          s.m.destination 3 - s.m.current_position 3 < -E.MIN_RETRACT
      then s.m.destination 2 + s.m.retract_zlift else s.m.destination i := by
  unfold auto_retract
  by_cases h1 : s.m.autoretract_enabled = true
  · by_cases h2 : s.m.retracted = false
    · cases hx : code_seen E s 88 <;> cases hy : code_seen E s 89 <;>
        cases hz : code_seen E s 90 <;> cases he : code_seen E s 69 <;>
        by_cases h3 : s.m.destination 3 - s.m.current_position 3 < -E.MIN_RETRACT <;>
        by_cases h4 : s.m.destination 3 - s.m.current_position 3 > E.MIN_RETRACT <;>
        by_cases hi : i = 2 <;>
        simp [seen, axis_codes, h1, h2, hx, hy, hz, he, h3, h4, hi, setAxis_apply]
    · have h2' : s.m.retracted = true := by simpa using h2
      cases hx : code_seen E s 88 <;> cases hy : code_seen E s 89 <;>
        cases hz : code_seen E s 90 <;> cases he : code_seen E s 69 <;>
        by_cases h3 : s.m.destination 3 - s.m.current_position 3 < -E.MIN_RETRACT <;>
        by_cases h4 : s.m.destination 3 - s.m.current_position 3 > E.MIN_RETRACT <;>
        simp [seen, axis_codes, h1, h2', hx, hy, hz, he, h3, h4]
  · simp [h1]
theorem get_coordinates_destination (E : Env) (b : Bool) (s : State) (i : Nat) (hi : i < 4) :
    (AutoRetracts E b s → i = 2 →
      (get_coordinates E b s).m.destination i = s.m.current_position 2 + s.m.retract_zlift) ∧
    (¬ (AutoRetracts E b s ∧ i = 2) →
      (get_coordinates E b s).m.destination i = axis_value E b i s) := by
  obtain ⟨d, hd⟩ := axis_loop_frame E b s
  have hdest : ∀ k, k < 4 → d k = axis_value E b k s := by
    intro k hk
    rw [← axis_loop_destination E b s k hk, hd]
  obtain ⟨f, n, hf⟩ := resolve_feedrate_frame E
    (resolve_axis E b 3 (resolve_axis E b 2 (resolve_axis E b 1 (resolve_axis E b 0 s))))
  rw [hd] at hf
  have hg : get_coordinates E b s =
      if E.FWRETRACT = true then
        auto_retract E { s with m := { s.m with destination := d, feedrate := f, next_feedrate := n } }
      else { s with m := { s.m with destination := d, feedrate := f, next_feedrate := n } } := by
    unfold get_coordinates
    dsimp only
    rw [hd, hf]
  have h3 : d 3 - s.m.current_position 3 =
      axis_value E b 3 s - s.m.current_position 3 := by rw [hdest 3 (by decide)]
  by_cases hfw : E.FWRETRACT = true
  · rw [hg, if_pos hfw, auto_retract_destination]
    constructor
    · rintro ⟨_, ha, hr, hx, hy, hz, p, hp, hlt⟩ rfl
      have hv : axis_value E b 3 s - s.m.current_position 3 < -E.MIN_RETRACT := by
        rw [axis_value_eq]
        have : code_seen E s (axis_codes 3) = some p := hp
        rw [this]
        exact hlt
      have hc : (code_seen E s 69).isSome = true := by rw [hp]; rfl
      have hz2 : axis_value E b 2 s = s.m.current_position 2 := by
        rw [axis_value_eq]
        have : code_seen E s (axis_codes 2) = none := hz
        rw [this]
      rw [if_pos ⟨rfl, ha, hr, hx, hy, hz, hc, by rw [h3]; exact hv⟩]
      show d 2 + s.m.retract_zlift = _
      rw [hdest 2 (by decide), hz2]
    · intro hno
      rw [if_neg]
      · exact hdest i hi
      · rintro ⟨rfl, ha, hr, hx, hy, hz, he, hlt⟩
        apply hno
        refine ⟨⟨hfw, ha, hr, hx, hy, hz, ?_⟩, rfl⟩
        have he2 : (code_seen E s 69).isSome = true := he
        obtain ⟨p, hp⟩ := Option.isSome_iff_exists.mp he2
        refine ⟨p, hp, ?_⟩
        have hlt2 : d 3 - s.m.current_position 3 < -E.MIN_RETRACT := hlt
        rw [h3, axis_value_eq] at hlt2
        have : code_seen E s (axis_codes 3) = some p := hp
        rw [this] at hlt2
        exact hlt2
  · rw [hg, if_neg hfw]
    constructor
    · rintro ⟨h, _⟩
      exact absurd h hfw
    · intro _
      exact hdest i hi
/-- C11 (amended). For every command and every axis `i` of X, Y, Z, E, `get_coordinates`
sets `destination[i] = value*scale + (current_position[i]` if `relative_mode` or
`axis_relative_modes[i]`, else `0)` when the command has that axis letter, `scale` being
`axis_scaling[i]` if `apply_scaling` and `1` otherwise. When the letter is absent it sets
`destination[i] = current_position[i]`, except that for an extruder-only command that the
`FWRETRACT` block turns into a firmware retract, `destination[Z]` is
`current_position[Z] + retract_zlift`. The positions are those before the call. -/
theorem C11_get_coordinates (E : Env) (apply_scaling : Bool) (s : State) (i : Nat) (hi : i < 4) :
    (∀ p, code_seen E s (axis_codes i) = some p →
      (get_coordinates E apply_scaling s).m.destination i =
        code_value E p * (if apply_scaling = true then s.m.axis_scaling i else 1)
          + (if s.m.relative_mode = true ∨ s.m.axis_relative_modes i = true
              then s.m.current_position i else 0)) ∧
    (code_seen E s (axis_codes i) = none → ¬ (i = 2 ∧ AutoRetracts E apply_scaling s) →
      (get_coordinates E apply_scaling s).m.destination i = s.m.current_position i) ∧
    (i = 2 → AutoRetracts E apply_scaling s →
      (get_coordinates E apply_scaling s).m.destination i =
        s.m.current_position i + s.m.retract_zlift) := by
  have h := get_coordinates_destination E apply_scaling s i hi
  refine ⟨?_, ?_, ?_⟩
  · intro p hp
    have hno : ¬ (AutoRetracts E apply_scaling s ∧ i = 2) := by
      rintro ⟨⟨_, _, _, _, _, hz, _⟩, rfl⟩
      have : code_seen E s 90 = some p := hp
      rw [hz] at this
      exact Option.noConfusion this
    rw [h.2 hno, axis_value_eq, hp]
  · intro hp hno
    rw [h.2 (fun hh => hno ⟨hh.2, hh.1⟩), axis_value_eq, hp]
  · rintro rfl ha
    exact h.1 ha rfl

theorem moveLine_machine : moveLine.m = bedMachine := by rfl

theorem moveLine_words :
    code_seen stdEnv moveLine 88 = some (bytes "X10 Y10 F600") ∧
    code_seen stdEnv moveLine 89 = some (bytes "Y10 F600") ∧
    code_seen stdEnv moveLine 90 = none ∧
    code_seen stdEnv moveLine 69 = none ∧
    code_seen stdEnv moveLine 70 = some (bytes "F600") := by
  decide

theorem moveLine_values :
    code_value stdEnv (bytes "X10 Y10 F600") = 10 ∧
    code_value stdEnv (bytes "Y10 F600") = 10 ∧
    code_value stdEnv (bytes "F600") = 600 := by
  decide

theorem C11_witness :
    (get_coordinates stdEnv true moveLine).m.destination 0 = 10 ∧
    (get_coordinates stdEnv true moveLine).m.destination 2 = 0 := by
  constructor
  · rw [(C11_get_coordinates stdEnv true moveLine 0 (by decide)).1 _ moveLine_words.1,
      moveLine_values.1, moveLine_machine]
    norm_num [bedMachine, Machine.init]
  · rw [(C11_get_coordinates stdEnv true moveLine 2 (by decide)).2.1 moveLine_words.2.2.1
      (fun h => by
        have h1 := h.2.2.2.2.1
        rw [moveLine_words.1] at h1
        exact Option.noConfusion h1), moveLine_machine]
    rfl
theorem retractLine_machine : retractLine.m = Machine.init := by rfl

theorem retractLine_words :
    code_seen stdEnv retractLine 88 = none ∧
    code_seen stdEnv retractLine 89 = none ∧
    code_seen stdEnv retractLine 90 = none ∧
    code_seen stdEnv retractLine 69 = some (bytes "E-5") ∧
    code_value stdEnv (bytes "E-5") = -5 := by
  decide

theorem retractLine_retracts : AutoRetracts stdEnv true retractLine := by
  refine ⟨rfl, ?_, ?_, retractLine_words.1, retractLine_words.2.1, retractLine_words.2.2.1,
    _, retractLine_words.2.2.2.1, ?_⟩
  · rw [retractLine_machine]; rfl
  · rw [retractLine_machine]; rfl
  · rw [retractLine_words.2.2.2.2, retractLine_machine]
    norm_num [Machine.init, stdEnv]

/-- C11, counterexample. With the `FWRETRACT` block compiled in, the command `G1 E-5` on the
initial state has no `Z` word, and `get_coordinates` leaves `destination[Z]` at 4/5 while
`current_position[Z]` is 0. -/
theorem C11_counterexample :
    code_seen stdEnv retractLine (axis_codes 2) = none ∧
    retractLine.m.current_position 2 = 0 ∧
    (get_coordinates stdEnv true retractLine).m.destination 2 = 4 / 5 := by
  refine ⟨retractLine_words.2.2.1, by rw [retractLine_machine]; rfl, ?_⟩
  rw [(get_coordinates_destination stdEnv true retractLine 2 (by decide)).1
    retractLine_retracts rfl, retractLine_machine]
  norm_num [Machine.init]

/-! ## The binary32 rounding -/

/-- With enough fuel `halvings` is the binary logarithm, rounded down. -/
theorem halvings_spec : ∀ (f n : Nat), 1 ≤ n → n ≤ f →
    2 ^ halvings f n ≤ n ∧ n < 2 ^ (halvings f n + 1) := by
  intro f
  induction f with
  | zero =>
    intro n h1 h2
    omega
  | succ f ih =>
    intro n h1 h2
    unfold halvings
    by_cases h : 2 ≤ n
    · rw [if_pos h]
      have hd1 : 1 ≤ n / 2 := by omega
      have hd2 : n / 2 ≤ f := by omega
      obtain ⟨a, b⟩ := ih (n / 2) hd1 hd2
      constructor
      · rw [pow_succ]
        omega
      · rw [pow_succ]
        omega
    · rw [if_neg h]
      constructor
      · simpa using h1
      · simp
        omega

/-- The binary exponent: `2 ^ ilog2 q <= |q| < 2 ^ (ilog2 q + 1)` for `q` other than 0. -/
theorem ilog2_spec (q : ℚ) (hq : q ≠ 0) :
    (2 : ℚ) ^ ilog2 q ≤ |q| ∧ |q| < (2 : ℚ) ^ (ilog2 q + 1) := by
  have hn : 1 ≤ q.num.natAbs := by
    have : q.num ≠ 0 := Rat.num_ne_zero.mpr hq
    omega
  have hd : 1 ≤ q.den := q.den_pos
  obtain ⟨a1, a2⟩ := halvings_spec q.num.natAbs q.num.natAbs hn (le_refl _)
  obtain ⟨b1, b2⟩ := halvings_spec q.den q.den hd (le_refl _)
  generalize ha : halvings q.num.natAbs q.num.natAbs = a at a1 a2
  generalize hb : halvings q.den q.den = b at b1 b2
  have habs : |q| = (q.num.natAbs : ℚ) / (q.den : ℚ) := by
    have h1 : |q| = |(q.num : ℚ)| / |(q.den : ℚ)| := by
      conv_lhs => rw [← Rat.num_div_den q]
      rw [abs_div]
    rw [h1, Nat.abs_cast, Nat.cast_natAbs, Int.cast_abs]
  have hdq : (0 : ℚ) < (q.den : ℚ) := by exact_mod_cast q.den_pos
  have a1q : (2 : ℚ) ^ a ≤ (q.num.natAbs : ℚ) := by exact_mod_cast a1
  have a2q : (q.num.natAbs : ℚ) < (2 : ℚ) ^ (a + 1) := by exact_mod_cast a2
  have b1q : (2 : ℚ) ^ b ≤ (q.den : ℚ) := by exact_mod_cast b1
  have b2q : (q.den : ℚ) < (2 : ℚ) ^ (b + 1) := by exact_mod_cast b2
  have h2 : (0 : ℚ) < 2 := by norm_num
  have hupper : |q| < (2 : ℚ) ^ ((a : Int) - (b : Int) + 1) := by
    rw [habs, div_lt_iff₀ hdq]
    have e : (2 : ℚ) ^ ((a : Int) - (b : Int) + 1) * (2 : ℚ) ^ (b : Int) = (2 : ℚ) ^ ((a : Int) + 1) := by
      rw [← zpow_add₀ (ne_of_gt h2)]
      congr 1
      ring
    have e2 : (2 : ℚ) ^ ((a : Int) + 1) = (2 : ℚ) ^ (a + 1) := by
      have : ((a : Int) + 1) = ((a + 1 : Nat) : Int) := by push_cast; ring
      rw [this, zpow_natCast]
    have e3 : (2 : ℚ) ^ (b : Int) = (2 : ℚ) ^ b := zpow_natCast _ _
    have hpos : (0 : ℚ) < (2 : ℚ) ^ ((a : Int) - (b : Int) + 1) := zpow_pos h2 _
    calc (q.num.natAbs : ℚ) < (2 : ℚ) ^ (a + 1) := a2q
      _ = (2 : ℚ) ^ ((a : Int) - (b : Int) + 1) * (2 : ℚ) ^ b := by rw [← e2, ← e, e3]
      _ ≤ (2 : ℚ) ^ ((a : Int) - (b : Int) + 1) * (q.den : ℚ) :=
        mul_le_mul_of_nonneg_left b1q (le_of_lt hpos)
  have hlower : (2 : ℚ) ^ ((a : Int) - (b : Int) - 1) ≤ |q| := by
    rw [habs, le_div_iff₀ hdq]
    have e : (2 : ℚ) ^ ((a : Int) - (b : Int) - 1) * (2 : ℚ) ^ ((b : Int) + 1) = (2 : ℚ) ^ (a : Int) := by
      rw [← zpow_add₀ (ne_of_gt h2)]
      congr 1
      ring
    have e2 : (2 : ℚ) ^ ((b : Int) + 1) = (2 : ℚ) ^ (b + 1) := by
      have : ((b : Int) + 1) = ((b + 1 : Nat) : Int) := by push_cast; ring
      rw [this, zpow_natCast]
    have e3 : (2 : ℚ) ^ (a : Int) = (2 : ℚ) ^ a := zpow_natCast _ _
    have hpos : (0 : ℚ) < (2 : ℚ) ^ ((a : Int) - (b : Int) - 1) := zpow_pos h2 _
    calc (2 : ℚ) ^ ((a : Int) - (b : Int) - 1) * (q.den : ℚ)
        ≤ (2 : ℚ) ^ ((a : Int) - (b : Int) - 1) * (2 : ℚ) ^ (b + 1) :=
          mul_le_mul_of_nonneg_left (le_of_lt b2q) (le_of_lt hpos)
      _ = (2 : ℚ) ^ a := by rw [← e2, e, e3]
      _ ≤ (q.num.natAbs : ℚ) := a1q
  unfold ilog2
  rw [ha, hb]
  by_cases hc : (2 : ℚ) ^ ((a : Int) - (b : Int)) ≤ |q|
  · rw [if_pos hc]
    exact ⟨hc, hupper⟩
  · rw [if_neg hc]
    refine ⟨hlower, ?_⟩
    have : (a : Int) - (b : Int) - 1 + 1 = (a : Int) - (b : Int) := by ring
    rw [this]
    exact not_le.mp hc

/-- The value of `round_even` is within a half of its argument, and even at a half. -/
theorem round_even_char (x : ℚ) :
    |x - (round_even x : ℚ)| ≤ 1 / 2 ∧
    (|x - (round_even x : ℚ)| = 1 / 2 → round_even x % 2 = 0) := by
  have h0 : (0 : ℚ) ≤ x - Int.floor x := by
    have := Int.floor_le x
    linarith
  have h1 : x - Int.floor x < 1 := by
    have := Int.lt_floor_add_one x
    linarith
  unfold round_even
  by_cases c1 : x - Int.floor x < 1 / 2
  · rw [if_pos c1]
    rw [abs_of_nonneg h0]
    exact ⟨le_of_lt c1, fun h => absurd h (ne_of_lt c1)⟩
  · rw [if_neg c1]
    by_cases c2 : 1 / 2 < x - Int.floor x
    · rw [if_pos c2]
      have e : x - ((Int.floor x + 1 : Int) : ℚ) = -(1 - (x - Int.floor x)) := by
        push_cast
        ring
      rw [e, abs_neg, abs_of_nonneg (by linarith)]
      constructor
      · linarith
      · intro h
        linarith
    · rw [if_neg c2]
      have hhalf : x - Int.floor x = 1 / 2 := le_antisymm (not_lt.mp c2) (not_lt.mp c1)
      by_cases c3 : Int.floor x % 2 = 0
      · rw [if_pos c3]
        rw [abs_of_nonneg h0]
        exact ⟨le_of_eq hhalf, fun _ => c3⟩
      · rw [if_neg c3]
        have e : x - ((Int.floor x + 1 : Int) : ℚ) = -(1 - (x - Int.floor x)) := by
          push_cast
          ring
        rw [e, abs_neg, abs_of_nonneg (by linarith)]
        constructor
        · linarith
        · intro _
          omega

/-- The integer within a half of `x`, even at a half, is `round_even x`. -/
theorem round_even_unique (x : ℚ) (r : Int) (h1 : |x - (r : ℚ)| ≤ 1 / 2)
    (h2 : |x - (r : ℚ)| = 1 / 2 → r % 2 = 0) : r = round_even x := by
  obtain ⟨c1, c2⟩ := round_even_char x
  generalize round_even x = s at c1 c2
  have hrs : |(r : ℚ) - (s : ℚ)| ≤ 1 := by
    have e : (r : ℚ) - (s : ℚ) = (x - s) - (x - r) := by ring
    rw [e]
    calc |(x - s) - (x - r)| ≤ |x - s| + |x - r| := abs_sub _ _
      _ ≤ 1 := by linarith
  have hrsZ : |r - s| ≤ 1 := by
    have : ((|r - s| : Int) : ℚ) ≤ ((1 : Int) : ℚ) := by
      push_cast
      exact hrs
    exact_mod_cast this
  by_contra hne
  have habs1 : |r - s| = 1 := by
    have hpos : 0 < |r - s| := abs_pos.mpr (sub_ne_zero.mpr hne)
    omega
  have habsq : |(r : ℚ) - (s : ℚ)| = 1 := by
    have : ((|r - s| : Int) : ℚ) = ((1 : Int) : ℚ) := by rw [habs1]
    push_cast at this
    exact this
  have hsum : 1 ≤ |x - s| + |x - r| := by
    have e : (r : ℚ) - (s : ℚ) = (x - s) - (x - r) := by ring
    rw [e] at habsq
    calc (1 : ℚ) = |(x - s) - (x - r)| := habsq.symm
      _ ≤ |x - s| + |x - r| := abs_sub _ _
  have hr : |x - (r : ℚ)| = 1 / 2 := by linarith
  have hs : |x - (s : ℚ)| = 1 / 2 := by linarith
  have er := h2 hr
  have es := c2 hs
  rcases abs_eq (by norm_num : (0 : Int) ≤ 1) |>.mp habs1 with h | h <;> omega

/-- An integer rounds to itself. -/
theorem round_even_int (n : Int) : round_even (n : ℚ) = n := by
  symm
  apply round_even_unique
  · simp
  · intro h
    simp at h

/-- The function `round_even` is monotone. -/
theorem round_even_mono : Monotone round_even := by
  intro x y hxy
  obtain ⟨a1, _⟩ := round_even_char x
  obtain ⟨b1, _⟩ := round_even_char y
  by_contra hlt
  have hlt2 : round_even y + 1 ≤ round_even x := by omega
  have hq : (round_even y : ℚ) + 1 ≤ (round_even x : ℚ) := by exact_mod_cast hlt2
  have hx := (abs_le.mp a1).1
  have hy := (abs_le.mp b1).2
  have hxy2 : x = y := by linarith
  rw [hxy2] at hlt
  exact hlt (le_refl _)

/-- The function `round_even` is odd. -/
theorem round_even_neg (x : ℚ) : round_even (-x) = -round_even x := by
  symm
  obtain ⟨a1, a2⟩ := round_even_char x
  have e : -x - ((-round_even x : Int) : ℚ) = -(x - (round_even x : ℚ)) := by
    push_cast
    ring
  apply round_even_unique
  · rw [e, abs_neg]
    exact a1
  · rw [e, abs_neg]
    intro h
    have := a2 h
    omega

/-- The spacing of the binary32 numbers is positive. -/
theorem ulp32_pos (q : ℚ) : 0 < ulp32 q := by
  unfold ulp32
  exact zpow_pos (by norm_num) _

/-- The binary exponent does not depend on the sign. -/
theorem ilog2_neg (q : ℚ) : ilog2 (-q) = ilog2 q := by
  unfold ilog2
  rw [Rat.neg_num, Rat.neg_den, Int.natAbs_neg, abs_neg]

/-- The spacing of the binary32 numbers does not depend on the sign. -/
theorem ulp32_neg (q : ℚ) : ulp32 (-q) = ulp32 q := by
  unfold ulp32
  rw [ilog2_neg]

/-- The binary32 rounding is odd. -/
theorem fl32_neg (q : ℚ) : fl32 (-q) = -fl32 q := by
  unfold fl32
  rw [ulp32_neg, neg_div, round_even_neg]
  push_cast
  ring

/-- The binary32 rounding of a number that is not negative is not negative. -/
theorem fl32_nonneg (q : ℚ) (hq : 0 ≤ q) : 0 ≤ fl32 q := by
  unfold fl32
  have hu := ulp32_pos q
  have h1 : round_even 0 ≤ round_even (q / ulp32 q) :=
    round_even_mono (div_nonneg hq (le_of_lt hu))
  have h0 : round_even 0 = 0 := by
    have := round_even_int 0
    simpa using this
  rw [h0] at h1
  have h2 : (0 : ℚ) ≤ (round_even (q / ulp32 q) : ℚ) := by exact_mod_cast h1
  exact mul_nonneg h2 (le_of_lt hu)

/-- The binary exponent is monotone on the positive numbers. -/
theorem ilog2_mono_pos (x y : ℚ) (hx : 0 < x) (hxy : x ≤ y) : ilog2 x ≤ ilog2 y := by
  have hy : 0 < y := lt_of_lt_of_le hx hxy
  obtain ⟨a1, _⟩ := ilog2_spec x (ne_of_gt hx)
  obtain ⟨_, b2⟩ := ilog2_spec y (ne_of_gt hy)
  rw [abs_of_pos hx] at a1
  rw [abs_of_pos hy] at b2
  have h : (2 : ℚ) ^ ilog2 x < (2 : ℚ) ^ (ilog2 y + 1) := by linarith
  have := (zpow_lt_zpow_iff_right₀ (by norm_num : (1 : ℚ) < 2)).mp h
  omega

/-- A positive number rounds to at most the next power of two. -/
theorem fl32_upper (x : ℚ) (hx : 0 < x) :
    fl32 x ≤ (2 : ℚ) ^ (max (ilog2 x) (-126) + 1) := by
  obtain ⟨_, a2⟩ := ilog2_spec x (ne_of_gt hx)
  rw [abs_of_pos hx] at a2
  have hu := ulp32_pos x
  have h2 : (0 : ℚ) < 2 := by norm_num
  have hle : (2 : ℚ) ^ (ilog2 x + 1) ≤ (2 : ℚ) ^ (max (ilog2 x) (-126) + 1) :=
    zpow_le_zpow_right₀ (by norm_num) (by omega)
  have e : (2 : ℚ) ^ (max (ilog2 x) (-126) + 1) = ((2 ^ 24 : Int) : ℚ) * ulp32 x := by
    unfold ulp32
    have : (((2 : Int) ^ 24 : Int) : ℚ) = (2 : ℚ) ^ (24 : Int) := by norm_num
    rw [this, ← zpow_add₀ (ne_of_gt h2)]
    congr 1
    ring
  have hdiv : x / ulp32 x ≤ ((2 ^ 24 : Int) : ℚ) := by
    rw [div_le_iff₀ hu, ← e]
    linarith
  have hr : round_even (x / ulp32 x) ≤ 2 ^ 24 := by
    have := round_even_mono hdiv
    rw [round_even_int] at this
    exact this
  have hrq : (round_even (x / ulp32 x) : ℚ) ≤ ((2 ^ 24 : Int) : ℚ) := by exact_mod_cast hr
  rw [e]
  unfold fl32
  exact mul_le_mul_of_nonneg_right hrq (le_of_lt hu)

/-- A positive normal number rounds to at least the power of two below it. -/
theorem fl32_lower (y : ℚ) (hy : 0 < y) (hn : -126 ≤ ilog2 y) :
    (2 : ℚ) ^ ilog2 y ≤ fl32 y := by
  obtain ⟨b1, _⟩ := ilog2_spec y (ne_of_gt hy)
  rw [abs_of_pos hy] at b1
  have hu := ulp32_pos y
  have h2 : (0 : ℚ) < 2 := by norm_num
  have e : (2 : ℚ) ^ ilog2 y = ((2 ^ 23 : Int) : ℚ) * ulp32 y := by
    unfold ulp32
    have : (((2 : Int) ^ 23 : Int) : ℚ) = (2 : ℚ) ^ (23 : Int) := by norm_num
    rw [this, ← zpow_add₀ (ne_of_gt h2), max_eq_left hn]
    congr 1
    ring
  have hdiv : ((2 ^ 23 : Int) : ℚ) ≤ y / ulp32 y := by
    rw [le_div_iff₀ hu, ← e]
    exact b1
  have hr : 2 ^ 23 ≤ round_even (y / ulp32 y) := by
    have := round_even_mono hdiv
    rw [round_even_int] at this
    exact this
  have hrq : ((2 ^ 23 : Int) : ℚ) ≤ (round_even (y / ulp32 y) : ℚ) := by exact_mod_cast hr
  rw [e]
  unfold fl32
  exact mul_le_mul_of_nonneg_right hrq (le_of_lt hu)

/-- The binary32 rounding is monotone on the positive numbers. -/
theorem fl32_mono_pos (x y : ℚ) (hx : 0 < x) (hxy : x ≤ y) : fl32 x ≤ fl32 y := by
  have hy : 0 < y := lt_of_lt_of_le hx hxy
  have hm := ilog2_mono_pos x y hx hxy
  by_cases hc : max (ilog2 x) (-126) = max (ilog2 y) (-126)
  · have hu : ulp32 x = ulp32 y := by
      unfold ulp32
      rw [hc]
    have hup := ulp32_pos y
    unfold fl32
    rw [hu]
    have hdiv : x / ulp32 y ≤ y / ulp32 y := div_le_div_of_nonneg_right hxy (le_of_lt hup)
    have hr := round_even_mono hdiv
    have hrq : (round_even (x / ulp32 y) : ℚ) ≤ (round_even (y / ulp32 y) : ℚ) := by
      exact_mod_cast hr
    exact mul_le_mul_of_nonneg_right hrq (le_of_lt hup)
  · have hlt : max (ilog2 x) (-126) + 1 ≤ ilog2 y := by
      rcases le_total (ilog2 x) (-126) with h1 | h1
      · rcases le_total (ilog2 y) (-126) with h3 | h3
        · rw [max_eq_right h1, max_eq_right h3] at hc
          exact absurd rfl hc
        · rw [max_eq_right h1, max_eq_left h3] at hc
          rw [max_eq_right h1]
          omega
      · rcases le_total (ilog2 y) (-126) with h3 | h3
        · rw [max_eq_left h1, max_eq_right h3] at hc
          rw [max_eq_left h1]
          omega
        · rw [max_eq_left h1, max_eq_left h3] at hc
          rw [max_eq_left h1]
          omega
    have hn : -126 ≤ ilog2 y := by
      have := le_max_right (ilog2 x) (-126)
      omega
    calc fl32 x ≤ (2 : ℚ) ^ (max (ilog2 x) (-126) + 1) := fl32_upper x hx
      _ ≤ (2 : ℚ) ^ ilog2 y := zpow_le_zpow_right₀ (by norm_num) hlt
      _ ≤ fl32 y := fl32_lower y hy hn

/-- The binary32 rounding is monotone. -/
theorem fl32_mono : Monotone fl32 := by
  intro x y hxy
  rcases lt_trichotomy 0 x with hx | hx | hx
  · exact fl32_mono_pos x y hx hxy
  · rw [← hx] at hxy ⊢
    have h0 : fl32 0 ≤ 0 := by
      have := fl32_nonneg 0 (le_refl _)
      have h2 := fl32_neg 0
      rw [neg_zero] at h2
      linarith
    exact le_trans h0 (fl32_nonneg y hxy)
  · rcases le_or_lt 0 y with hy | hy
    · have h1 : fl32 x ≤ 0 := by
        have := fl32_nonneg (-x) (by linarith)
        rw [fl32_neg] at this
        linarith
      exact le_trans h1 (fl32_nonneg y hy)
    · have h := fl32_mono_pos (-y) (-x) (by linarith) (by linarith)
      rw [fl32_neg, fl32_neg] at h
      linarith

/-- The integers from -64 to 512 are binary32 numbers, one by one. -/
theorem fl32_int_table : ∀ k : Nat, k < 577 → fl32 (((k : Int) - 64 : Int) : ℚ) = (((k : Int) - 64 : Int) : ℚ) := by
  decide!

/-- The integers from -64 to 512 are binary32 numbers. -/
theorem fl32_int (n : Int) (h1 : -64 ≤ n) (h2 : n ≤ 512) : fl32 (n : ℚ) = (n : ℚ) := by
  have h := fl32_int_table (n + 64).toNat (by omega)
  have e : (((n + 64).toNat : Int) - 64 : Int) = n := by omega
  rw [e] at h
  exact h

/-- Zero is a binary32 number. -/
theorem fl32_zero : fl32 0 = 0 := by
  unfold fl32
  rw [zero_div]
  have h := round_even_int 0
  rw [Int.cast_zero] at h
  rw [h]
  simp

/-- The binary32 rounding is off by at most half a unit in the last place: a relative error of
`2 ^ (-24)`, or `2 ^ (-150)` below the normal numbers. -/
theorem fl32_err (q : ℚ) : |fl32 q - q| ≤ |q| / 2 ^ 24 + 1 / 2 ^ 150 := by
  by_cases hq : q = 0
  · rw [hq, fl32_zero]
    norm_num
  have hu := ulp32_pos q
  obtain ⟨hr, _⟩ := round_even_char (q / ulp32 q)
  have e : fl32 q - q = -((q / ulp32 q - (round_even (q / ulp32 q) : ℚ)) * ulp32 q) := by
    unfold fl32
    field_simp
    ring
  have h1 : |fl32 q - q| ≤ 1 / 2 * ulp32 q := by
    rw [e, abs_neg, abs_mul, abs_of_pos hu]
    exact mul_le_mul_of_nonneg_right hr (le_of_lt hu)
  have h2 : (0 : ℚ) < 2 := by norm_num
  obtain ⟨a1, _⟩ := ilog2_spec q hq
  rcases le_total (-126) (ilog2 q) with hn | hn
  · have eu : ulp32 q = (2 : ℚ) ^ ilog2 q / 2 ^ 23 := by
      unfold ulp32
      rw [max_eq_left hn, zpow_sub₀ (ne_of_gt h2)]
      norm_num
    rw [eu] at h1
    have : (0 : ℚ) ≤ 1 / 2 ^ 150 := by norm_num
    have h3 : 1 / 2 * ((2 : ℚ) ^ ilog2 q / 2 ^ 23) = (2 : ℚ) ^ ilog2 q / 2 ^ 24 := by ring
    rw [h3] at h1
    have h4 : (2 : ℚ) ^ ilog2 q / 2 ^ 24 ≤ |q| / 2 ^ 24 :=
      div_le_div_of_nonneg_right a1 (by norm_num)
    linarith
  · have eu : ulp32 q = 1 / 2 ^ 149 := by
      unfold ulp32
      rw [max_eq_right hn]
      norm_num
    rw [eu] at h1
    have : (0 : ℚ) ≤ |q| / 2 ^ 24 := div_nonneg (abs_nonneg q) (by norm_num)
    have h3 : (1 : ℚ) / 2 * (1 / 2 ^ 149) = 1 / 2 ^ 150 := by norm_num
    rw [h3] at h1
    linarith

/-- The natural numbers up to `2 ^ 24` are binary32 numbers. -/
theorem fl32_nat (k : Nat) (hk : k ≤ 2 ^ 24) : fl32 (k : ℚ) = (k : ℚ) := by
  rcases Nat.eq_zero_or_pos k with h0 | hpos
  · rw [h0]
    simpa using fl32_zero
  rcases Nat.lt_or_ge k (2 ^ 24) with hlt | hge
  · have hq : (k : ℚ) ≠ 0 := by exact_mod_cast (Nat.pos_iff_ne_zero.mp hpos)
    obtain ⟨a1, a2⟩ := ilog2_spec (k : ℚ) hq
    rw [abs_of_nonneg (by positivity)] at a1 a2
    have h2 : (1 : ℚ) < 2 := by norm_num
    have e0 : 0 ≤ ilog2 (k : ℚ) := by
      have hk1 : (1 : ℚ) ≤ (k : ℚ) := by exact_mod_cast hpos
      have : (2 : ℚ) ^ (0 : Int) < (2 : ℚ) ^ (ilog2 (k : ℚ) + 1) := by
        rw [zpow_zero]
        linarith
      have := (zpow_lt_zpow_iff_right₀ h2).mp this
      omega
    have e23 : ilog2 (k : ℚ) ≤ 23 := by
      have hk2 : (k : ℚ) < (2 : ℚ) ^ (24 : Int) := by
        have : (k : ℚ) < ((2 ^ 24 : Nat) : ℚ) := by exact_mod_cast hlt
        norm_num at this ⊢
        exact this
      have : (2 : ℚ) ^ ilog2 (k : ℚ) < (2 : ℚ) ^ (24 : Int) := lt_of_le_of_lt a1 hk2
      have := (zpow_lt_zpow_iff_right₀ h2).mp this
      omega
    obtain ⟨m, hm⟩ : ∃ m : Nat, (m : Int) = 23 - ilog2 (k : ℚ) := ⟨(23 - ilog2 (k : ℚ)).toNat, by omega⟩
    have eu : ulp32 (k : ℚ) = ((2 : ℚ) ^ m)⁻¹ := by
      unfold ulp32
      rw [max_eq_left (by omega)]
      have : ilog2 (k : ℚ) - 23 = -(m : Int) := by omega
      rw [this, zpow_neg, zpow_natCast]
    have hdiv : (k : ℚ) / ulp32 (k : ℚ) = (((k : Int) * 2 ^ m : Int) : ℚ) := by
      rw [eu]
      push_cast
      field_simp
    unfold fl32
    rw [hdiv, round_even_int, eu]
    push_cast
    field_simp
  · have e : k = 2 ^ 24 := le_antisymm hk hge
    rw [e]
    decide!

/-- The rounding error of one waypoint: with a rounding of relative error `2 ^ (-24)`
(and `2 ^ (-150)` below the normal numbers) for which `k` and `n` are floats, the value
`fl (c + fl (fl (d - c) * fl (fl (1 / n) * k)))` is within
`|T| / 2 ^ 24 + |d - c| / 2 ^ 21 + 2 ^ (-140)` of `T = c + (d - c) * k / n`, for `k <= n`. -/
theorem interp_error (fl : ℚ → ℚ) (herr : ∀ q, |fl q - q| ≤ |q| / 2 ^ 24 + 1 / 2 ^ 150)
    (c d : ℚ) (n k : Nat) (hn : 1 ≤ n) (hk : k ≤ n) (hn24 : n ≤ 2 ^ 24)
    (hflk : fl (k : ℚ) = (k : ℚ)) (hfln : fl (n : ℚ) = (n : ℚ)) :
    |fl (c + fl (fl (d - c) * fl (fl (1 / fl (n : ℚ)) * fl (k : ℚ)))) - (c + (d - c) * k / n)|
      ≤ |c + (d - c) * k / n| / 2 ^ 24 + |d - c| / 2 ^ 21 + 1 / 2 ^ 140 := by
  rw [hflk, hfln]
  have hnpos : (0 : ℚ) < (n : ℚ) := by exact_mod_cast hn
  have hk0 : (0 : ℚ) ≤ (k : ℚ) := by positivity
  have hkn : (k : ℚ) ≤ (n : ℚ) := by exact_mod_cast hk
  have hk24 : (k : ℚ) ≤ 2 ^ 24 := by
    have : (k : ℚ) ≤ ((2 ^ 24 : Nat) : ℚ) := by exact_mod_cast le_trans hk hn24
    norm_num at this ⊢
    exact this
  have ht0 : (0 : ℚ) ≤ (k : ℚ) / n := div_nonneg hk0 (le_of_lt hnpos)
  have ht1 : (k : ℚ) / n ≤ 1 := (div_le_one hnpos).mpr hkn
  have eT : c + (d - c) * k / n = c + (d - c) * ((k : ℚ) / n) := by ring
  rw [eT]
  generalize ht : (k : ℚ) / n = t at ht0 ht1
  generalize hD : d - c = D
  have ha0 : 0 ≤ |D| := abs_nonneg D
  -- the difference
  have h1 : |fl D - D| ≤ |D| / 2 ^ 24 + 1 / 2 ^ 150 := herr D
  have hdabs : |fl D| ≤ |D| + |D| / 2 ^ 24 + 1 / 2 ^ 150 := by
    have := abs_add (fl D - D) D
    rw [sub_add_cancel] at this
    linarith
  -- the fraction
  have hf : |fl (1 / (n : ℚ)) - 1 / (n : ℚ)| ≤ |1 / (n : ℚ)| / 2 ^ 24 + 1 / 2 ^ 150 :=
    herr (1 / (n : ℚ))
  rw [abs_of_pos (one_div_pos.mpr hnpos)] at hf
  generalize fl (1 / (n : ℚ)) = f at hf ⊢
  have hfk : |f * k - t| ≤ 1 / 2 ^ 24 + 1 / 2 ^ 126 := by
    have e : f * k - t = (f - 1 / (n : ℚ)) * k := by
      rw [← ht]
      ring
    rw [e, abs_mul, abs_of_nonneg hk0]
    have h := mul_le_mul_of_nonneg_right hf hk0
    have e2 : (1 / (n : ℚ) / 2 ^ 24 + 1 / 2 ^ 150) * (k : ℚ) = t / 2 ^ 24 + k / 2 ^ 150 := by
      rw [← ht]
      ring
    rw [e2] at h
    linarith
  have hfkabs : |f * k| ≤ 1 + 1 / 2 ^ 24 + 1 / 2 ^ 126 := by
    have := abs_add (f * k - t) t
    rw [sub_add_cancel, abs_of_nonneg ht0] at this
    linarith
  have hg : |fl (f * k) - f * k| ≤ |f * k| / 2 ^ 24 + 1 / 2 ^ 150 := herr (f * k)
  generalize fl (f * k) = g at hg ⊢
  have hgt : |g - t| ≤ 3 / 2 ^ 24 := by
    have := abs_sub_le g (f * k) t
    linarith
  have hgabs : |g| ≤ 1 + 3 / 2 ^ 24 := by
    have := abs_add (g - t) t
    rw [sub_add_cancel, abs_of_nonneg ht0] at this
    linarith
  -- the product
  generalize fl D = diff at h1 hdabs ⊢
  have hprod : |diff * g| ≤ (|D| + |D| / 2 ^ 24 + 1 / 2 ^ 150) * (1 + 3 / 2 ^ 24) := by
    rw [abs_mul]
    exact mul_le_mul hdabs hgabs (abs_nonneg g) (by positivity)
  have hP : |fl (diff * g) - diff * g| ≤ |diff * g| / 2 ^ 24 + 1 / 2 ^ 150 := herr (diff * g)
  generalize fl (diff * g) = P at hP ⊢
  have hdg : |diff * g - D * t|
      ≤ (|D| + |D| / 2 ^ 24 + 1 / 2 ^ 150) * (3 / 2 ^ 24) + (|D| / 2 ^ 24 + 1 / 2 ^ 150) := by
    have e : diff * g - D * t = diff * (g - t) + (diff - D) * t := by ring
    rw [e]
    have h2 : |diff * (g - t)| ≤ (|D| + |D| / 2 ^ 24 + 1 / 2 ^ 150) * (3 / 2 ^ 24) := by
      rw [abs_mul]
      exact mul_le_mul hdabs hgt (abs_nonneg _) (by positivity)
    have h3 : |(diff - D) * t| ≤ |D| / 2 ^ 24 + 1 / 2 ^ 150 := by
      rw [abs_mul, abs_of_nonneg ht0]
      have : |diff - D| * t ≤ |diff - D| * 1 :=
        mul_le_mul_of_nonneg_left ht1 (abs_nonneg _)
      linarith
    have := abs_add (diff * (g - t)) ((diff - D) * t)
    linarith
  have hPT : |P - D * t| ≤ 6 * |D| / 2 ^ 24 + 1 / 2 ^ 148 := by
    have := abs_sub_le P (diff * g) (D * t)
    linarith
  have hcP : |c + P| ≤ |c + D * t| + |P - D * t| := by
    have := abs_add (c + D * t) (P - D * t)
    have e : c + D * t + (P - D * t) = c + P := by ring
    rw [e] at this
    exact this
  have hw : |fl (c + P) - (c + P)| ≤ |c + P| / 2 ^ 24 + 1 / 2 ^ 150 := herr (c + P)
  generalize fl (c + P) = w at hw ⊢
  have hfin := abs_sub_le w (c + P) (c + D * t)
  have e : c + P - (c + D * t) = P - D * t := by ring
  rw [e] at hfin
  have hT0 : 0 ≤ |c + D * t| := abs_nonneg _
  linarith

/-! ## prepare_move -/

theorem segment_loop_position (E : Env) (d : Nat → ℚ) (f : ℚ) :
    ∀ (n k : Nat) (s : State),
      (segment_loop E d f n k s).m.current_position = s.m.current_position := by
  intro n
  induction n with
  | zero => intro k s; rfl
  | succ n ih =>
    intro k s
    unfold segment_loop
    dsimp only
    rw [ih]
    rfl

theorem segment_loop_segments (E : Env) (d : Nat → ℚ) (f : ℚ) :
    ∀ (n k : Nat) (s : State),
      ∃ l, (segment_loop E d f n k s).m.segments = s.m.segments ++ l ∧ l.length = n := by
  intro n
  induction n with
  | zero => intro k s; exact ⟨[], by simp [segment_loop], rfl⟩
  | succ n ih =>
    intro k s
    unfold segment_loop
    dsimp only
    generalize ha : plan_segment E _ = a
    have hseg : ∃ x, a.m.segments = s.m.segments ++ [x] := by
      rw [← ha]
      exact ⟨_, rfl⟩
    obtain ⟨x, hx⟩ := hseg
    obtain ⟨l, hl, hn⟩ := ih (k + 1) a
    refine ⟨x :: l, ?_, by simp [hn]⟩
    rw [hl, hx]
    simp

theorem segment_loop_destination (E : Env) (d : Nat → ℚ) (f : ℚ) :
    ∀ (n k : Nat) (s : State) (i : Nat), i < NUM_AXIS →
      (segment_loop E d f (n + 1) k s).m.destination i =
        E.fl (s.m.current_position i + E.fl (d i * E.fl (f * E.fl ((k + n : Nat) : ℚ)))) := by
  intro n
  induction n with
  | zero =>
    intro k s i hi
    simp [segment_loop, plan_segment, hi]
  | succ n ih =>
    intro k s i hi
    rw [segment_loop]
    dsimp only
    rw [ih (k + 1) _ i hi]
    have e : k + 1 + n = k + (n + 1) := by omega
    rw [e]
    rfl
theorem steps_pos (E : Env) (s : State) : 1 ≤ steps E s := by
  unfold steps
  exact le_max_left _ _

theorem plan_move_noop (E : Env) (s : State) (h : cartesian_mm E s < E.fl (1 / 1000000)) :
    plan_move E s = s := by
  unfold plan_move
  rw [if_pos h]

theorem plan_move_moves (E : Env) (s : State) (h : ¬ cartesian_mm E s < E.fl (1 / 1000000)) :
    (∃ l, l ≠ [] ∧ (plan_move E s).m.segments = s.m.segments ++ l) ∧
    (∀ i, i < 4 → (plan_move E s).m.current_position i = waypoint E s (steps E s).toNat i) ∧
    (∀ i, i < 4 → (plan_move E s).m.destination i = waypoint E s (steps E s).toNat i) := by
  have h1 := steps_pos E s
  obtain ⟨n, hn⟩ : ∃ n, (steps E s).toNat = n + 1 := ⟨(steps E s).toNat - 1, by omega⟩
  have hc : 1 + n = n + 1 := by omega
  unfold plan_move
  rw [if_neg h]
  dsimp only
  refine ⟨?_, ?_, ?_⟩
  · obtain ⟨l, hl, hlen⟩ := segment_loop_segments E (difference E s)
      (E.fl (1 / E.fl (steps E s : ℚ))) (steps E s).toNat 1 s
    refine ⟨l, ?_, hl⟩
    intro hnil
    rw [hnil, hn] at hlen
    simp at hlen
  · intro i hi
    have hi4 : i < NUM_AXIS := hi
    rw [if_pos hi4, hn, segment_loop_destination E _ _ n 1 s i hi4, hc]
    unfold waypoint
    rw [if_pos hi4]
  · intro i hi
    have hi4 : i < NUM_AXIS := hi
    rw [hn, segment_loop_destination E _ _ n 1 s i hi4, hc]
    unfold waypoint
    rw [if_pos hi4]

theorem steps_toNat (E : Env) (t : State) :
    (((steps E t).toNat : Nat) : ℚ) = (steps E t : ℚ) := by
  have h1 := steps_pos E t
  have e : (((steps E t).toNat : Nat) : Int) = steps E t := Int.toNat_of_nonneg (by omega)
  have e2 : ((((steps E t).toNat : Nat) : Int) : ℚ) = ((steps E t : Int) : ℚ) := by rw [e]
  exact_mod_cast e2

theorem waypoint_exact (E : Env) (t : State) (hexact : ∀ q, E.fl q = q) (k i : Nat)
    (hi : i < 4) :
    waypoint E t k i = t.m.current_position i
      + (t.m.destination i - t.m.current_position i) * k / (steps E t : ℚ) := by
  have hi4 : i < NUM_AXIS := hi
  unfold waypoint difference
  rw [if_pos hi4]
  simp only [hexact]
  ring

theorem waypoint_last_exact (E : Env) (t : State) (hexact : ∀ q, E.fl q = q) (i : Nat)
    (hi : i < 4) : waypoint E t (steps E t).toNat i = t.m.destination i := by
  have h1 := steps_pos E t
  have h0 : ((steps E t : Int) : ℚ) ≠ 0 := by
    have : (0 : ℚ) < ((steps E t : Int) : ℚ) := by exact_mod_cast (by omega : 0 < steps E t)
    exact ne_of_gt this
  rw [waypoint_exact E t hexact _ i hi, steps_toNat]
  field_simp

/-- The rounding error of waypoint `k`, for `k` up to `steps`: with a rounding of relative
error `2 ^ (-24)` (and `2 ^ (-150)` below the normal numbers) that is exact on the natural
numbers up to `2 ^ 24`, and at most `2 ^ 24` steps, the waypoint is within
`|T| / 2 ^ 24 + |destination - start| / 2 ^ 21 + 2 ^ (-140)` of the point
`T = start + (destination - start) * k / steps`. -/
theorem waypoint_error (E : Env) (t : State)
    (herr : ∀ q, |E.fl q - q| ≤ |q| / 2 ^ 24 + 1 / 2 ^ 150)
    (hnat : ∀ k : Nat, k ≤ 2 ^ 24 → E.fl (k : ℚ) = (k : ℚ))
    (hmax : steps E t ≤ 2 ^ 24) (k i : Nat) (hk : k ≤ (steps E t).toNat) (hi : i < 4) :
    |waypoint E t k i - (t.m.current_position i
        + (t.m.destination i - t.m.current_position i) * k / (steps E t : ℚ))|
      ≤ |t.m.current_position i
          + (t.m.destination i - t.m.current_position i) * k / (steps E t : ℚ)| / 2 ^ 24
        + |t.m.destination i - t.m.current_position i| / 2 ^ 21 + 1 / 2 ^ 140 := by
  have hi4 : i < NUM_AXIS := hi
  have h1 := steps_pos E t
  have hn1 : 1 ≤ (steps E t).toNat := by omega
  have hn24 : (steps E t).toNat ≤ 2 ^ 24 := by omega
  unfold waypoint difference
  rw [if_pos hi4, ← steps_toNat]
  exact interp_error E.fl herr _ _ _ k hn1 hk hn24 (hnat k (le_trans hk hn24))
    (hnat _ hn24)

theorem clamp_inside (E : Env) (m : Machine) (t : Nat → ℚ)
    (h : ∀ i, i < 3 → m.min_pos i ≤ t i ∧ t i ≤ m.max_pos i) :
    clamp_to_software_endstops E m t = t := by
  have a0 : ¬ t 0 < m.min_pos 0 := not_lt.mpr (h 0 (by decide)).1
  have a1 : ¬ t 1 < m.min_pos 1 := not_lt.mpr (h 1 (by decide)).1
  have a2 : ¬ t 2 < m.min_pos 2 := not_lt.mpr (h 2 (by decide)).1
  have b0 : ¬ t 0 > m.max_pos 0 := not_lt.mpr (h 0 (by decide)).2
  have b1 : ¬ t 1 > m.max_pos 1 := not_lt.mpr (h 1 (by decide)).2
  have b2 : ¬ t 2 > m.max_pos 2 := not_lt.mpr (h 2 (by decide)).2
  have hmin : clamp_min m (clamp_min m (clamp_min m t 0) 1) 2 = t := by
    simp only [clamp_min, if_neg a0, if_neg a1, if_neg a2]
  have hmax : clamp_max m (clamp_max m (clamp_max m t 0) 1) 2 = t := by
    simp only [clamp_max, if_neg b0, if_neg b1, if_neg b2]
  unfold clamp_to_software_endstops
  dsimp only
  by_cases c1 : E.min_software_endstops = true <;> by_cases c2 : E.max_software_endstops = true <;>
    simp [c1, c2, hmin, hmax]

theorem prepare_move_noop (E : Env) (s : State) (hsqrt : E.libm.sqrt 0 = 0)
    (heq : ∀ i, i < 4 → (soft_endstops E s).m.destination i = s.m.current_position i) :
    prepare_move E s = soft_endstops E s := by
  have hcp : (soft_endstops E s).m.current_position = s.m.current_position := by
    unfold soft_endstops
    split <;> rfl
  have hd : ∀ i, i < 4 → difference E (soft_endstops E s) i = 0 := by
    intro i hi
    unfold difference
    rw [heq i hi, hcp, sub_self, E.fl_zero]
  unfold prepare_move
  apply plan_move_noop
  unfold cartesian_mm
  simp only [hd 0 (by decide), hd 1 (by decide), hd 2 (by decide), hd 3 (by decide)]
  simp only [mul_zero, add_zero, E.fl_zero, hsqrt, abs_zero]
  rw [if_pos E.fl_small]
  exact E.fl_small

/-- C13 (amended). For every machine state in which the destination equals
`current_position` on all four axes, and `current_position` lies within the software endstops
on X, Y and Z or `SoftEndsEnabled` is off, `prepare_move` emits no segment and leaves
`current_position` unchanged (the square root of 0 being 0). -/
theorem C13_noop (E : Env) (s : State) (hsqrt : E.libm.sqrt 0 = 0)
    (heq : ∀ i, i < 4 → s.m.destination i = s.m.current_position i)
    (hin : s.m.SoftEndsEnabled = false ∨
      ∀ i, i < 3 → s.m.min_pos i ≤ s.m.current_position i ∧
        s.m.current_position i ≤ s.m.max_pos i) :
    (prepare_move E s).m.segments = s.m.segments ∧
    (prepare_move E s).m.current_position = s.m.current_position := by
  have hs : soft_endstops E s = s := by
    unfold soft_endstops
    rcases hin with hoff | hin
    · simp [hoff]
    · rw [clamp_inside E s.m s.m.destination (fun i hi => by
        rw [heq i (by omega)]
        exact hin i hi)]
      split <;> rfl
  rw [prepare_move_noop E s hsqrt (fun i hi => by rw [hs]; exact heq i hi), hs]
  exact ⟨rfl, rfl⟩

theorem stdLibm_sqrt_zero : stdEnv.libm.sqrt 0 = 0 := by decide!

theorem C13_witness :
    (prepare_move stdEnv State.init).m.segments = [] ∧
    (prepare_move stdEnv State.init).m.current_position = State.init.m.current_position :=
  C13_noop stdEnv State.init stdLibm_sqrt_zero (fun _ _ => rfl)
    (Or.inr (fun _ _ => ⟨le_refl _, le_refl _⟩))

theorem beyondState_moves :
    ¬ cartesian_mm stdEnv (soft_endstops stdEnv beyondState) < stdEnv.fl (1 / 1000000) := by
  decide!

theorem beyondState_clamped :
    (soft_endstops stdEnv beyondState).m.destination 0 = 200 := by decide!

/-- C13, counterexample. With the position and the destination both at 250 on X, beyond the
upper software endstop at 200, `prepare_move` emits segments and sets
`current_position[X]` to 200. -/
theorem C13_counterexample :
    (∀ i, i < 4 → beyondState.m.destination i = beyondState.m.current_position i) ∧
    beyondState.m.current_position 0 = 250 ∧
    (prepare_move stdEnv beyondState).m.segments ≠ beyondState.m.segments ∧
    (prepare_move stdEnv beyondState).m.current_position 0 = 200 := by
  have h := plan_move_moves stdEnv (soft_endstops stdEnv beyondState) beyondState_moves
  refine ⟨fun _ _ => rfl, rfl, ?_, ?_⟩
  · obtain ⟨l, hl, hseg⟩ := h.1
    intro hcontra
    have hseg2 : (prepare_move stdEnv beyondState).m.segments = [] ++ l := hseg
    rw [hcontra] at hseg2
    exact hl (by simpa [beyondState, bedMachine, Machine.init] using hseg2.symm)
  · exact ((h.2.1 0 (by decide)).trans
      (waypoint_last_exact stdEnv _ (fun _ => rfl) 0 (by decide))).trans beyondState_clamped

theorem moveLine_destination :
    (get_coordinates stdEnv true moveLine).m.destination 0 = 10 ∧
    (get_coordinates stdEnv true moveLine).m.destination 1 = 10 ∧
    (get_coordinates stdEnv true moveLine).m.destination 2 = 0 ∧
    (get_coordinates stdEnv true moveLine).m.destination 3 = 0 ∧
    (get_coordinates stdEnv true moveLine).m.feedrate = 600 := by decide!

theorem moveLine_clamped :
    (soft_endstops stdEnv (get_coordinates stdEnv true moveLine)).m.destination 0 = 10 ∧
    (soft_endstops stdEnv (get_coordinates stdEnv true moveLine)).m.destination 1 = 10 ∧
    (soft_endstops stdEnv (get_coordinates stdEnv true moveLine)).m.destination 2 = 0 ∧
    (soft_endstops stdEnv (get_coordinates stdEnv true moveLine)).m.destination 3 = 0 := by
  decide!

theorem moveLine_moves :
    ¬ cartesian_mm stdEnv (soft_endstops stdEnv (get_coordinates stdEnv true moveLine))
      < stdEnv.fl (1 / 1000000) := by decide!

theorem moveLine_float :
    ¬ cartesian_mm floatEnv (soft_endstops floatEnv (get_coordinates floatEnv true moveLine))
      < floatEnv.fl (1 / 1000000) ∧
    0 < (get_coordinates floatEnv true moveLine).m.feedrate ∧
    0 < (get_coordinates floatEnv true moveLine).m.feedmultiply ∧
    steps floatEnv (soft_endstops floatEnv (get_coordinates floatEnv true moveLine)) = 282 ∧
    (get_coordinates floatEnv true moveLine).m.segments.length = 0 := by
  decide!

theorem moveLine_range :
    StepsInRange floatEnv (soft_endstops floatEnv (get_coordinates floatEnv true moveLine)) := by
  unfold StepsInRange
  decide!

theorem moveLine_ends :
    (get_coordinates floatEnv true moveLine).m.current_position 0 = 0 ∧
    (soft_endstops floatEnv (get_coordinates floatEnv true moveLine)).m.destination 0 = 10 ∧
    (steps floatEnv (soft_endstops floatEnv (get_coordinates floatEnv true moveLine))).toNat
      = 282 := by
  decide!

/-- C14 (as stated, refuted): in binary32 arithmetic the command `G1 X10 Y10 F600` from
the position (0, 0, 0, 0) resolves the destination (10, 10, 0, 0) and is planned in 282
segments. `fraction_steps` is the `float` nearest to 1/282, and `fraction_steps * 282` is
rounded to 1 - 2^-24, so the last waypoint is 10 - 2^-20 on X and Y, and that is the position
`prepare_move` returns with: 9.999999046..., not 10. -/
theorem C14_counterexample :
    (get_coordinates floatEnv true moveLine).m.current_position 0 = 0 ∧
    (get_coordinates floatEnv true moveLine).m.current_position 1 = 0 ∧
    (soft_endstops floatEnv (get_coordinates floatEnv true moveLine)).m.destination 0 = 10 ∧
    (soft_endstops floatEnv (get_coordinates floatEnv true moveLine)).m.destination 1 = 10 ∧
    steps floatEnv (soft_endstops floatEnv (get_coordinates floatEnv true moveLine)) = 282 ∧
    floatEnv.fl (floatEnv.fl (1 / floatEnv.fl 282) * floatEnv.fl 282) = 16777215 / 16777216 ∧
    (prepare_move floatEnv (get_coordinates floatEnv true moveLine)).m.current_position 0
      = 10485759 / 1048576 ∧
    (prepare_move floatEnv (get_coordinates floatEnv true moveLine)).m.current_position 1
      = 10485759 / 1048576 ∧
    (prepare_move floatEnv (get_coordinates floatEnv true moveLine)).m.current_position 0
      ≠ (soft_endstops floatEnv (get_coordinates floatEnv true moveLine)).m.destination 0 := by
  decide!

/-- C14 (amended). For every move that is not dropped as a no-op, with a positive feed rate
and feed multiplier and a number of segments in the range of `int`, `prepare_move` emits at
least one segment, and on return `current_position` equals, on all four axes, the last
waypoint of the loop, `current_position + difference * (fraction_steps * steps)` with its
roundings, which is also the value it leaves in `destination`. In exact arithmetic this is
the destination after the soft-endstop clamping; with a rounding of relative error 2^-24
(2^-150 below the normal numbers) that is exact on the natural numbers up to 2^24, as in
binary32, and `INT_MAX` at most 2^24, it is within
`|destination| / 2^24 + |destination - start| / 2^21 + 2^-140` of that destination.
`current_position` is not modified by any number of rounds of the segment loop. -/
theorem C14_move (E : Env) (s : State)
    (hmove : ¬ cartesian_mm E (soft_endstops E s) < E.fl (1 / 1000000))
    (_hfeed : 0 < s.m.feedrate) (_hmult : 0 < s.m.feedmultiply)
    (hint : StepsInRange E (soft_endstops E s)) :
    (∃ l, l ≠ [] ∧ (prepare_move E s).m.segments = s.m.segments ++ l) ∧
    (∀ i, i < 4 → (prepare_move E s).m.current_position i
      = waypoint E (soft_endstops E s) (steps E (soft_endstops E s)).toNat i) ∧
    (∀ i, i < 4 → (prepare_move E s).m.current_position i
      = E.fl (s.m.current_position i
          + E.fl (E.fl ((soft_endstops E s).m.destination i - s.m.current_position i)
            * E.fl (E.fl (1 / E.fl (steps E (soft_endstops E s) : ℚ))
              * E.fl (steps E (soft_endstops E s) : ℚ))))) ∧
    (∀ i, i < 4 → (prepare_move E s).m.current_position i
      = (prepare_move E s).m.destination i) ∧
    ((∀ q, E.fl q = q) → ∀ i, i < 4 → (prepare_move E s).m.current_position i
      = (soft_endstops E s).m.destination i) ∧
    ((∀ q, |E.fl q - q| ≤ |q| / 2 ^ 24 + 1 / 2 ^ 150) →
      (∀ k : Nat, k ≤ 2 ^ 24 → E.fl (k : ℚ) = (k : ℚ)) → E.INT_MAX ≤ 2 ^ 24 →
      ∀ i, i < 4 →
        |(prepare_move E s).m.current_position i - (soft_endstops E s).m.destination i|
          ≤ |(soft_endstops E s).m.destination i| / 2 ^ 24
            + |(soft_endstops E s).m.destination i - s.m.current_position i| / 2 ^ 21
            + 1 / 2 ^ 140) ∧
    (∀ n k, (segment_loop E (difference E (soft_endstops E s))
        (E.fl (1 / E.fl (steps E (soft_endstops E s) : ℚ))) n k (soft_endstops E s)).m.current_position
      = s.m.current_position) := by
  have h := plan_move_moves E (soft_endstops E s) hmove
  have hseg : (soft_endstops E s).m.segments = s.m.segments := by
    unfold soft_endstops
    split <;> rfl
  have hcp : (soft_endstops E s).m.current_position = s.m.current_position := by
    unfold soft_endstops
    split <;> rfl
  refine ⟨?_, h.2.1, ?_, ?_, ?_, ?_, ?_⟩
  · obtain ⟨l, hl, hs⟩ := h.1
    exact ⟨l, hl, by rw [← hseg]; exact hs⟩
  · intro i hi
    have hi4 : i < NUM_AXIS := hi
    have e := h.2.1 i hi
    unfold prepare_move
    rw [e]
    unfold waypoint difference
    rw [if_pos hi4, steps_toNat, hcp]
  · intro i hi
    exact (h.2.1 i hi).trans (h.2.2 i hi).symm
  · intro hexact i hi
    exact (h.2.1 i hi).trans (waypoint_last_exact E _ hexact i hi)
  · intro herr hnat hmax i hi
    have h1 := steps_pos E (soft_endstops E s)
    have hle : steps E (soft_endstops E s) ≤ 2 ^ 24 := le_trans (le_of_lt hint.2) hmax
    have hb := waypoint_error E (soft_endstops E s) herr hnat hle
      (steps E (soft_endstops E s)).toNat i (le_refl _) hi
    have h0 : ((steps E (soft_endstops E s) : Int) : ℚ) ≠ 0 := by
      have : (0 : ℚ) < ((steps E (soft_endstops E s) : Int) : ℚ) := by
        exact_mod_cast (by omega : 0 < steps E (soft_endstops E s))
      exact ne_of_gt this
    have e : (soft_endstops E s).m.current_position i
        + ((soft_endstops E s).m.destination i - (soft_endstops E s).m.current_position i)
          * (((steps E (soft_endstops E s)).toNat : Nat) : ℚ)
          / (steps E (soft_endstops E s) : ℚ)
        = (soft_endstops E s).m.destination i := by
      rw [steps_toNat]
      field_simp
    rw [e, hcp] at hb
    have e2 : (prepare_move E s).m.current_position i
        = waypoint E (soft_endstops E s) (steps E (soft_endstops E s)).toNat i := h.2.1 i hi
    rw [e2]
    exact hb
  · intro n k
    rw [segment_loop_position, hcp]

/-- C14, witness: in binary32 arithmetic, whose rounding has the relative error 2^-24 and is
exact on the natural numbers up to 2^24, `G1 X10 Y10 F600` from the origin plans segments
and returns with `current_position[X]` at the last waypoint, which is 10 - 2^-20, within
10 * 2^-24 + 10 * 2^-21 + 2^-140 of the destination 10. -/
theorem C14_witness :
    (∀ q, |floatEnv.fl q - q| ≤ |q| / 2 ^ 24 + 1 / 2 ^ 150) ∧
    (∀ k : Nat, k ≤ 2 ^ 24 → floatEnv.fl (k : ℚ) = (k : ℚ)) ∧
    floatEnv.INT_MAX ≤ 2 ^ 24 ∧
    (prepare_move floatEnv (get_coordinates floatEnv true moveLine)).m.segments ≠ [] ∧
    (prepare_move floatEnv (get_coordinates floatEnv true moveLine)).m.current_position 0
      = waypoint floatEnv (soft_endstops floatEnv (get_coordinates floatEnv true moveLine))
          282 0 ∧
    waypoint floatEnv (soft_endstops floatEnv (get_coordinates floatEnv true moveLine)) 282 0
      = 10485759 / 1048576 ∧
    |(prepare_move floatEnv (get_coordinates floatEnv true moveLine)).m.current_position 0 - 10|
      ≤ 10 / 2 ^ 24 + 10 / 2 ^ 21 + 1 / 2 ^ 140 := by
  have h := C14_move floatEnv (get_coordinates floatEnv true moveLine) moveLine_float.1
    moveLine_float.2.1 moveLine_float.2.2.1 moveLine_range
  have hmax : floatEnv.INT_MAX ≤ 2 ^ 24 := by decide
  refine ⟨fl32_err, fl32_nat, hmax, ?_, ?_, by decide!, ?_⟩
  · obtain ⟨l, hl, hs⟩ := h.1
    rw [hs]
    intro hnil
    exact hl (List.append_eq_nil.mp hnil).2
  · have e := h.2.1 0 (by decide)
    rw [moveLine_float.2.2.2.1] at e
    exact e
  · have hb := h.2.2.2.2.2.1 fl32_err fl32_nat hmax 0 (by decide)
    rw [moveLine_ends.2.1, moveLine_ends.1, sub_zero, abs_of_pos (by norm_num : (0 : ℚ) < 10)]
      at hb
    exact hb

/-! ## Stopped and M999 -/

theorem ClearToSend_stop (E : Env) (s : State) :
    (ClearToSend E s).Stopped = s.Stopped ∧
    (ClearToSend E s).Stopped_gcode_LastN = s.Stopped_gcode_LastN ∧
    (ClearToSend E s).gcode_LastN = s.gcode_LastN ∧ (ClearToSend E s).m = s.m := by
  unfold ClearToSend
  split <;> exact ⟨rfl, rfl, rfl, rfl⟩

theorem FlushSerialRequestResend_stop (E : Env) (s : State) :
    (FlushSerialRequestResend E s).Stopped = s.Stopped ∧
    (FlushSerialRequestResend E s).Stopped_gcode_LastN = s.Stopped_gcode_LastN := by
  unfold FlushSerialRequestResend
  exact ⟨(ClearToSend_stop E _).1, (ClearToSend_stop E _).2.1⟩

theorem ack_G_stop (E : Env) (s : State) :
    (ack_G E s).Stopped = s.Stopped ∧
    (ack_G E s).Stopped_gcode_LastN = s.Stopped_gcode_LastN := by
  unfold ack_G
  cases strchr (cstr E (s.cmdbuffer s.bufindw)) 71 with
  | none => simp
  | some p =>
    by_cases h1 : E.strtod_int p.tail = 0 ∨ E.strtod_int p.tail = 1 ∨ E.strtod_int p.tail = 2 ∨
      E.strtod_int p.tail = 3 <;>
    by_cases h2 : s.Stopped = false <;>
    by_cases h3 : E.SDSUPPORT = true ∧ s.card_saving = true <;>
    simp [h1, h2, h3]

theorem enqueue_line_stop (E : Env) (s : State) :
    (enqueue_line E s).Stopped = s.Stopped ∧
    (enqueue_line E s).Stopped_gcode_LastN = s.Stopped_gcode_LastN := by
  unfold enqueue_line
  exact ack_G_stop E s

theorem end_of_line_stop (E : Env) (s : State) :
    (end_of_line E s).1.Stopped = s.Stopped ∧
    (end_of_line E s).1.Stopped_gcode_LastN = s.Stopped_gcode_LastN := by
  unfold end_of_line
  dsimp only
  repeat' split
  all_goals first
    | exact ⟨rfl, rfl⟩
    | exact FlushSerialRequestResend_stop E _
    | exact enqueue_line_stop E _

theorem store_char_stop (c : Nat) (s : State) :
    (store_char c s).Stopped = s.Stopped ∧
    (store_char c s).Stopped_gcode_LastN = s.Stopped_gcode_LastN := by
  unfold store_char
  dsimp only
  repeat' split
  all_goals exact ⟨rfl, rfl⟩

theorem serial_loop_stop (E : Env) : ∀ (rx : List Nat) (s : State),
    (serial_loop E rx s).1.Stopped = s.Stopped ∧
    (serial_loop E rx s).1.Stopped_gcode_LastN = s.Stopped_gcode_LastN := by
  intro rx
  induction rx with
  | nil => intro s; exact ⟨rfl, rfl⟩
  | cons c rest ih =>
    intro s
    unfold serial_loop
    dsimp only
    split
    · split
      · split
        · exact end_of_line_stop E _
        · have h1 := ih (end_of_line E { s with rx := rest }).1
          have h2 := end_of_line_stop E { s with rx := rest }
          exact ⟨h1.1.trans h2.1, h1.2.trans h2.2⟩
      · have h1 := ih (store_char c { s with rx := rest })
        have h2 := store_char_stop c { s with rx := rest }
        exact ⟨h1.1.trans h2.1, h1.2.trans h2.2⟩
    · exact ⟨rfl, rfl⟩

theorem sd_loop_stop (E : Env) : ∀ (file : List Int) (s : State),
    (sd_loop E file s).Stopped = s.Stopped ∧
    (sd_loop E file s).Stopped_gcode_LastN = s.Stopped_gcode_LastN := by
  intro file
  induction file with
  | nil => intro s; exact ⟨rfl, rfl⟩
  | cons n rest ih =>
    intro s
    have hsd : ∀ a : State, (sd_eof rest a).Stopped = a.Stopped ∧
        (sd_eof rest a).Stopped_gcode_LastN = a.Stopped_gcode_LastN := by
      intro a
      unfold sd_eof
      split <;> exact ⟨rfl, rfl⟩
    unfold sd_loop
    dsimp only
    split
    · split
      · split
        · exact hsd _
        · have h1 := ih (sd_enqueue E (sd_eof rest { s with card_file := rest }))
          have h2 := hsd { s with card_file := rest }
          exact ⟨h1.1.trans h2.1, h1.2.trans h2.2⟩
      · have h1 := ih (store_char (n % 256).toNat { s with card_file := rest })
        have h2 := store_char_stop (n % 256).toNat { s with card_file := rest }
        exact ⟨h1.1.trans h2.1, h1.2.trans h2.2⟩
    · exact ⟨rfl, rfl⟩

theorem get_command_stop (E : Env) (s : State) :
    (get_command E s).Stopped = s.Stopped ∧
    (get_command E s).Stopped_gcode_LastN = s.Stopped_gcode_LastN := by
  unfold get_command
  dsimp only
  repeat' split
  all_goals first
    | exact serial_loop_stop E _ _
    | exact ⟨((sd_loop_stop E _ _).1).trans (serial_loop_stop E _ _).1,
        ((sd_loop_stop E _ _).2).trans (serial_loop_stop E _ _).2⟩
theorem Moved.halted {s a : State} (h : Moved s a) :
    a.Stopped = s.Stopped ∧ a.Stopped_gcode_LastN = s.Stopped_gcode_LastN ∧
    a.gcode_LastN = s.gcode_LastN := by
  obtain ⟨m, t, rfl⟩ := h
  exact ⟨rfl, rfl, rfl⟩

theorem enquecommand_stop (E : Env) (cmd : List Nat) (s a : State)
    (h : enquecommand E cmd s = some a) :
    a.Stopped = s.Stopped ∧ a.Stopped_gcode_LastN = s.Stopped_gcode_LastN := by
  unfold enquecommand at h
  split at h
  · split at h
    · cases h
      exact ⟨rfl, rfl⟩
    · cases h
  · cases h
    exact ⟨rfl, rfl⟩

theorem run_event_halted (E : Env) (v : Int) (e : Event) (s : State) (h : Halted v s) :
    Halted v (run_event E e s) := by
  cases e with
  | enque cmd =>
    show Halted v ((enquecommand E cmd s).getD s)
    cases hq : enquecommand E cmd s with
    | none => exact h
    | some a =>
      have := enquecommand_stop E cmd s a hq
      exact ⟨this.1.trans h.1, this.2.trans h.2⟩
  | stop =>
    show Halted v (Stop s)
    unfold Stop
    rw [if_neg (by rw [h.1]; decide)]
    exact h
  | echo text => exact h
  | homed x => exact h
  | card a b f => exact h
  | recv d => exact h
  | motion m => exact h

theorem run_events_halted (E : Env) (v : Int) : ∀ (es : List Event) (s : State),
    Halted v s → Halted v (run_events E es s) := by
  intro es
  induction es with
  | nil => intro s h; exact h
  | cons e es ih => intro s h; exact ih _ (run_event_halted E v e s h)

theorem strchr_none_iff (l : List Nat) (c : Nat) : strchr l c = none ↔ c ∉ l := by
  constructor
  · intro h hc
    obtain ⟨p, hp, _⟩ := strchr_of_mem hc
    rw [h] at hp
    cases hp
  · exact strchr_of_not_mem

theorem strchr_some (l : List Nat) (c : Nat) (p : List Nat) (h : strchr l c = some p) :
    c ∈ l ∧ p.tail = after c l := by
  have hc : c ∈ l := by
    by_contra hn
    rw [strchr_of_not_mem hn] at h
    cases h
  obtain ⟨q, hq, hqt⟩ := strchr_of_mem hc
  rw [h] at hq
  cases hq
  exact ⟨hc, hqt⟩

theorem process_commands_halted (E : Env) (o : Oracle) (v : Int) (s : State) (h : Halted v s)
    (hn : ¬ IsM999 E (cstr E (s.cmdbuffer s.bufindr))) :
    Halted v (process_commands E o s) := by
  have hcl : ∀ a, Halted v a → Halted v (ClearToSend E a) := fun a ha =>
    ⟨(ClearToSend_stop E a).1.trans ha.1, (ClearToSend_stop E a).2.1.trans ha.2⟩
  have hev : ∀ a, Halted v a → Halted v (run_events E o.body a) :=
    fun a ha => run_events_halted E v o.body a ha
  have hmv : ∀ a, Moved s a → Halted v a := fun a ha =>
    ⟨ha.halted.1.trans h.1, ha.halted.2.1.trans h.2⟩
  unfold process_commands
  dsimp only
  cases hG : strchr (cstr E (s.cmdbuffer s.bufindr)) 71 with
  | some p =>
    dsimp only
    repeat' split
    all_goals first
      | exact hev _ (hmv _ ((get_coordinates_moved E true s).andThen (prepare_move_moved E _)))
      | exact hcl _ (hev _ (hmv _ (gcode_G10_moved E s)))
      | exact hcl _ (hev _ (hmv _ (gcode_G11_moved E s)))
      | exact hev _ h
      | exact hcl _ (hev _ h)
      | exact hcl _ h
  | none =>
    dsimp only
    cases hM : strchr (cstr E (s.cmdbuffer s.bufindr)) 77 with
    | some p =>
      dsimp only
      by_cases hc : E.strtod_int p.tail = 999
      · exfalso
        apply hn
        have := strchr_some _ _ _ hM
        exact ⟨(strchr_none_iff _ _).mp hG, this.1, by rw [← this.2]; exact hc⟩
      · rw [if_neg hc]
        split
        · exact hev _ h
        · exact hcl _ (hev _ h)
    | none =>
      dsimp only
      split
      · exact hcl _ h
      · exact hcl _ h

theorem halt_halted (E : Env) (v : Int) (s d : State) (h : Halted v s)
    (hq : Relation.ReflTransGen (Halt E) s d) : Halted v d := by
  induction hq with
  | refl => exact h
  | tail _ hstep ih =>
    cases hstep with
    | event e => exact run_event_halted E v e _ ih
    | get_command =>
      exact ⟨(get_command_stop E _).1.trans ih.1, (get_command_stop E _).2.trans ih.2⟩
    | dispatch o hn => exact process_commands_halted E o v _ ih hn
    | dequeue => exact ih
theorem dispatch_M999 (E : Env) (o : Oracle) (d : State)
    (hm : IsM999 E (cstr E (d.cmdbuffer d.bufindr))) :
    process_commands E o d =
      ClearToSend E (FlushSerialRequestResend E
        { d with Stopped := false, gcode_LastN := d.Stopped_gcode_LastN }) := by
  obtain ⟨hG, hM, hc⟩ := hm
  obtain ⟨p, hp, hpt⟩ := strchr_of_mem hM
  simp [process_commands, strchr_of_not_mem hG, hp, hpt, hc]

/-- C20. When `Stop` is called on a machine that is not Stopped, it saves the last sequence
number; whatever happens afterwards short of an `M999` (outside events with further calls of
`Stop`, lines received, other commands dispatched), the machine stays Stopped and the saved
number stays the same. Dispatching `M999` then clears `Stopped`, sets the last sequence number
to the saved one and writes a resend request for that number plus one, followed by
acknowledgements only. -/
theorem C20_restart (E : Env) (o : Oracle) (s0 d : State) (h0 : s0.Stopped = false)
    (hq : Relation.ReflTransGen (Halt E) (Stop s0) d)
    (hm : IsM999 E (cstr E (d.cmdbuffer d.bufindr))) :
    (Stop s0).Stopped = true ∧ (Stop s0).Stopped_gcode_LastN = s0.gcode_LastN ∧
    d.Stopped = true ∧ d.Stopped_gcode_LastN = s0.gcode_LastN ∧
    (process_commands E o d).Stopped = false ∧
    (process_commands E o d).gcode_LastN = s0.gcode_LastN ∧
    ∃ tail, (process_commands E o d).out = d.out ++ Resp.resend (s0.gcode_LastN + 1) :: tail ∧
      ∀ r ∈ tail, r = Resp.ok := by
  have hs : Halted s0.gcode_LastN (Stop s0) := by
    unfold Stop
    rw [if_pos h0]
    exact ⟨rfl, rfl⟩
  have hd := halt_halted E _ _ d hs hq
  refine ⟨hs.1, hs.2, hd.1, hd.2, ?_, ?_, ?_⟩
  · rw [dispatch_M999 E o d hm, (ClearToSend_stop E _).1, (FlushSerialRequestResend_stop E _).1]
  · rw [dispatch_M999 E o d hm, (ClearToSend_stop E _).2.2.1]
    unfold FlushSerialRequestResend
    rw [(ClearToSend_stop E _).2.2.1]
    exact hd.2
  · rw [dispatch_M999 E o d hm, ← hd.2]
    unfold FlushSerialRequestResend ClearToSend
    dsimp only
    by_cases hsd : E.SDSUPPORT = true ∧ d.fromsd d.bufindr = true
    · rw [if_pos hsd, if_pos hsd]
      exact ⟨[], rfl, fun r hr => by cases hr⟩
    · rw [if_neg hsd, if_neg hsd]
      refine ⟨[Resp.ok, Resp.ok], by simp, fun r hr => ?_⟩
      simp at hr
      exact hr

theorem C20_witness :
    (process_commands stdEnv quietOracle restartLine).Stopped = false ∧
    (process_commands stdEnv quietOracle restartLine).gcode_LastN = 7 ∧
    ∃ tail, (process_commands stdEnv quietOracle restartLine).out =
      restartLine.out ++ Resp.resend (7 + 1) :: tail ∧ ∀ r ∈ tail, r = Resp.ok :=
  (C20_restart stdEnv quietOracle { State.init with gcode_LastN := 7 } restartLine rfl
    (((Relation.ReflTransGen.refl.tail (Halt.event _ Event.stop)).tail
      (Halt.event _ (Event.recv (bytes "M999\n")))).tail (Halt.get_command _))
    ⟨by decide, by decide, by decide⟩).2.2.2.2
theorem dispatch_stopped (E : Env) (o : Oracle) (d : State) (l : List Nat)
    (hd : cstr E (d.cmdbuffer d.bufindr) = l) (hG : IsG0G1 E l) (hst : d.Stopped = true) :
    process_commands E o d = ClearToSend E { d with out := d.out ++ [Resp.echo no_movement] } := by
  obtain ⟨hG, hcode⟩ := hG
  obtain ⟨p, hp, hpt⟩ := strchr_of_mem hG
  simp [process_commands, hd, hp, hpt, hcode, hst]

/-- C19 (amended). For every state with `Stopped` set, dispatching a `G0` or `G1` command
leaves the motion globals unchanged (no segment is emitted; `current_position`, `destination`
and the feed rate keep their values) and, for a command from the serial line, writes the text
line `No movement - Home first...` followed by `ok`. The Stopped error response for the command
is written by the framer, in place of the early `ok`, exactly when the machine is Stopped at
the time the line is received. -/
theorem C19_stopped_dispatch (E : Env) (o : Oracle) (d : State) (l : List Nat)
    (hd : cstr E (d.cmdbuffer d.bufindr) = l) (hG : IsG0G1 E l) (hst : d.Stopped = true) :
    (process_commands E o d).m = d.m ∧
    (d.fromsd d.bufindr = false →
      (process_commands E o d).out = d.out ++ [Resp.echo no_movement, Resp.ok]) ∧
    (∀ (s : State) (t : Nat), AtLine E s l t [] → NoSdPrint E s → Accepts E s l →
      (E.SDSUPPORT = true → s.card_saving = false) →
      (s.Stopped = true → (get_command E s).out = s.out ++ [Resp.err_stopped]) ∧
      (s.Stopped = false → (get_command E s).out = s.out ++ [Resp.ok])) := by
  refine ⟨?_, ?_, ?_⟩
  · rw [dispatch_stopped E o d l hd hG hst]
    exact (ClearToSend_stop E _).2.2.2
  · intro hfrom
    exact (dispatch_out E o d l hd hfrom).2.1 hG hst
  · intro s t h hsd ha hsave
    have hf := accepted_out E s l t h hsd ha hsave
    exact ⟨hf.2.1 hG, hf.1 hG⟩

theorem C19_witness :
    (process_commands stdEnv quietOracle stoppedLine).m = stoppedLine.m ∧
    (process_commands stdEnv quietOracle stoppedLine).out =
      stoppedLine.out ++ [Resp.echo no_movement, Resp.ok] :=
  have h := C19_stopped_dispatch stdEnv quietOracle stoppedLine (bytes "G1 X5") (by decide)
    ⟨by decide, by decide⟩ (by decide)
  ⟨h.1, h.2.1 (by decide)⟩

/-- C19, counterexample. The line `G1 X5` is received while the machine is not Stopped, and
the framer answers `ok`; `Stop` is called before the line is dispatched. The dispatcher then
writes the text line and `ok`: no error line is written for the command. -/
theorem C19_counterexample :
    (get_command stdEnv (run_event stdEnv (Event.recv (bytes "G1 X5\n")) State.init)).out
      = [Resp.ok] ∧
    stoppedLine.Stopped = true ∧
    cstr stdEnv (stoppedLine.cmdbuffer stoppedLine.bufindr) = bytes "G1 X5" ∧
    (process_commands stdEnv quietOracle stoppedLine).out =
      stoppedLine.out ++ [Resp.echo no_movement, Resp.ok] ∧
    errors [Resp.ok, Resp.echo no_movement, Resp.ok] = 0 := by
  decide

theorem segment_loop_frame (E : Env) (df : Nat → ℚ) (f : ℚ) :
    ∀ (n k : Nat) (s : State), ∃ d l,
      (segment_loop E df f n k s).m = { s.m with destination := d, segments := l } := by
  intro n
  induction n with
  | zero => intro k s; exact ⟨_, _, rfl⟩
  | succ n ih =>
    intro k s
    unfold segment_loop
    dsimp only
    generalize ha : plan_segment E _ = a
    have hm : ∃ d l, a.m = { s.m with destination := d, segments := l } := by
      rw [← ha]
      exact ⟨_, _, rfl⟩
    obtain ⟨d1, l1, h1⟩ := hm
    obtain ⟨d2, l2, h2⟩ := ih (k + 1) a
    exact ⟨d2, l2, by rw [h2, h1]⟩

theorem prepare_move_frame (E : Env) (s : State) : ∃ c d l,
    (prepare_move E s).m = { s.m with current_position := c, destination := d, segments := l } := by
  have h1 : ∃ d, (soft_endstops E s).m = { s.m with destination := d } := by
    unfold soft_endstops
    split
    · exact ⟨_, rfl⟩
    · exact ⟨_, rfl⟩
  obtain ⟨d1, hd1⟩ := h1
  unfold prepare_move plan_move
  split
  · exact ⟨_, _, _, by rw [hd1]⟩
  · dsimp only
    obtain ⟨d2, l2, h2⟩ := segment_loop_frame E (difference E (soft_endstops E s))
      (E.fl (1 / E.fl (steps E (soft_endstops E s) : ℚ))) (steps E (soft_endstops E s)).toNat 1
      (soft_endstops E s)
    exact ⟨_, d2, l2, by rw [h2, hd1]⟩

/-- C18 (what the code does). `G10` while retracted does nothing, and so does `G11` while
retracted. `G11` while not retracted runs the recover block: it raises `current_position[Z]`
by `retract_zlift`, lowers `current_position[E]` by `retract_recover_length`, sets the feed
rate to `retract_recover_feedrate` and calls `prepare_move`. On the initial state the
command `G11` changes the feed rate from 1500 to 480 and emits 20 segments. -/
theorem C18_retract_guards :
    (∀ (E : Env) (s : State), s.m.retracted = true → gcode_G10 E s = s ∧ gcode_G11 E s = s) ∧
    (∀ (E : Env) (s : State), s.m.retracted = false →
      (gcode_G11 E s).m.feedrate = s.m.retract_recover_feedrate ∧
      (gcode_G11 E s).m.retracted = false) ∧
    recoverLine.m.retracted = false ∧ recoverLine.m.feedrate = 1500 ∧
    cstr stdEnv (recoverLine.cmdbuffer recoverLine.bufindr) = bytes "G11" ∧
    (process_commands stdEnv quietOracle recoverLine).m.feedrate = 480 ∧
    recoverLine.m.segments.length = 0 ∧
    (process_commands stdEnv quietOracle recoverLine).m.segments.length = 20 := by
  refine ⟨?_, ?_, by decide, by decide, by decide, by decide!, by decide, by decide!⟩
  · intro E s h
    constructor
    · unfold gcode_G10
      rw [if_neg (by rw [h]; decide)]
    · unfold gcode_G11
      rw [if_neg (by rw [h]; decide)]
  · intro E s h
    unfold gcode_G11
    rw [if_pos h]
    dsimp only
    generalize hb : ({ s with m := _ } : State) = b
    obtain ⟨c, d, l, hf⟩ := prepare_move_frame E b
    rw [hf, ← hb]
    exact ⟨rfl, rfl⟩

/-! ## Bed levelling -/

/-- C16 (the code at the failing input). On a grid of cells of 50 by 50 with height 1 at the
grid point (50, 0) and 0 elsewhere, `calc_bed_delta` returns 1/5 at the point (10.5, 0),
where the bilinear interpolation is 21/100: the cast in `(int)cartesian[X_AXIS] * dCal_X_Inv`
applies to the coordinate, so the offset within the cell is 10/50 instead of 10.5/50. At the
integer point (10, 0) the two agree. -/
theorem C16_truncated_offset :
    calc_bed_delta stdEnv gridMachine (point (21 / 2) 0) = some (1 / 5) ∧
    bilinear_spec (fun i j => gridMachine.Arm_lookup i.toNat j.toNat) 50 50 (21 / 2) 0
      = 21 / 100 ∧
    calc_bed_delta stdEnv gridMachine (point 10 0) = some (1 / 5) ∧
    bilinear_spec (fun i j => gridMachine.Arm_lookup i.toNat j.toNat) 50 50 10 0 = 1 / 5 ∧
    calc_bed_delta stdEnv gridMachine (point 201 0) = some 0 := by
  decide!
theorem trunc_bounds (q b : ℚ) (n : Nat) (h0 : 0 ≤ q) (hb : q ≤ b) (hn : b + 1 < n) :
    0 ≤ trunc q ∧ trunc q + 1 < n := by
  unfold trunc
  rw [if_pos h0]
  constructor
  · exact Int.floor_nonneg.mpr h0
  · have h1 : ((Int.floor q : Int) : ℚ) ≤ q := Int.floor_le q
    have h2 : ((Int.floor q + 1 : Int) : ℚ) < ((n : Int) : ℚ) := by
      push_cast
      linarith
    exact_mod_cast h2

theorem lookup_cleared (E : Env) (m : Machine)
    (hclear : ∀ i j, i < E.X_ARMLOOKUP_LENGTH → j < E.Y_ARMLOOKUP_LENGTH → m.Arm_lookup i j = 0)
    (i j : Int) (hi : 0 ≤ i) (hi2 : i < E.X_ARMLOOKUP_LENGTH) (hj : 0 ≤ j)
    (hj2 : j < E.Y_ARMLOOKUP_LENGTH) : lookup E m i j = some 0 := by
  unfold lookup
  rw [if_pos ⟨hi, hi2, hj, hj2⟩, hclear i.toNat j.toNat (by omega) (by omega)]

/-- C17 (amended). After the grid has been cleared (every cell of `Arm_lookup` is 0),
`calc_bed_delta` returns exactly 0 for every point inside the bed rectangle, the top and right
edges included, provided the cells read lie inside the array: the bed starts at a non-negative
coordinate and the number of grid cells a side, `X_MAX_POS * dCal_X_Inv`, is less than the
array length minus one (and so for Y). -/
theorem C17_cleared_grid (E : Env) (m : Machine) (cartesian : Nat → ℚ)
    (hclear : ∀ i j, i < E.X_ARMLOOKUP_LENGTH → j < E.Y_ARMLOOKUP_LENGTH → m.Arm_lookup i j = 0)
    (hx : E.X_MIN_POS ≤ cartesian 0 ∧ cartesian 0 ≤ E.X_MAX_POS)
    (hy : E.Y_MIN_POS ≤ cartesian 1 ∧ cartesian 1 ≤ E.Y_MAX_POS)
    (hx0 : 0 ≤ E.X_MIN_POS) (hy0 : 0 ≤ E.Y_MIN_POS)
    (hix : 0 ≤ m.dCal_X_Inv) (hiy : 0 ≤ m.dCal_Y_Inv)
    (hfx : E.X_MAX_POS * m.dCal_X_Inv + 1 < E.X_ARMLOOKUP_LENGTH)
    (hfy : E.Y_MAX_POS * m.dCal_Y_Inv + 1 < E.Y_ARMLOOKUP_LENGTH) :
    calc_bed_delta E m cartesian = some 0 := by
  have bx := trunc_bounds (cartesian 0 * m.dCal_X_Inv) (E.X_MAX_POS * m.dCal_X_Inv)
    E.X_ARMLOOKUP_LENGTH (mul_nonneg (hx0.trans hx.1) hix)
    (mul_le_mul_of_nonneg_right hx.2 hix) hfx
  have byy := trunc_bounds (cartesian 1 * m.dCal_Y_Inv) (E.Y_MAX_POS * m.dCal_Y_Inv)
    E.Y_ARMLOOKUP_LENGTH (mul_nonneg (hy0.trans hy.1) hiy)
    (mul_le_mul_of_nonneg_right hy.2 hiy) hfy
  have hout : ¬ (cartesian 0 < E.X_MIN_POS ∨ cartesian 1 < E.Y_MIN_POS ∨
      cartesian 0 > E.X_MAX_POS ∨ cartesian 1 > E.Y_MAX_POS) := by
    rintro (h | h | h | h)
    · exact absurd hx.1 (not_le.mpr h)
    · exact absurd hy.1 (not_le.mpr h)
    · exact absurd hx.2 (not_le.mpr h)
    · exact absurd hy.2 (not_le.mpr h)
  unfold calc_bed_delta
  rw [if_neg hout]
  dsimp only
  rw [lookup_cleared E m hclear _ _ bx.1 (by omega) byy.1 (by omega),
    lookup_cleared E m hclear _ _ (by omega) bx.2 byy.1 (by omega),
    lookup_cleared E m hclear _ _ bx.1 (by omega) (by omega) byy.2,
    lookup_cleared E m hclear _ _ (by omega) bx.2 (by omega) byy.2]
  simp

theorem C17_witness : calc_bed_delta stdEnv defaultGrid (point 200 200) = some 0 :=
  C17_cleared_grid stdEnv defaultGrid (point 200 200) (fun _ _ _ _ => rfl)
    (by decide!) (by decide!) (by decide!) (by decide!) (by decide!) (by decide!)
    (by decide!) (by decide!)

/-- C17, counterexample. With five grid points a side in the array of 5 by 5 and every cell
cleared, the point (200, 100) on the right edge of the bed makes `calc_bed_delta` read
`Arm_lookup[5][2]`, outside the array: no value is determined. -/
theorem C17_counterexample :
    (∀ i j, clearedMachine.Arm_lookup i j = 0) ∧
    stdEnv.X_MIN_POS ≤ 200 ∧ (200 : ℚ) ≤ stdEnv.X_MAX_POS ∧
    stdEnv.Y_MIN_POS ≤ 100 ∧ (100 : ℚ) ≤ stdEnv.Y_MAX_POS ∧
    trunc (200 * clearedMachine.dCal_X_Inv) + 1 = 5 ∧ stdEnv.X_ARMLOOKUP_LENGTH = 5 ∧
    calc_bed_delta stdEnv clearedMachine (point 200 100) = none := by
  refine ⟨fun _ _ => rfl, ?_, ?_, ?_, ?_, ?_, ?_, ?_⟩ <;> decide!

/-! ## Kinematics over the real numbers -/

/-- The law of cosines solved for the angle: with `s` the root of the positive number
`a² + b² - 2ab cos α` and `0 ≤ sin α`, the angle `arccos ((b² - s² - a²) / (-2sa))` has
cosine `(a - b cos α)/s` and sine `b sin α / s`. -/
theorem elbow_angle (a b ca sa : ℝ) (ha : 0 < a) (hb : 0 < b) (hn : ca * ca + sa * sa = 1)
    (hs : 0 ≤ sa) (hpos : 0 < a * a + b * b - 2 * a * b * ca) :
    0 < Real.sqrt (a * a + b * b - 2 * a * b * ca) ∧
    Real.sqrt (a * a + b * b - 2 * a * b * ca) * Real.sqrt (a * a + b * b - 2 * a * b * ca)
      = a * a + b * b - 2 * a * b * ca ∧
    Real.sqrt (a * a + b * b - 2 * a * b * ca) *
      Real.cos (Real.arccos ((b * b - Real.sqrt (a * a + b * b - 2 * a * b * ca) *
        Real.sqrt (a * a + b * b - 2 * a * b * ca) - a * a) /
        (-2 * Real.sqrt (a * a + b * b - 2 * a * b * ca) * a))) = a - b * ca ∧
    Real.sqrt (a * a + b * b - 2 * a * b * ca) *
      Real.sin (Real.arccos ((b * b - Real.sqrt (a * a + b * b - 2 * a * b * ca) *
        Real.sqrt (a * a + b * b - 2 * a * b * ca) - a * a) /
        (-2 * Real.sqrt (a * a + b * b - 2 * a * b * ca) * a))) = b * sa := by
  have hS : a * a + b * b - 2 * a * b * ca = (a - b * ca) ^ 2 + (b * sa) ^ 2 := by
    linear_combination (-(b * b)) * hn
  generalize hSdef : a * a + b * b - 2 * a * b * ca = S at *
  have hs0 : 0 < Real.sqrt S := Real.sqrt_pos.mpr hpos
  have hss : Real.sqrt S * Real.sqrt S = S := Real.mul_self_sqrt hpos.le
  have hv : (b * b - Real.sqrt S * Real.sqrt S - a * a) / (-2 * Real.sqrt S * a)
      = (a - b * ca) / Real.sqrt S := by
    rw [hss]
    have hne : Real.sqrt S ≠ 0 := ne_of_gt hs0
    have hane : a ≠ 0 := ne_of_gt ha
    field_simp
    nlinarith [hS, hss]
  have hv2 : ((a - b * ca) / Real.sqrt S) ^ 2 ≤ 1 := by
    rw [div_pow, div_le_one (by positivity)]
    nlinarith [sq_nonneg (b * sa), hss]
  have habs : |(a - b * ca) / Real.sqrt S| ≤ 1 := by
    rw [← abs_one, ← sq_le_sq]
    simpa using hv2
  have hlo : -1 ≤ (a - b * ca) / Real.sqrt S := (abs_le.mp habs).1
  have hhi : (a - b * ca) / Real.sqrt S ≤ 1 := (abs_le.mp habs).2
  refine ⟨hs0, hss, ?_, ?_⟩
  · rw [hv, Real.cos_arccos hlo hhi]
    field_simp
  · rw [hv, Real.sin_arccos]
    have h1 : 1 - ((a - b * ca) / Real.sqrt S) ^ 2 = (b * sa / Real.sqrt S) ^ 2 := by
      have hne : Real.sqrt S ≠ 0 := ne_of_gt hs0
      field_simp
      nlinarith [hS, hss]
    rw [h1, Real.sqrt_sq (by positivity)]
    field_simp

theorem round_trip_core (a b c d α s B2 C2 P1 p D : ℝ) (ha : 0 < a) (hb : 0 < b) (hc : 0 < c)
    (hd : 0 < d) (hα0 : 0 < α) (hαπ : α < Real.pi)
    (hs : s = Real.sqrt (a * a + b * b - 2 * a * b * Real.cos α))
    (hlo : |c - d| ≤ s) (hhi : s ≤ c + d)
    (hB2 : B2 = Real.arccos ((b * b - s * s - a * a) / (-2 * s * a)))
    (hC2 : C2 = Real.arccos ((d * d - s * s - c * c) / (-2 * s * c)))
    (hP : P1 = B2 + C2) (hPπ : P1 ≤ Real.pi)
    (hp : p = Real.sqrt (a * a + c * c - 2 * a * c * Real.cos P1))
    (hD : D = Real.arccos ((c * c - a * a - p * p) / (-2 * a * p))) (hDα : D ≤ α) :
    0 < p ∧ Real.arccos ((d * d - b * b - p * p) / (-2 * b * p)) = α - D := by
  have hsinα : 0 < Real.sin α := Real.sin_pos_of_pos_of_lt_pi hα0 hαπ
  have hposS : 0 < a * a + b * b - 2 * a * b * Real.cos α := by
    have h1 : a * a + b * b - 2 * a * b * Real.cos α
        = (a - b * Real.cos α) ^ 2 + (b * Real.sin α) ^ 2 := by
      linear_combination (-(b * b)) * (Real.cos_sq_add_sin_sq α)
    rw [h1]
    have h2 : 0 < (b * Real.sin α) ^ 2 := pow_pos (mul_pos hb hsinα) 2
    linarith [sq_nonneg (a - b * Real.cos α)]
  obtain ⟨hs0, hss, hcB, hsB⟩ := elbow_angle a b (Real.cos α) (Real.sin α) ha hb
    (by rw [← sq, ← sq]; exact Real.cos_sq_add_sin_sq α) hsinα.le hposS
  rw [← hs] at hs0 hss hcB hsB
  rw [← hB2] at hcB hsB
  -- the angle C2
  have hu : (d * d - s * s - c * c) / (-2 * s * c) = (s * s + c * c - d * d) / (2 * s * c) := by
    rw [← neg_div_neg_eq]
    congr 1 <;> ring
  have hlo2 := abs_le.mp hlo
  have hulo : -1 ≤ (s * s + c * c - d * d) / (2 * s * c) := by
    rw [le_div_iff₀ (by positivity)]
    have h1 : 0 ≤ s + c - d := by linarith [hlo2.1]
    have h2 : 0 ≤ s + c + d := by linarith
    linarith [mul_nonneg h1 h2]
  have huhi : (s * s + c * c - d * d) / (2 * s * c) ≤ 1 := by
    rw [div_le_iff₀ (by positivity)]
    have h1 : 0 ≤ d - s + c := by linarith
    have h2 : 0 ≤ d + s - c := by linarith [hlo2.2]
    linarith [mul_nonneg h1 h2]
  have hcC : 2 * s * c * Real.cos C2 = s * s + c * c - d * d := by
    rw [hC2, hu, Real.cos_arccos hulo huhi]
    field_simp
  have hB0 : 0 < B2 := by
    have h0 : 0 ≤ B2 := by rw [hB2]; exact Real.arccos_nonneg _
    rcases h0.lt_or_eq with h | h
    · exact h
    · exfalso
      rw [← h, Real.sin_zero, mul_zero] at hsB
      linarith [mul_pos hb hsinα]
  have hC0 : 0 ≤ C2 := by rw [hC2]; exact Real.arccos_nonneg _
  have hP0 : 0 < P1 := by rw [hP]; linarith
  have hsinP : 0 ≤ Real.sin P1 := Real.sin_nonneg_of_nonneg_of_le_pi hP0.le hPπ
  have hposT : 0 < a * a + c * c - 2 * a * c * Real.cos P1 := by
    rcases hPπ.lt_or_eq with h | h
    · have h2 : 0 < Real.sin P1 := Real.sin_pos_of_pos_of_lt_pi hP0 h
      have h1 : a * a + c * c - 2 * a * c * Real.cos P1
          = (a - c * Real.cos P1) ^ 2 + (c * Real.sin P1) ^ 2 := by
        linear_combination (-(c * c)) * (Real.cos_sq_add_sin_sq P1)
      rw [h1]
      have h3 : 0 < (c * Real.sin P1) ^ 2 := pow_pos (mul_pos hc h2) 2
      linarith [sq_nonneg (a - c * Real.cos P1)]
    · rw [h, Real.cos_pi]
      linarith [mul_pos ha hc, mul_pos ha ha, mul_pos hc hc]
  obtain ⟨hp0, hpp, hcD', hsD'⟩ := elbow_angle a c (Real.cos P1) (Real.sin P1) ha hc
    (by rw [← sq, ← sq]; exact Real.cos_sq_add_sin_sq P1) hsinP hposT
  rw [← hp] at hp0 hpp hcD' hsD'
  have hDe : D = Real.arccos ((c * c - p * p - a * a) / (-2 * p * a)) := by
    rw [hD]
    congr 1
    congr 1 <;> ring
  rw [← hDe] at hcD' hsD'
  refine ⟨hp0, ?_⟩
  have hD0 : 0 ≤ D := by rw [hD]; exact Real.arccos_nonneg _
  have hcosP : Real.cos P1 = Real.cos B2 * Real.cos C2 - Real.sin B2 * Real.sin C2 := by
    rw [hP, Real.cos_add]
  have hsinP2 : Real.sin P1 = Real.sin B2 * Real.cos C2 + Real.cos B2 * Real.sin C2 := by
    rw [hP, Real.sin_add]
  have hkey : Real.cos (α - D) = (d * d - b * b - p * p) / (-2 * b * p) := by
    have hden : -2 * b * p ≠ 0 := by
      have := mul_pos hb hp0
      intro h
      linarith
    rw [Real.cos_sub, eq_div_iff hden]
    have e1 : s * Real.cos C2 = Real.cos P1 * (a - b * Real.cos α)
        + Real.sin P1 * (b * Real.sin α) := by
      rw [← hcB, ← hsB, hcosP, hsinP2]
      linear_combination (-(s * Real.cos C2)) * (Real.cos_sq_add_sin_sq B2)
    have e2 : (Real.cos α * Real.cos D + Real.sin α * Real.sin D) * p
        = Real.cos α * (a - c * Real.cos P1) + Real.sin α * (c * Real.sin P1) := by
      rw [← hcD', ← hsD']
      ring
    have e3 : (Real.cos α * Real.cos D + Real.sin α * Real.sin D) * (-2 * b * p)
        = -2 * b * ((Real.cos α * Real.cos D + Real.sin α * Real.sin D) * p) := by ring
    rw [e3, e2]
    linear_combination (-1 : ℝ) * hcC + (2 * c) * e1 - hss + hpp
  rw [← hkey, Real.arccos_cos (by linarith) (by linarith)]
theorem triple_zero {α : Type} (a b c : α) : triple a b c 0 = a := rfl

theorem triple_one {α : Type} (a b c : α) : triple a b c 1 = b := rfl

theorem realLibm_sqrt (x : ℝ) : realLibm.sqrt x = Real.sqrt x := rfl

theorem realLibm_acos (x : ℝ) : realLibm.acos x = Real.arccos x := rfl

theorem realLibm_atan2 (y x : ℝ) : realLibm.atan2 y x = Complex.arg ⟨x, y⟩ := rfl

theorem polar_inverse (p rho ox oy : ℝ) (hp : 0 < p) (h1 : -Real.pi < rho)
    (h2 : rho ≤ Real.pi) :
    Complex.arg ⟨p * Real.cos rho + ox - ox, p * Real.sin rho + oy - oy⟩ = rho ∧
    sqr (p * Real.cos rho + ox - ox) + sqr (p * Real.sin rho + oy - oy) = p * p ∧
    Real.sqrt (sqr (p * Real.cos rho + ox - ox) + sqr (p * Real.sin rho + oy - oy)) = p := by
  have e1 : p * Real.cos rho + ox - ox = p * Real.cos rho := by ring
  have e2 : p * Real.sin rho + oy - oy = p * Real.sin rho := by ring
  have e3 : sqr (p * Real.cos rho) + sqr (p * Real.sin rho) = p * p := by
    unfold sqr
    linear_combination (p * p) * (Real.cos_sq_add_sin_sq rho)
  rw [e1, e2, e3]
  refine ⟨?_, rfl, Real.sqrt_mul_self hp.le⟩
  have e4 : (⟨p * Real.cos rho, p * Real.sin rho⟩ : ℂ)
      = (p : ℂ) * (Complex.cos rho + Complex.sin rho * Complex.I) := by
    apply Complex.ext <;> simp [Complex.cos_ofReal_re, Complex.sin_ofReal_re,
      Complex.cos_ofReal_im, Complex.sin_ofReal_im]
  rw [e4]
  exact Complex.arg_mul_cos_add_sin_mul_I hp ⟨h1, h2⟩

theorem raw_angles_forward (K : Scara ℝ) (add_homeing : Nat → ℝ) (theta psi z : ℝ)
    (hR : 0 < K.SCARA_RAD2DEG)
    (ha : 0 < K.LengthTheta) (hb : 0 < K.LengthPsi) (hc : 0 < K.LengthThetaExt)
    (hd : 0 < K.LengthPsiExt)
    (hh : add_homeing 0 = 0 ∧ add_homeing 1 = 0)
    (hα0 : 0 < RADIANS K (psi - theta)) (hαπ : RADIANS K (psi - theta) < Real.pi)
    (hlo : |K.LengthThetaExt - K.LengthPsiExt| ≤ forward_s realLibm K (triple theta psi 0))
    (hhi : forward_s realLibm K (triple theta psi 0) ≤ K.LengthThetaExt + K.LengthPsiExt)
    (hP : forward_P1 realLibm K (triple theta psi 0) ≤ Real.pi)
    (hD : forward_D realLibm K (triple theta psi 0) ≤ RADIANS K (psi - theta))
    (hrho : -Real.pi < RADIANS K theta + forward_D realLibm K (triple theta psi 0) ∧
      RADIANS K theta + forward_D realLibm K (triple theta psi 0) ≤ Real.pi) :
    raw_angles realLibm K add_homeing
      (triple (calculate_forward realLibm K (triple theta psi 0)).1
        (calculate_forward realLibm K (triple theta psi 0)).2 z) = (theta, psi) := by
  obtain ⟨hp0, hC1⟩ := round_trip_core K.LengthTheta K.LengthPsi K.LengthThetaExt K.LengthPsiExt
    (RADIANS K (psi - theta)) (forward_s realLibm K (triple theta psi 0)) _ _
    (forward_P1 realLibm K (triple theta psi 0)) (forward_p realLibm K (triple theta psi 0))
    (forward_D realLibm K (triple theta psi 0)) ha hb hc hd hα0 hαπ rfl hlo hhi rfl rfl rfl hP
    rfl rfl hD
  have hcf1 : (calculate_forward realLibm K (triple theta psi 0)).1 =
      forward_p realLibm K (triple theta psi 0)
        * Real.cos (RADIANS K theta + forward_D realLibm K (triple theta psi 0))
        + K.SCARA_offset_x := rfl
  have hcf2 : (calculate_forward realLibm K (triple theta psi 0)).2 =
      forward_p realLibm K (triple theta psi 0)
        * Real.sin (RADIANS K theta + forward_D realLibm K (triple theta psi 0))
        + K.SCARA_offset_y := rfl
  have hDdef : forward_D realLibm K (triple theta psi 0) =
      Real.arccos ((K.LengthThetaExt * K.LengthThetaExt - K.LengthTheta * K.LengthTheta
        - forward_p realLibm K (triple theta psi 0) * forward_p realLibm K (triple theta psi 0))
        / (-2 * K.LengthTheta * forward_p realLibm K (triple theta psi 0))) := rfl
  obtain ⟨harg, hsq, hsqrt⟩ := polar_inverse (forward_p realLibm K (triple theta psi 0))
    (RADIANS K theta + forward_D realLibm K (triple theta psi 0)) K.SCARA_offset_x
    K.SCARA_offset_y hp0 hrho.1 hrho.2
  rw [hcf1, hcf2]
  unfold raw_angles
  simp only [triple_zero, triple_one, realLibm_sqrt, realLibm_acos, realLibm_atan2]
  rw [harg, hsqrt, hsq]
  simp only [sqr]
  rw [hC1, ← hDdef, hh.1, hh.2]
  have hRne : K.SCARA_RAD2DEG ≠ 0 := ne_of_gt hR
  unfold RADIANS
  refine Prod.ext ?_ ?_
  · show (theta * (1 / K.SCARA_RAD2DEG) + _ - _) * K.SCARA_RAD2DEG - 0 = theta
    field_simp
    ring
  · show (theta * (1 / K.SCARA_RAD2DEG) + _ + ((psi - theta) * (1 / K.SCARA_RAD2DEG) - _))
      * K.SCARA_RAD2DEG - 0 = psi
    field_simp
    ring
theorem calculate_delta_angles (K : Scara ℝ) (add_homeing : Nat → ℝ) ( Y_gridcal : Bool)
    (bed : Option ℝ) (cartesian : Nat → ℝ) (theta psi : ℝ)
    (hraw : raw_angles realLibm K add_homeing cartesian = (theta, psi))
    (hθ : (MIN_THETA : ℝ) ≤ theta ∧ theta ≤ MAX_THETA)
    (hψ : (MIN_PSI : ℝ) ≤ psi ∧ psi ≤ MAX_PSI)
    (hsep : (SMALLEST_DIFFERENCE_ANGLE : ℝ) ≤ psi - theta) :
    (calculate_delta realLibm K add_homeing Y_gridcal bed cartesian).x = theta ∧
    (calculate_delta realLibm K add_homeing Y_gridcal bed cartesian).y = psi := by
  have hw : widen (theta, psi) = ((theta, psi), []) := by
    unfold widen
    dsimp only
    rw [if_neg (not_lt.mpr hsep)]
  have hl : limit_angles (theta, psi) = ((theta, psi), []) := by
    unfold limit_angles
    dsimp only
    rw [if_neg (by
      rintro (h | h)
      · exact absurd hθ.2 (not_le.mpr h)
      · exact absurd hθ.1 (not_le.mpr h)), if_neg (by
      rintro (h | h)
      · exact absurd hψ.2 (not_le.mpr h)
      · exact absurd hψ.1 (not_le.mpr h))]
    rfl
  unfold calculate_delta
  dsimp only
  rw [hraw, hw, hl]
  exact ⟨rfl, rfl⟩

/-- C15 (amended). In exact real arithmetic, with a positive `SCARA_RAD2DEG`, positive link
lengths and zero homing offsets, take joint angles within the bounds with `psi - theta` at
least the minimum separation and the angle between the arms, `RADIANS(psi - theta)`, less
than a straight angle. If the linkage closes (the distance `s` between the elbows lies between
the difference and the sum of the two outer links), the theta elbow is not folded past
straight (`P1 ≤ π`), the tool lies between the arms (`D ≤ RADIANS(psi - theta)`) and the
direction of the tool, `RADIANS(theta) + D`, lies in `(-π, π]`, then `calculate_forward`
followed by `calculate_delta` returns the same `(theta, psi)`. -/
theorem C15_round_trip (K : Scara ℝ) (add_homeing : Nat → ℝ) (theta psi : ℝ)
    (hθ : (MIN_THETA : ℝ) ≤ theta ∧ theta ≤ MAX_THETA)
    (hψ : (MIN_PSI : ℝ) ≤ psi ∧ psi ≤ MAX_PSI)
    (hsep : (SMALLEST_DIFFERENCE_ANGLE : ℝ) ≤ psi - theta)
    (hR : 0 < K.SCARA_RAD2DEG)
    (ha : 0 < K.LengthTheta) (hb : 0 < K.LengthPsi) (hc : 0 < K.LengthThetaExt)
    (hd : 0 < K.LengthPsiExt)
    (hh : add_homeing 0 = 0 ∧ add_homeing 1 = 0)
    (hαπ : RADIANS K (psi - theta) < Real.pi)
    (hlo : |K.LengthThetaExt - K.LengthPsiExt| ≤ forward_s realLibm K (triple theta psi 0))
    (hhi : forward_s realLibm K (triple theta psi 0) ≤ K.LengthThetaExt + K.LengthPsiExt)
    (hP : forward_P1 realLibm K (triple theta psi 0) ≤ Real.pi)
    (hD : forward_D realLibm K (triple theta psi 0) ≤ RADIANS K (psi - theta))
    (hrho : -Real.pi < RADIANS K theta + forward_D realLibm K (triple theta psi 0) ∧
      RADIANS K theta + forward_D realLibm K (triple theta psi 0) ≤ Real.pi) :
    RoundTrip K add_homeing theta psi := by
  have hα0 : 0 < RADIANS K (psi - theta) := by
    unfold RADIANS
    have h30 : (0 : ℝ) < psi - theta := lt_of_lt_of_le (by norm_num [SMALLEST_DIFFERENCE_ANGLE]) hsep
    exact mul_pos h30 (one_div_pos.mpr hR)
  intro g bed z
  exact calculate_delta_angles K add_homeing g bed _ theta psi
    (raw_angles_forward K add_homeing theta psi z hR ha hb hc hd hh hα0 hαπ hlo hhi hP hD hrho)
    hθ hψ hsep
theorem realArm_quarter : RADIANS realArm (90 - 0) = Real.pi / 2 := by
  unfold RADIANS realArm
  have := Real.pi_pos
  field_simp
  ring

theorem realArm_forward_s : forward_s realLibm realArm (triple 0 90 0) = Real.sqrt 45000 := by
  unfold forward_s
  rw [triple_zero, triple_one, realLibm_sqrt]
  have hcos : realLibm.cos (RADIANS realArm (90 - 0)) = 0 := by
    rw [realArm_quarter]
    exact Real.cos_pi_div_two
  rw [hcos]
  congr 1
  norm_num [sqr, realArm]

theorem arccos_ratio_le (n x : ℝ) (hn : n ≤ 0) (hx : 0 ≤ x) (k : ℝ) (hk : 0 ≤ k) :
    Real.arccos (n / (-2 * x * k)) ≤ Real.pi / 2 := by
  rw [Real.arccos_le_pi_div_two]
  apply div_nonneg_of_nonpos hn
  have : 0 ≤ x * k := mul_nonneg hx hk
  linarith

theorem C15_witness : RoundTrip realArm (fun _ => 0) 0 90 := by
  have hs := realArm_forward_s
  have hs0 : 0 ≤ forward_s realLibm realArm (triple 0 90 0) := by
    rw [hs]
    exact Real.sqrt_nonneg _
  have hp0 : 0 ≤ forward_p realLibm realArm (triple 0 90 0) := Real.sqrt_nonneg _
  have hD : forward_D realLibm realArm (triple 0 90 0) ≤ Real.pi / 2 := by
    unfold forward_D
    dsimp only
    rw [realLibm_acos]
    have e : -2 * realArm.LengthTheta * forward_p realLibm realArm (triple 0 90 0)
        = -2 * forward_p realLibm realArm (triple 0 90 0) * 150 := by
      show -2 * (150 : ℝ) * _ = _
      ring
    rw [e]
    apply arccos_ratio_le _ _ _ hp0 150 (by norm_num)
    have : 0 ≤ sqr (forward_p realLibm realArm (triple 0 90 0)) := mul_self_nonneg _
    show sqr (150 : ℝ) - sqr (150 : ℝ) - _ ≤ 0
    linarith
  have hD0 : 0 ≤ forward_D realLibm realArm (triple 0 90 0) := Real.arccos_nonneg _
  have hP : forward_P1 realLibm realArm (triple 0 90 0) ≤ Real.pi := by
    unfold forward_P1
    dsimp only
    rw [realLibm_acos, realLibm_acos]
    have hsq : 0 ≤ sqr (forward_s realLibm realArm (triple 0 90 0)) := mul_self_nonneg _
    have h1 : Real.arccos ((sqr realArm.LengthPsi - sqr (forward_s realLibm realArm (triple 0 90 0))
        - sqr realArm.LengthTheta)
        / (-2 * forward_s realLibm realArm (triple 0 90 0) * realArm.LengthTheta))
        ≤ Real.pi / 2 := by
      apply arccos_ratio_le _ _ _ hs0 _ (by norm_num [realArm])
      show sqr (150 : ℝ) - _ - sqr (150 : ℝ) ≤ 0
      linarith
    have h2 : Real.arccos ((sqr realArm.LengthPsiExt
        - sqr (forward_s realLibm realArm (triple 0 90 0)) - sqr realArm.LengthThetaExt)
        / (-2 * forward_s realLibm realArm (triple 0 90 0) * realArm.LengthThetaExt))
        ≤ Real.pi / 2 := by
      apply arccos_ratio_le _ _ _ hs0 _ (by norm_num [realArm])
      show sqr (150 : ℝ) - _ - sqr (150 : ℝ) ≤ 0
      linarith
    linarith
  have hzero : RADIANS realArm 0 = 0 := by
    unfold RADIANS
    ring
  exact C15_round_trip realArm (fun _ => 0) 0 90
    (by norm_num [MIN_THETA, MAX_THETA]) (by norm_num [MIN_PSI, MAX_PSI])
    (by norm_num [SMALLEST_DIFFERENCE_ANGLE])
    (div_pos (by norm_num) Real.pi_pos) (by norm_num [realArm]) (by norm_num [realArm])
    (by norm_num [realArm]) (by norm_num [realArm]) ⟨rfl, rfl⟩
    (by rw [realArm_quarter]; linarith [Real.pi_pos])
    (by
      rw [hs]
      have : |realArm.LengthThetaExt - realArm.LengthPsiExt| = 0 := by
        show |(150 : ℝ) - 150| = 0
        norm_num
      rw [this]
      exact Real.sqrt_nonneg _)
    (by
      rw [hs]
      show Real.sqrt 45000 ≤ (150 : ℝ) + 150
      rw [Real.sqrt_le_iff]
      constructor <;> norm_num)
    hP (by rw [realArm_quarter]; exact hD)
    ⟨by rw [hzero]; linarith [Real.pi_pos], by rw [hzero]; linarith [Real.pi_pos]⟩

theorem forward_mirror : calculate_forward realLibm realArm (triple (-50) 245 0)
    = calculate_forward realLibm realArm (triple (-50) 15 0) := by
  have hcos : realLibm.cos (RADIANS realArm (245 - -50))
      = realLibm.cos (RADIANS realArm (15 - -50)) := by
    have e : RADIANS realArm (245 - -50) = 2 * Real.pi - RADIANS realArm (15 - -50) := by
      unfold RADIANS realArm
      have := Real.pi_pos
      field_simp
      ring
    rw [e]
    exact Real.cos_two_pi_sub _
  have hs : forward_s realLibm realArm (triple (-50) 245 0)
      = forward_s realLibm realArm (triple (-50) 15 0) := by
    unfold forward_s
    rw [triple_zero, triple_one, triple_zero, triple_one, hcos]
  have hP : forward_P1 realLibm realArm (triple (-50) 245 0)
      = forward_P1 realLibm realArm (triple (-50) 15 0) := by
    unfold forward_P1
    rw [hs]
  have hp : forward_p realLibm realArm (triple (-50) 245 0)
      = forward_p realLibm realArm (triple (-50) 15 0) := by
    unfold forward_p
    rw [hP]
  have hD : forward_D realLibm realArm (triple (-50) 245 0)
      = forward_D realLibm realArm (triple (-50) 15 0) := by
    unfold forward_D
    rw [hp]
  unfold calculate_forward
  rw [hp, hD, triple_zero, triple_zero]

/-- C15, counterexample. On the arm with four links of 150 and angles in degrees, the pairs
`(-50, 245)` and `(-50, 15)` both lie within the bounds with a separation of at least 30, and
`calculate_forward` maps them to the same point, since it uses `psi` only through
`cos(RADIANS(psi - theta))`; so the round trip fails for at least one of them. -/
theorem C15_counterexample :
    ((MIN_THETA : ℝ) ≤ -50 ∧ (-50 : ℝ) ≤ MAX_THETA) ∧
    ((MIN_PSI : ℝ) ≤ 245 ∧ (245 : ℝ) ≤ MAX_PSI) ∧ ((MIN_PSI : ℝ) ≤ 15 ∧ (15 : ℝ) ≤ MAX_PSI) ∧
    (SMALLEST_DIFFERENCE_ANGLE : ℝ) ≤ 245 - -50 ∧ (SMALLEST_DIFFERENCE_ANGLE : ℝ) ≤ 15 - -50 ∧
    calculate_forward realLibm realArm (triple (-50) 245 0)
      = calculate_forward realLibm realArm (triple (-50) 15 0) ∧
    ¬ (RoundTrip realArm (fun _ => 0) (-50) 245 ∧ RoundTrip realArm (fun _ => 0) (-50) 15) := by
  refine ⟨by norm_num [MIN_THETA, MAX_THETA], by norm_num [MIN_PSI, MAX_PSI],
    by norm_num [MIN_PSI, MAX_PSI], by norm_num [SMALLEST_DIFFERENCE_ANGLE],
    by norm_num [SMALLEST_DIFFERENCE_ANGLE], forward_mirror, ?_⟩
  rintro ⟨h1, h2⟩
  have e1 := (h1 true none 0).2
  have e2 := (h2 true none 0).2
  rw [forward_mirror] at e1
  rw [e1] at e2
  norm_num at e2

/-! ## The angle limits of calculate_delta -/

theorem widen_far {α : Type} [LinearOrderedField α] (a : α × α)
    (h : SMALLEST_DIFFERENCE_ANGLE ≤ a.2 - a.1) : widen a = (a, []) := by
  unfold widen
  dsimp only
  rw [if_neg (not_lt.mpr h)]

theorem widen_psi {α : Type} [LinearOrderedField α] (a : α × α)
    (h : a.2 - a.1 < SMALLEST_DIFFERENCE_ANGLE) (h1 : a.1 + SMALLEST_DIFFERENCE_ANGLE < MAX_PSI) :
    widen a = ((a.1, a.1 + SMALLEST_DIFFERENCE_ANGLE),
      [bytes "angle between psi and theta too small"]) := by
  unfold widen
  dsimp only
  rw [if_pos h, if_pos h1]

theorem widen_theta {α : Type} [LinearOrderedField α] (a : α × α)
    (h : a.2 - a.1 < SMALLEST_DIFFERENCE_ANGLE)
    (h1 : ¬ a.1 + SMALLEST_DIFFERENCE_ANGLE < MAX_PSI)
    (h2 : a.2 - SMALLEST_DIFFERENCE_ANGLE > MIN_THETA) :
    widen a = ((a.2 - SMALLEST_DIFFERENCE_ANGLE, a.2),
      [bytes "angle between psi and theta too small"]) := by
  unfold widen
  dsimp only
  rw [if_pos h, if_neg h1, if_pos h2]

theorem widen_pinned {α : Type} [LinearOrderedField α] (a : α × α)
    (h : a.2 - a.1 < SMALLEST_DIFFERENCE_ANGLE)
    (h1 : ¬ a.1 + SMALLEST_DIFFERENCE_ANGLE < MAX_PSI)
    (h2 : ¬ a.2 - SMALLEST_DIFFERENCE_ANGLE > MIN_THETA) :
    widen a = ((MAX_THETA, MAX_THETA + SMALLEST_DIFFERENCE_ANGLE),
      [bytes "angle between psi and theta too small"]) := by
  unfold widen
  dsimp only
  rw [if_pos h, if_neg h1, if_neg h2]

/-- After the widening block psi is at least `SMALLEST_DIFFERENCE_ANGLE` above theta. -/
theorem widen_separation {α : Type} [LinearOrderedField α] (a : α × α) :
    SMALLEST_DIFFERENCE_ANGLE ≤ (widen a).1.2 - (widen a).1.1 := by
  by_cases h : a.2 - a.1 < SMALLEST_DIFFERENCE_ANGLE
  · by_cases h1 : a.1 + SMALLEST_DIFFERENCE_ANGLE < MAX_PSI
    · rw [widen_psi a h h1]
      simp
    · by_cases h2 : a.2 - SMALLEST_DIFFERENCE_ANGLE > MIN_THETA
      · rw [widen_theta a h h1 h2]
        simp
      · rw [widen_pinned a h h1 h2]
        simp
  · rw [widen_far a (not_lt.mp h)]
    exact not_lt.mp h

theorem limit_angles_theta {α : Type} [LinearOrderedField α] (a : α × α) :
    (limit_angles a).1.1 = min MAX_THETA (max MIN_THETA a.1) := by
  unfold limit_angles
  dsimp only
  by_cases h : a.1 > MAX_THETA ∨ a.1 < MIN_THETA
  · rw [if_pos h]
  · rw [if_neg h]
    obtain ⟨h1, h2⟩ := not_or.mp h
    rw [max_eq_right (not_lt.mp h2), min_eq_right (not_lt.mp h1)]

theorem limit_angles_psi {α : Type} [LinearOrderedField α] (a : α × α) :
    (limit_angles a).1.2 = min MAX_PSI (max MIN_PSI a.2) := by
  unfold limit_angles
  dsimp only
  by_cases h : a.2 > MAX_PSI ∨ a.2 < MIN_PSI
  · rw [if_pos h]
  · rw [if_neg h]
    obtain ⟨h1, h2⟩ := not_or.mp h
    rw [max_eq_right (not_lt.mp h2), min_eq_right (not_lt.mp h1)]

theorem theta_range {α : Type} [LinearOrderedField α] : (MIN_THETA : α) ≤ MAX_THETA := by
  unfold MIN_THETA MAX_THETA
  norm_num

theorem psi_range {α : Type} [LinearOrderedField α] : (MIN_PSI : α) ≤ MAX_PSI := by
  unfold MIN_PSI MAX_PSI
  norm_num

theorem calculate_delta_x {α : Type} [LinearOrderedField α] (L : Libm α) (K : Scara α)
    (add_homeing : Nat → α) ( Y_gridcal : Bool) (bed : Option α) (cartesian : Nat → α) :
    (calculate_delta L K add_homeing Y_gridcal bed cartesian).x
      = min MAX_THETA (max MIN_THETA (widen (raw_angles L K add_homeing cartesian)).1.1) := by
  unfold calculate_delta
  dsimp only
  rw [limit_angles_theta]

theorem calculate_delta_y {α : Type} [LinearOrderedField α] (L : Libm α) (K : Scara α)
    (add_homeing : Nat → α) ( Y_gridcal : Bool) (bed : Option α) (cartesian : Nat → α) :
    (calculate_delta L K add_homeing Y_gridcal bed cartesian).y
      = min MAX_PSI (max MIN_PSI (widen (raw_angles L K add_homeing cartesian)).1.2) := by
  unfold calculate_delta
  dsimp only
  rw [limit_angles_psi]

/-- The angles that `calculate_delta` computes for the point (100, -206) with the arm
`realArm`: the tool is 150 straight below the shoulder. -/
theorem realArm_below (add_homeing : Nat → ℝ) (z : ℝ) :
    raw_angles realLibm realArm add_homeing (triple 100 (-206) z)
      = (-150 - add_homeing 0, -30 - add_homeing 1) := by
  have hx : (100 : ℝ) - 100 = 0 := by norm_num
  have hy : (-206 : ℝ) - -56 = -150 := by norm_num
  have harg : Complex.arg ⟨0, -150⟩ = -(Real.pi / 2) := by
    have e : (⟨0, -150⟩ : ℂ) = ((150 : ℝ) : ℂ) * (-Complex.I) := by
      apply Complex.ext <;> simp
    rw [e, Complex.arg_real_mul _ (by norm_num : (0 : ℝ) < 150), Complex.arg_neg_I]
  have hsq : sqr (0 : ℝ) + sqr (-150) = 150 * 150 := by
    unfold sqr
    norm_num
  have hsqrt : Real.sqrt (150 * 150) = 150 := Real.sqrt_mul_self (by norm_num)
  have hq : (sqr (150 : ℝ) - sqr 150 - 150 * 150) / (-2 * 150 * 150) = 1 / 2 := by
    unfold sqr
    norm_num
  have hacos : Real.arccos (1 / 2) = Real.pi / 3 := by
    rw [← Real.cos_pi_div_three]
    apply Real.arccos_cos
    · have := Real.pi_pos
      linarith
    · have := Real.pi_pos
      linarith
  have hp := Real.pi_pos
  unfold raw_angles
  simp only [triple_zero, triple_one, realLibm_sqrt, realLibm_acos, realLibm_atan2]
  simp only [realArm]
  rw [hx, hy, hsq, hsqrt, hq, hacos, harg]
  apply Prod.ext
  · dsimp only
    field_simp
    ring
  · dsimp only
    field_simp
    ring

/-- C29 (as stated, refuted): with the arm `realArm`, no home offset and the point
(100, -206) the computed angles are theta = -150 and psi = -30. They are 120 apart, so
nothing is widened; theta is then raised to `MIN_THETA` = -50, and the angles that
`calculate_delta` outputs are only 20 apart. -/
theorem C29_counterexample :
    raw_angles realLibm realArm (fun _ => 0) (triple 100 (-206) 0) = (-150, -30) ∧
    (calculate_delta realLibm realArm (fun _ => 0) true none (triple 100 (-206) 0)).x = -50 ∧
    (calculate_delta realLibm realArm (fun _ => 0) true none (triple 100 (-206) 0)).y = -30 ∧
    ¬ ((SMALLEST_DIFFERENCE_ANGLE : ℝ)
      ≤ (calculate_delta realLibm realArm (fun _ => 0) true none (triple 100 (-206) 0)).y
        - (calculate_delta realLibm realArm (fun _ => 0) true none (triple 100 (-206) 0)).x) := by
  have hraw : raw_angles realLibm realArm (fun _ => 0) (triple 100 (-206) 0) = (-150, -30) := by
    rw [realArm_below]
    norm_num
  have hw : widen ((-150 : ℝ), (-30 : ℝ)) = ((-150, -30), []) := by
    apply widen_far
    unfold SMALLEST_DIFFERENCE_ANGLE
    norm_num
  have hx : (calculate_delta realLibm realArm (fun _ => 0) true none
      (triple 100 (-206) 0)).x = -50 := by
    rw [calculate_delta_x, hraw, hw]
    unfold MAX_THETA MIN_THETA
    norm_num
  have hy : (calculate_delta realLibm realArm (fun _ => 0) true none
      (triple 100 (-206) 0)).y = -30 := by
    rw [calculate_delta_y, hraw, hw]
    unfold MAX_PSI MIN_PSI
    norm_num
  refine ⟨hraw, hx, hy, ?_⟩
  rw [hx, hy]
  unfold SMALLEST_DIFFERENCE_ANGLE
  norm_num

/-! ## Automatic retract and recover -/

theorem auto_retract_recover (E : Env) (s : State) (hmin : 0 ≤ E.MIN_RETRACT)
    (ha : s.m.autoretract_enabled = true) (hr : s.m.retracted = true)
    (hx : code_seen E s 88 = none) (hy : code_seen E s 89 = none)
    (hz : code_seen E s 90 = none) (he : (code_seen E s 69).isSome = true)
    (hgt : s.m.destination 3 - s.m.current_position 3 > E.MIN_RETRACT) :
    auto_retract E s = { s with m := { s.m with
      current_position := setAxis s.m.current_position 3 (s.m.current_position 3
        + (-(s.m.destination 3 - s.m.current_position 3) + 1 * s.m.retract_length
          + s.m.retract_recover_length)),
      feedrate := s.m.retract_recover_feedrate, retracted := false } } := by
  have hlt : ¬ s.m.destination 3 - s.m.current_position 3 < -E.MIN_RETRACT := by
    intro h
    linarith
  unfold auto_retract
  simp [seen, axis_codes, ha, hr, hx, hy, hz, he, hlt, hgt]

/-- C28 (what the code does): when `get_coordinates` synthesizes a recover, the extruder move
that results is `2 * echange - (retract_length + retract_recover_length)`, where `echange` is
the move the command asked for: `correctede` is added to `current_position[E]` where, to
lengthen the move, it had to be subtracted. The move equals
`retract_length + retract_recover_length` only when the command asked for exactly that. -/
theorem C28_recover (E : Env) (s : State) (hmin : 0 ≤ E.MIN_RETRACT)
    (ha : s.m.autoretract_enabled = true) (hr : s.m.retracted = true)
    (hx : code_seen E s 88 = none) (hy : code_seen E s 89 = none)
    (hz : code_seen E s 90 = none) (he : (code_seen E s 69).isSome = true)
    (hgt : s.m.destination 3 - s.m.current_position 3 > E.MIN_RETRACT) :
    (auto_retract E s).m.retracted = false ∧
    (auto_retract E s).m.destination 3 - (auto_retract E s).m.current_position 3
      = 2 * (s.m.destination 3 - s.m.current_position 3)
        - (s.m.retract_length + s.m.retract_recover_length) ∧
    ((auto_retract E s).m.destination 3 - (auto_retract E s).m.current_position 3
        = s.m.retract_length + s.m.retract_recover_length ↔
      s.m.destination 3 - s.m.current_position 3
        = s.m.retract_length + s.m.retract_recover_length) := by
  rw [auto_retract_recover E s hmin ha hr hx hy hz he hgt]
  dsimp only
  rw [setAxis_apply, if_pos rfl]
  refine ⟨rfl, by ring, ?_⟩
  constructor
  · intro h
    linarith
  · intro h
    linarith

/-- C28, at the failing input: the command `G1 E1` on a retracted machine with
`retract_length` 3 and `retract_recover_length` 0 at E = 0. The destination is E = 1,
`current_position[E]` becomes 2, and the move that results is -1, not 3. -/
theorem C28_witness :
    (get_coordinates stdEnv true unretractLine).m.destination 3 = 1 ∧
    (get_coordinates stdEnv true unretractLine).m.current_position 3 = 2 ∧
    (resolved stdEnv true unretractLine).m.retract_length
      + (resolved stdEnv true unretractLine).m.retract_recover_length = 3 ∧
    (auto_retract stdEnv (resolved stdEnv true unretractLine)).m.destination 3
      - (auto_retract stdEnv (resolved stdEnv true unretractLine)).m.current_position 3
      = 2 * ((resolved stdEnv true unretractLine).m.destination 3
          - (resolved stdEnv true unretractLine).m.current_position 3)
        - ((resolved stdEnv true unretractLine).m.retract_length
          + (resolved stdEnv true unretractLine).m.retract_recover_length) :=
  ⟨by decide!, by decide!, by decide!,
    (C28_recover stdEnv (resolved stdEnv true unretractLine) (by decide!) (by decide)
      (by decide) (by decide) (by decide) (by decide) (by decide) (by decide!)).2.1⟩

/-! ## M92 -/

theorem M92_axis_line (E : Env) (i : Nat) (s : State) (c : Nat) :
    code_seen E (M92_axis E i s) c = code_seen E s c := by
  unfold M92_axis
  split
  · split <;> rfl
  · rfl

theorem M92_axis_xyz (E : Env) (i : Nat) (hi : i ≠ 3) (s : State) (u : Nat → ℚ)
    (hu : u = (code_seen E s (axis_codes i)).elim s.m.axis_steps_per_unit
      (fun p => setAxis s.m.axis_steps_per_unit i (code_value E p))) :
    M92_axis E i s = { s with m := { s.m with axis_steps_per_unit := u } } := by
  subst hu
  unfold M92_axis
  cases h : code_seen E s (axis_codes i) with
  | none => rfl
  | some p =>
    dsimp only
    rw [if_neg hi]
    rfl

theorem M92_xyz_frame (E : Env) (s : State) : ∃ u,
    M92_axis E 2 (M92_axis E 1 (M92_axis E 0 s))
      = { s with m := { s.m with axis_steps_per_unit := u } } ∧
    u 3 = s.m.axis_steps_per_unit 3 ∧
    (∀ i p, i < 3 → code_seen E s (axis_codes i) = some p → u i = code_value E p) ∧
    (∀ i, i < 3 → code_seen E s (axis_codes i) = none → u i = s.m.axis_steps_per_unit i) := by
  have l1 : ∀ c, code_seen E (M92_axis E 0 s) c = code_seen E s c := M92_axis_line E 0 s
  have l2 : ∀ c, code_seen E (M92_axis E 1 (M92_axis E 0 s)) c = code_seen E s c := by
    intro c
    rw [M92_axis_line, l1]
  rw [M92_axis_xyz E 2 (by decide) _ _ (by rfl), l2, M92_axis_xyz E 1 (by decide) _ _ (by rfl),
    l1, M92_axis_xyz E 0 (by decide) _ _ (by rfl)]
  refine ⟨_, rfl, ?_, ?_, ?_⟩
  · cases h0 : code_seen E s (axis_codes 0) <;> cases h1 : code_seen E s (axis_codes 1) <;>
      cases h2 : code_seen E s (axis_codes 2) <;> simp [setAxis_apply, Option.elim]
  · intro i p hi hp
    have hcases : i = 0 ∨ i = 1 ∨ i = 2 := by omega
    rcases hcases with rfl | rfl | rfl
    · cases h1 : code_seen E s (axis_codes 1) <;> cases h2 : code_seen E s (axis_codes 2) <;>
        simp [setAxis_apply, Option.elim, hp]
    · cases h0 : code_seen E s (axis_codes 0) <;> cases h2 : code_seen E s (axis_codes 2) <;>
        simp [setAxis_apply, Option.elim, hp]
    · cases h0 : code_seen E s (axis_codes 0) <;> cases h1 : code_seen E s (axis_codes 1) <;>
        simp [setAxis_apply, Option.elim, hp]
  · intro i hi hp
    have hcases : i = 0 ∨ i = 1 ∨ i = 2 := by omega
    rcases hcases with rfl | rfl | rfl
    · cases h1 : code_seen E s (axis_codes 1) <;> cases h2 : code_seen E s (axis_codes 2) <;>
        simp [setAxis_apply, Option.elim, hp]
    · cases h0 : code_seen E s (axis_codes 0) <;> cases h2 : code_seen E s (axis_codes 2) <;>
        simp [setAxis_apply, Option.elim, hp]
    · cases h0 : code_seen E s (axis_codes 0) <;> cases h1 : code_seen E s (axis_codes 1) <;>
        simp [setAxis_apply, Option.elim, hp]

theorem M92_frame (E : Env) (s : State) : ∃ u f a j,
    gcode_M92 E s = { s with m := { s.m with
      axis_steps_per_unit := u, max_feedrate := f, axis_steps_per_sqr_second := a,
      max_e_jerk := j } } ∧
    (∀ i, i ≠ 3 → f i = s.m.max_feedrate i ∧ a i = s.m.axis_steps_per_sqr_second i) ∧
    (∀ i p, i < 3 → code_seen E s (axis_codes i) = some p → u i = code_value E p) ∧
    (∀ i, i < 3 → code_seen E s (axis_codes i) = none → u i = s.m.axis_steps_per_unit i) ∧
    (code_seen E s 69 = none →
      u 3 = s.m.axis_steps_per_unit 3 ∧ f = s.m.max_feedrate ∧
      a = s.m.axis_steps_per_sqr_second ∧ j = s.m.max_e_jerk) ∧
    (∀ p, code_seen E s 69 = some p →
      u 3 = code_value E p ∧
      (code_value E p < 20 →
        j = s.m.max_e_jerk * (s.m.axis_steps_per_unit 3 / code_value E p) ∧
        f 3 = s.m.max_feedrate 3 * (s.m.axis_steps_per_unit 3 / code_value E p) ∧
        a 3 = E.steps_cast
          (s.m.axis_steps_per_sqr_second 3 * (s.m.axis_steps_per_unit 3 / code_value E p))) ∧
      (¬ code_value E p < 20 →
        f = s.m.max_feedrate ∧ a = s.m.axis_steps_per_sqr_second ∧ j = s.m.max_e_jerk)) := by
  obtain ⟨u, hu, hu3, hsome, hnone⟩ := M92_xyz_frame E s
  have hline : code_seen E (M92_axis E 2 (M92_axis E 1 (M92_axis E 0 s))) (axis_codes 3)
      = code_seen E s 69 := by
    rw [M92_axis_line, M92_axis_line, M92_axis_line]
    rfl
  unfold gcode_M92
  generalize ht : M92_axis E 2 (M92_axis E 1 (M92_axis E 0 s)) = t at hu hline
  unfold M92_axis
  rw [hline]
  cases he : code_seen E s 69 with
  | none =>
    refine ⟨u, s.m.max_feedrate, s.m.axis_steps_per_sqr_second, s.m.max_e_jerk, hu,
      fun i _ => ⟨rfl, rfl⟩, hsome, hnone, fun _ => ⟨hu3, rfl, rfl, rfl⟩, ?_⟩
    intro p hp
    cases hp
  | some p =>
    dsimp only
    rw [if_pos rfl]
    by_cases hv : code_value E p < 20
    · rw [if_pos hv, hu]
      dsimp only
      refine ⟨_, _, _, _, rfl, ?_, ?_, ?_, ?_, ?_⟩
      · intro i hi
        rw [setAxis_apply, setAxis_apply, if_neg hi, if_neg hi]
        exact ⟨rfl, rfl⟩
      · intro i q hi hq
        rw [setAxis_apply, if_neg (by omega)]
        exact hsome i q hi hq
      · intro i hi hq
        rw [setAxis_apply, if_neg (by omega)]
        exact hnone i hi hq
      · intro h
        cases h
      · intro q hq
        cases hq
        rw [setAxis_apply, if_pos rfl, setAxis_apply, if_pos rfl, setAxis_apply, if_pos rfl, hu3]
        exact ⟨rfl, fun _ => ⟨rfl, rfl, rfl⟩, fun h => absurd hv h⟩
    · rw [if_neg hv, hu]
      dsimp only
      refine ⟨_, s.m.max_feedrate, s.m.axis_steps_per_sqr_second, s.m.max_e_jerk, rfl,
        fun i _ => ⟨rfl, rfl⟩, ?_, ?_, ?_, ?_⟩
      · intro i q hi hq
        rw [setAxis_apply, if_neg (by omega)]
        exact hsome i q hi hq
      · intro i hi hq
        rw [setAxis_apply, if_neg (by omega)]
        exact hnone i hi hq
      · intro h
        cases h
      · intro q hq
        cases hq
        rw [setAxis_apply, if_pos rfl]
        exact ⟨rfl, fun h => absurd h hv, fun _ => ⟨rfl, rfl, rfl⟩⟩

/-- C22: `M92` with an E word whose value is below 20 (such as `E14`) multiplies
`max_e_jerk`, `max_feedrate[E]` and `axis_steps_per_sqr_second[E]` by `old / value`, `old`
being `axis_steps_per_unit[E]` before the command, and sets `axis_steps_per_unit[E]` to the
value. An X, Y or Z word sets `axis_steps_per_unit` of its axis, an axis that is not named
keeps its entry, and the command changes nothing but these four settings, of which the
entries of `max_feedrate` and `axis_steps_per_sqr_second` for X, Y and Z are unchanged. -/
theorem C22_M92 (E : Env) (s : State) :
    (∀ p, code_seen E s 69 = some p → code_value E p < 20 →
      (gcode_M92 E s).m.max_e_jerk
        = s.m.max_e_jerk * (s.m.axis_steps_per_unit 3 / code_value E p) ∧
      (gcode_M92 E s).m.max_feedrate 3
        = s.m.max_feedrate 3 * (s.m.axis_steps_per_unit 3 / code_value E p) ∧
      (gcode_M92 E s).m.axis_steps_per_sqr_second 3
        = E.steps_cast
          (s.m.axis_steps_per_sqr_second 3 * (s.m.axis_steps_per_unit 3 / code_value E p)) ∧
      (gcode_M92 E s).m.axis_steps_per_unit 3 = code_value E p) ∧
    (∀ i p, i < 3 → code_seen E s (axis_codes i) = some p →
      (gcode_M92 E s).m.axis_steps_per_unit i = code_value E p) ∧
    (∀ i, i < 4 → code_seen E s (axis_codes i) = none →
      (gcode_M92 E s).m.axis_steps_per_unit i = s.m.axis_steps_per_unit i) ∧
    (∀ i, i ≠ 3 →
      (gcode_M92 E s).m.max_feedrate i = s.m.max_feedrate i ∧
      (gcode_M92 E s).m.axis_steps_per_sqr_second i = s.m.axis_steps_per_sqr_second i) ∧
    (code_seen E s 69 = none →
      (gcode_M92 E s).m.max_e_jerk = s.m.max_e_jerk ∧
      (gcode_M92 E s).m.max_feedrate = s.m.max_feedrate ∧
      (gcode_M92 E s).m.axis_steps_per_sqr_second = s.m.axis_steps_per_sqr_second) ∧
    (∃ u f a j, gcode_M92 E s = { s with m := { s.m with
      axis_steps_per_unit := u, max_feedrate := f, axis_steps_per_sqr_second := a,
      max_e_jerk := j } }) := by
  obtain ⟨u, f, a, j, h, hxyz, hsome, hnone, hno, he⟩ := M92_frame E s
  rw [h]
  dsimp only
  refine ⟨?_, hsome, ?_, hxyz, ?_, ⟨u, f, a, j, rfl⟩⟩
  · intro p hp hv
    obtain ⟨h3, hlt, _⟩ := he p hp
    obtain ⟨h1, h2, h4⟩ := hlt hv
    exact ⟨h1, h2, h4, h3⟩
  · intro i hi hn
    by_cases h3 : i = 3
    · subst h3
      exact (hno hn).1
    · exact hnone i (by omega) hn
  · intro hn
    obtain ⟨_, h2, h3, h4⟩ := hno hn
    exact ⟨h4, h2, h3⟩

theorem stepsLine_words :
    code_seen stdEnv stepsLine 69 = some (bytes "E14") ∧
    code_seen stdEnv stepsLine (axis_codes 0) = none ∧
    stepsLine.m.axis_steps_per_unit 3 = 7 ∧ stepsLine.m.axis_steps_per_unit 0 = 80 ∧
    stepsLine.m.max_e_jerk = 5 ∧ stepsLine.m.max_feedrate 3 = 45 ∧
    stepsLine.m.axis_steps_per_sqr_second 3 = 9000 := by
  decide

theorem stepsLine_value : code_value stdEnv (bytes "E14") = 14 := by decide!

/-- C22, witness: `M92 E14` with 7 steps per unit on E, `max_e_jerk` 5, `max_feedrate[E]` 45
and `axis_steps_per_sqr_second[E]` 9000 gives 5/2, 45/2 and 4500 (the factor is 7/14), sets
the steps per unit on E to 14 and leaves those on X at 80. -/
theorem C22_witness :
    (gcode_M92 stdEnv stepsLine).m.max_e_jerk = 5 / 2 ∧
    (gcode_M92 stdEnv stepsLine).m.max_feedrate 3 = 45 / 2 ∧
    (gcode_M92 stdEnv stepsLine).m.axis_steps_per_sqr_second 3 = 4500 ∧
    (gcode_M92 stdEnv stepsLine).m.axis_steps_per_unit 3 = 14 ∧
    (gcode_M92 stdEnv stepsLine).m.axis_steps_per_unit 0 = 80 := by
  have h := C22_M92 stdEnv stepsLine
  obtain ⟨h1, h2, h3, h4⟩ := h.1 (bytes "E14") stepsLine_words.1
    (by rw [stepsLine_value]; norm_num)
  have hx := h.2.2.1 0 (by decide) stepsLine_words.2.1
  rw [stepsLine_value, stepsLine_words.2.2.1] at h1 h2 h3
  rw [stepsLine_words.2.2.2.2.1] at h1
  rw [stepsLine_words.2.2.2.2.2.1] at h2
  rw [stepsLine_words.2.2.2.2.2.2] at h3
  rw [stepsLine_value] at h4
  rw [stepsLine_words.2.2.2.1] at hx
  refine ⟨?_, ?_, ?_, h4, hx⟩
  · rw [h1]
    norm_num
  · rw [h2]
    norm_num
  · rw [h3]
    show (9000 : ℚ) * (7 / 14) = 4500
    norm_num

/-! ## The command families -/

theorem command_family_cases (l : List Nat) :
    (71 ∈ l → command_family l = Family.G) ∧
    (71 ∉ l → 77 ∈ l → command_family l = Family.M) ∧
    (71 ∉ l → 77 ∉ l → 84 ∈ l → command_family l = Family.T) ∧
    (71 ∉ l → 77 ∉ l → 84 ∉ l → command_family l = Family.unknown) := by
  refine ⟨fun hG => ?_, fun hG hM => ?_, fun hG hM hT => ?_, fun hG hM hT => ?_⟩
  · obtain ⟨p, hp, _⟩ := strchr_of_mem hG
    simp [command_family, hp]
  · obtain ⟨p, hp, _⟩ := strchr_of_mem hM
    simp [command_family, strchr_of_not_mem hG, hp]
  · obtain ⟨p, hp, _⟩ := strchr_of_mem hT
    simp [command_family, strchr_of_not_mem hG, strchr_of_not_mem hM, hp]
  · simp [command_family, strchr_of_not_mem hG, strchr_of_not_mem hM, strchr_of_not_mem hT]

theorem command_family_iff (l : List Nat) :
    (command_family l = Family.G ↔ 71 ∈ l) ∧
    (command_family l = Family.M ↔ 71 ∉ l ∧ 77 ∈ l) ∧
    (command_family l = Family.T ↔ 71 ∉ l ∧ 77 ∉ l ∧ 84 ∈ l) ∧
    (command_family l = Family.unknown ↔ 71 ∉ l ∧ 77 ∉ l ∧ 84 ∉ l) := by
  obtain ⟨h1, h2, h3, h4⟩ := command_family_cases l
  by_cases hG : 71 ∈ l
  · have h := h1 hG
    rw [h]
    simp [hG]
  · by_cases hM : 77 ∈ l
    · have h := h2 hG hM
      rw [h]
      simp [hG, hM]
    · by_cases hT : 84 ∈ l
      · have h := h3 hG hM hT
        rw [h]
        simp [hG, hM, hT]
      · have h := h4 hG hM hT
        rw [h]
        simp [hG, hM, hT]

theorem process_commands_G (E : Env) (o : Oracle) (s : State)
    (h : 71 ∈ cstr E (s.cmdbuffer s.bufindr)) :
    ∃ p, code_seen E s 71 = some p ∧ p.tail = after 71 (cstr E (s.cmdbuffer s.bufindr)) ∧
      process_commands E o s = G_commands E o p s := by
  obtain ⟨p, hp, hpt⟩ := strchr_of_mem h
  refine ⟨p, hp, hpt, ?_⟩
  unfold process_commands G_commands
  dsimp only
  rw [hp]

theorem process_commands_M (E : Env) (o : Oracle) (s : State)
    (hG : 71 ∉ cstr E (s.cmdbuffer s.bufindr)) (h : 77 ∈ cstr E (s.cmdbuffer s.bufindr)) :
    ∃ p, code_seen E s 77 = some p ∧ p.tail = after 77 (cstr E (s.cmdbuffer s.bufindr)) ∧
      process_commands E o s = M_commands E o p s := by
  obtain ⟨p, hp, hpt⟩ := strchr_of_mem h
  refine ⟨p, hp, hpt, ?_⟩
  unfold process_commands M_commands
  dsimp only
  rw [strchr_of_not_mem hG, hp]

theorem process_commands_T (E : Env) (o : Oracle) (s : State)
    (hG : 71 ∉ cstr E (s.cmdbuffer s.bufindr)) (hM : 77 ∉ cstr E (s.cmdbuffer s.bufindr))
    (h : 84 ∈ cstr E (s.cmdbuffer s.bufindr)) :
    process_commands E o s = T_commands E s := by
  obtain ⟨p, hp, _⟩ := strchr_of_mem h
  unfold process_commands T_commands
  dsimp only
  rw [strchr_of_not_mem hG, strchr_of_not_mem hM, hp]

theorem process_commands_unknown (E : Env) (o : Oracle) (s : State)
    (hG : 71 ∉ cstr E (s.cmdbuffer s.bufindr)) (hM : 77 ∉ cstr E (s.cmdbuffer s.bufindr))
    (h : 84 ∉ cstr E (s.cmdbuffer s.bufindr)) :
    process_commands E o s = unknown_command E s := by
  unfold process_commands unknown_command
  dsimp only
  rw [strchr_of_not_mem hG, strchr_of_not_mem hM, strchr_of_not_mem h]

/-- C21 (as stated, refuted): the line `M999 G1`, queued on a Stopped machine, has `M999` as
its leftmost verb, but `process_commands` takes the `G` branch: it runs `G1`, which on a
Stopped machine writes `No movement - Home first...` and `ok`, and the machine stays Stopped.
The `M` branch would have run `M999` and cleared `Stopped`. -/
theorem C21_counterexample :
    verbsLine.buflen = 1 ∧
    cstr stdEnv (verbsLine.cmdbuffer verbsLine.bufindr) = bytes "M999 G1" ∧
    first_verb_spec (bytes "M999 G1") = Family.M ∧
    command_family (bytes "M999 G1") = Family.G ∧
    verbsLine.Stopped = true ∧
    (process_commands stdEnv quietOracle verbsLine).Stopped = true ∧
    (process_commands stdEnv quietOracle verbsLine).out
      = verbsLine.out ++ [Resp.echo no_movement, Resp.ok] ∧
    (M_commands stdEnv quietOracle (bytes "M999 G1") verbsLine).Stopped = false := by
  decide

/-- C21 (amended): `process_commands` runs the `G` branch for every line that contains the
letter `G` anywhere, with the number after the first `G` as the code; otherwise the `M`
branch for a line that contains `M`, with the number after the first `M`; otherwise the `T`
branch for a line that contains `T`; otherwise it echoes the line as an unknown command. -/
theorem C21_family (E : Env) (o : Oracle) (s : State) :
    ((command_family (cstr E (s.cmdbuffer s.bufindr)) = Family.G ↔
        71 ∈ cstr E (s.cmdbuffer s.bufindr)) ∧
      (command_family (cstr E (s.cmdbuffer s.bufindr)) = Family.M ↔
        71 ∉ cstr E (s.cmdbuffer s.bufindr) ∧ 77 ∈ cstr E (s.cmdbuffer s.bufindr)) ∧
      (command_family (cstr E (s.cmdbuffer s.bufindr)) = Family.T ↔
        71 ∉ cstr E (s.cmdbuffer s.bufindr) ∧ 77 ∉ cstr E (s.cmdbuffer s.bufindr) ∧
        84 ∈ cstr E (s.cmdbuffer s.bufindr)) ∧
      (command_family (cstr E (s.cmdbuffer s.bufindr)) = Family.unknown ↔
        71 ∉ cstr E (s.cmdbuffer s.bufindr) ∧ 77 ∉ cstr E (s.cmdbuffer s.bufindr) ∧
        84 ∉ cstr E (s.cmdbuffer s.bufindr))) ∧
    (command_family (cstr E (s.cmdbuffer s.bufindr)) = Family.G →
      ∃ p, code_seen E s 71 = some p ∧ p.tail = after 71 (cstr E (s.cmdbuffer s.bufindr)) ∧
        process_commands E o s = G_commands E o p s) ∧
    (command_family (cstr E (s.cmdbuffer s.bufindr)) = Family.M →
      ∃ p, code_seen E s 77 = some p ∧ p.tail = after 77 (cstr E (s.cmdbuffer s.bufindr)) ∧
        process_commands E o s = M_commands E o p s) ∧
    (command_family (cstr E (s.cmdbuffer s.bufindr)) = Family.T →
      process_commands E o s = T_commands E s) ∧
    (command_family (cstr E (s.cmdbuffer s.bufindr)) = Family.unknown →
      process_commands E o s = unknown_command E s) := by
  have hiff := command_family_iff (cstr E (s.cmdbuffer s.bufindr))
  refine ⟨hiff, fun h => ?_, fun h => ?_, fun h => ?_, fun h => ?_⟩
  · exact process_commands_G E o s (hiff.1.mp h)
  · obtain ⟨hG, hM⟩ := hiff.2.1.mp h
    exact process_commands_M E o s hG hM
  · obtain ⟨hG, hM, hT⟩ := hiff.2.2.1.mp h
    exact process_commands_T E o s hG hM hT
  · obtain ⟨hG, hM, hT⟩ := hiff.2.2.2.mp h
    exact process_commands_unknown E o s hG hM hT

/-! ## The segments of prepare_move -/

theorem loop_machine_step (E : Env) (m : Machine) (d : Nat → ℚ) (f : ℚ) (k j : Nat)
    (l : List Segment) :
    loop_machine E { loop_machine E m d f k with segments := l } d f j
      = { loop_machine E m d f j with segments := l } := by
  have hd : (fun i => if i < NUM_AXIS then
          E.fl (m.current_position i + E.fl (d i * E.fl (f * E.fl j)))
        else (if i < NUM_AXIS then E.fl (m.current_position i + E.fl (d i * E.fl (f * E.fl k)))
          else m.destination i))
      = (fun i => if i < NUM_AXIS then
          E.fl (m.current_position i + E.fl (d i * E.fl (f * E.fl j)))
        else m.destination i) := by
    funext i
    by_cases hi : i < NUM_AXIS
    · rw [if_pos hi, if_pos hi]
    · rw [if_neg hi, if_neg hi, if_neg hi]
  unfold loop_machine
  dsimp only
  rw [hd]

theorem segment_of_segments (E : Env) (m : Machine) (l : List Segment) :
    segment_of E { m with segments := l } = segment_of E m := rfl

theorem segment_loop_round (E : Env) (d : Nat → ℚ) (f : ℚ) (n k : Nat) (s : State) :
    segment_loop E d f (n + 1) k s
      = segment_loop E d f n (k + 1)
          (plan_segment E { s with m := loop_machine E s.m d f k }) :=
  rfl

theorem plan_segment_machine (E : Env) (s : State) :
    (plan_segment E s).m = { s.m with segments := s.m.segments ++ [segment_of E s.m] } := rfl

theorem segment_loop_list (E : Env) (d : Nat → ℚ) (f : ℚ) :
    ∀ (n k : Nat) (s : State),
      (segment_loop E d f n k s).m.segments = s.m.segments
        ++ (List.range n).map (fun j => segment_of E (loop_machine E s.m d f (k + j))) := by
  intro n
  induction n with
  | zero =>
    intro k s
    simp [segment_loop]
  | succ n ih =>
    intro k s
    rw [segment_loop_round, ih, plan_segment_machine]
    dsimp only
    have hm : ∀ j, segment_of E (loop_machine E
        { loop_machine E s.m d f k with
          segments := (loop_machine E s.m d f k).segments
            ++ [segment_of E (loop_machine E s.m d f k)] } d f (k + 1 + j))
        = segment_of E (loop_machine E s.m d f (k + (j + 1))) := by
      intro j
      rw [loop_machine_step, segment_of_segments]
      have e : k + 1 + j = k + (j + 1) := by omega
      rw [e]
    simp only [hm]
    rw [List.range_succ_eq_map, List.map_cons, List.map_map]
    have hs : (loop_machine E s.m d f k).segments = s.m.segments := rfl
    rw [hs, List.append_assoc]
    rfl

theorem soft_endstops_frame (E : Env) (s : State) :
    (soft_endstops E s).m.current_position = s.m.current_position ∧
    (soft_endstops E s).m.segments = s.m.segments ∧
    (soft_endstops E s).m.feedrate = s.m.feedrate ∧
    (soft_endstops E s).m.feedmultiply = s.m.feedmultiply ∧
    (soft_endstops E s).m.add_homeing = s.m.add_homeing ∧
    (soft_endstops E s).m.Y_gridcal = s.m.Y_gridcal := by
  unfold soft_endstops
  split
  · exact ⟨rfl, rfl, rfl, rfl, rfl, rfl⟩
  · exact ⟨rfl, rfl, rfl, rfl, rfl, rfl⟩

theorem plan_move_list (E : Env) (t : State) (h : ¬ cartesian_mm E t < E.fl (1 / 1000000)) :
    (plan_move E t).m.segments = t.m.segments
      ++ (List.range (steps E t).toNat).map (fun j => segment_of E (at_waypoint E t (j + 1))) := by
  unfold plan_move
  rw [if_neg h]
  dsimp only
  rw [segment_loop_list]
  congr 1
  apply List.map_congr_left
  intro j _
  have e : 1 + j = j + 1 := by omega
  rw [e]
  rfl

/-- C23 (as stated, refuted): in binary32 arithmetic `G1 X10 Y10 F600` from the origin is
planned in 282 segments. The last waypoint has X = 10 - 2^-20 (9.999999046...), where
`start + (destination - start) * 282 / 282` is the destination 10, and waypoint 141 has
X = 5 - 2^-21, where `start + (destination - start) * 141 / 282` is 5. -/
theorem C23_counterexample :
    steps floatEnv (soft_endstops floatEnv (get_coordinates floatEnv true moveLine)) = 282 ∧
    (soft_endstops floatEnv (get_coordinates floatEnv true moveLine)).m.current_position 0
      = 0 ∧
    (soft_endstops floatEnv (get_coordinates floatEnv true moveLine)).m.destination 0 = 10 ∧
    waypoint floatEnv (soft_endstops floatEnv (get_coordinates floatEnv true moveLine)) 282 0
      = 10485759 / 1048576 ∧
    waypoint floatEnv (soft_endstops floatEnv (get_coordinates floatEnv true moveLine)) 282 0
      ≠ (soft_endstops floatEnv (get_coordinates floatEnv true moveLine)).m.destination 0 ∧
    waypoint floatEnv (soft_endstops floatEnv (get_coordinates floatEnv true moveLine)) 141 0
      = 10485759 / 2097152 ∧
    (0 : ℚ) + (10 - 0) * 141 / 282 = 5 ∧
    (segment_of floatEnv (at_waypoint floatEnv
      (soft_endstops floatEnv (get_coordinates floatEnv true moveLine)) 282)).e = 0 := by
  decide!

/-- C23 (amended): for every move that `prepare_move` does not drop, with a number of
segments in the range of `int` and `t` the state after the clamping of the destination, the
segments it pushes are those of the waypoints 1, ..., `steps`, in this order, where
`steps = max(1, (int)(DELTA_SEGMENTS_PER_SECOND * seconds))` and
`seconds = 6000 * cartesian_mm / feedrate / feedmultiply`. Waypoint `k` is
`start + difference * (fraction_steps * k)` on the four axes, with
`difference = destination - start`, `fraction_steps = 1 / steps` and every operation rounded;
its segment has the angles and the Z that `calculate_delta` computes for the waypoint, the E
of the waypoint and the feed rate `feedrate * feedmultiply / 60 / 100`, rounded likewise. In
exact arithmetic waypoint `k` is `T = start + (destination - start) * k / steps` and the last
waypoint is the destination; with a rounding of relative error 2^-24 (2^-150 below the
normal numbers) that is exact on the natural numbers up to 2^24, as in binary32, and
`INT_MAX` at most 2^24, waypoint `k`, for `k` up to `steps`, is within
`|T| / 2^24 + |destination - start| / 2^21 + 2^-140` of `T`. -/
theorem C23_segments (E : Env) (s : State)
    (hmove : ¬ cartesian_mm E (soft_endstops E s) < E.fl (1 / 1000000))
    (_hfeed : 0 < s.m.feedrate) (_hmult : 0 < s.m.feedmultiply)
    (hint : StepsInRange E (soft_endstops E s)) :
    (prepare_move E s).m.segments = s.m.segments
      ++ (List.range (steps E (soft_endstops E s)).toNat).map
        (fun j => segment_of E (at_waypoint E (soft_endstops E s) (j + 1))) ∧
    (((steps E (soft_endstops E s)).toNat : Nat) : Int)
      = max 1 (trunc (E.fl (E.DELTA_SEGMENTS_PER_SECOND
          * E.fl (E.fl (E.fl (6000 * cartesian_mm E (soft_endstops E s)) / s.m.feedrate)
            / E.fl s.m.feedmultiply)))) ∧
    (∀ k i, i < 4 → waypoint E (soft_endstops E s) k i
      = E.fl (s.m.current_position i
          + E.fl (E.fl ((soft_endstops E s).m.destination i - s.m.current_position i)
            * E.fl (E.fl (1 / E.fl (((steps E (soft_endstops E s)).toNat : Nat) : ℚ))
              * E.fl k)))) ∧
    (∀ k,
      (segment_of E (at_waypoint E (soft_endstops E s) k)).feed_rate
        = E.fl (E.fl (E.fl (s.m.feedrate * E.fl s.m.feedmultiply) / 60) / 100) ∧
      (segment_of E (at_waypoint E (soft_endstops E s) k)).e
        = waypoint E (soft_endstops E s) k 3 ∧
      (segment_of E (at_waypoint E (soft_endstops E s) k)).x
        = (calculate_delta_float E.fl E.libm E.scara s.m.add_homeing s.m.Y_gridcal
            (calc_bed_delta E (at_waypoint E (soft_endstops E s) k)
              (waypoint E (soft_endstops E s) k))
            (waypoint E (soft_endstops E s) k)).x ∧
      (segment_of E (at_waypoint E (soft_endstops E s) k)).y
        = (calculate_delta_float E.fl E.libm E.scara s.m.add_homeing s.m.Y_gridcal
            (calc_bed_delta E (at_waypoint E (soft_endstops E s) k)
              (waypoint E (soft_endstops E s) k))
            (waypoint E (soft_endstops E s) k)).y ∧
      (segment_of E (at_waypoint E (soft_endstops E s) k)).z
        = (calculate_delta_float E.fl E.libm E.scara s.m.add_homeing s.m.Y_gridcal
            (calc_bed_delta E (at_waypoint E (soft_endstops E s) k)
              (waypoint E (soft_endstops E s) k))
            (waypoint E (soft_endstops E s) k)).z) ∧
    ((∀ q, E.fl q = q) →
      (∀ k i, i < 4 → waypoint E (soft_endstops E s) k i
        = s.m.current_position i
          + ((soft_endstops E s).m.destination i - s.m.current_position i) * k
            / (((steps E (soft_endstops E s)).toNat : Nat) : ℚ)) ∧
      (∀ i, i < 4 → waypoint E (soft_endstops E s) (steps E (soft_endstops E s)).toNat i
        = (soft_endstops E s).m.destination i) ∧
      (∀ k, (segment_of E (at_waypoint E (soft_endstops E s) k)).feed_rate
        = s.m.feedrate * s.m.feedmultiply / 60 / 100)) ∧
    ((∀ q, |E.fl q - q| ≤ |q| / 2 ^ 24 + 1 / 2 ^ 150) →
      (∀ k : Nat, k ≤ 2 ^ 24 → E.fl (k : ℚ) = (k : ℚ)) → E.INT_MAX ≤ 2 ^ 24 →
      ∀ k i, k ≤ (steps E (soft_endstops E s)).toNat → i < 4 →
        |waypoint E (soft_endstops E s) k i
            - (s.m.current_position i
              + ((soft_endstops E s).m.destination i - s.m.current_position i) * k
                / (((steps E (soft_endstops E s)).toNat : Nat) : ℚ))|
          ≤ |s.m.current_position i
              + ((soft_endstops E s).m.destination i - s.m.current_position i) * k
                / (((steps E (soft_endstops E s)).toNat : Nat) : ℚ)| / 2 ^ 24
            + |(soft_endstops E s).m.destination i - s.m.current_position i| / 2 ^ 21
            + 1 / 2 ^ 140) := by
  obtain ⟨hcp, hseg, hfeed, hmult, hhome, hgrid⟩ := soft_endstops_frame E s
  have h1 := steps_pos E (soft_endstops E s)
  have hrate : ∀ k, (segment_of E (at_waypoint E (soft_endstops E s) k)).feed_rate
      = E.fl (E.fl (E.fl (s.m.feedrate * E.fl s.m.feedmultiply) / 60) / 100) := by
    intro k
    show E.fl (E.fl (E.fl ((soft_endstops E s).m.feedrate
      * E.fl (soft_endstops E s).m.feedmultiply) / 60) / 100) = _
    rw [hfeed, hmult]
  refine ⟨?_, ?_, ?_, ?_, ?_, ?_⟩
  · unfold prepare_move
    rw [plan_move_list E _ hmove, hseg]
  · rw [Int.toNat_of_nonneg (by omega)]
    unfold steps
    rw [hfeed, hmult]
  · intro k i hi
    have hi4 : i < NUM_AXIS := hi
    rw [steps_toNat]
    unfold waypoint difference
    rw [if_pos hi4, hcp]
  · intro k
    refine ⟨hrate k, rfl, ?_, ?_, ?_⟩
    · rw [← hhome, ← hgrid]
      rfl
    · rw [← hhome, ← hgrid]
      rfl
    · rw [← hhome, ← hgrid]
      rfl
  · intro hexact
    refine ⟨?_, ?_, ?_⟩
    · intro k i hi
      rw [waypoint_exact E _ hexact k i hi, steps_toNat, hcp]
    · intro i hi
      exact waypoint_last_exact E _ hexact i hi
    · intro k
      rw [hrate k]
      simp only [hexact]
  · intro herr hnat hmax k i hk hi
    have hle : steps E (soft_endstops E s) ≤ 2 ^ 24 := le_trans (le_of_lt hint.2) hmax
    have hb := waypoint_error E (soft_endstops E s) herr hnat hle k i hk hi
    rw [hcp] at hb
    rw [steps_toNat]
    exact hb

/-- C23, witness: in binary32 arithmetic `G1 X10 Y10 F600` from the origin is planned in
282 segments with the feed rate 10, and waypoint 141 has X within
5 * 2^-24 + 10 * 2^-21 + 2^-140 of 5; in exact arithmetic waypoint 141 has X = 5 and
waypoint 282 has X = 10. -/
theorem C23_witness :
    (prepare_move floatEnv (get_coordinates floatEnv true moveLine)).m.segments.length
      = 282 ∧
    (segment_of floatEnv (at_waypoint floatEnv
      (soft_endstops floatEnv (get_coordinates floatEnv true moveLine)) 141)).feed_rate = 10 ∧
    waypoint stdEnv (soft_endstops stdEnv (get_coordinates stdEnv true moveLine)) 141 0 = 5 ∧
    waypoint stdEnv (soft_endstops stdEnv (get_coordinates stdEnv true moveLine)) 282 0
      = 10 ∧
    |waypoint floatEnv (soft_endstops floatEnv (get_coordinates floatEnv true moveLine)) 141 0
        - 5| ≤ 5 / 2 ^ 24 + 10 / 2 ^ 21 + 1 / 2 ^ 140 := by
  have h := C23_segments floatEnv (get_coordinates floatEnv true moveLine) moveLine_float.1
    moveLine_float.2.1 moveLine_float.2.2.1 moveLine_range
  refine ⟨?_, by decide!, by decide!, by decide!, ?_⟩
  · rw [h.1, List.length_append, List.length_map, List.length_range, moveLine_float.2.2.2.2,
      moveLine_float.2.2.2.1]
    rfl
  · have hb := h.2.2.2.2.2 fl32_err fl32_nat (by decide) 141 0
      (by rw [moveLine_ends.2.2]; decide) (by decide)
    rw [moveLine_ends.2.2, moveLine_ends.2.1, moveLine_ends.1] at hb
    have e : (0 : ℚ) + (10 - 0) * ((141 : Nat) : ℚ) / ((282 : Nat) : ℚ) = 5 := by norm_num
    rw [e, sub_zero, abs_of_pos (by norm_num : (0 : ℚ) < 5),
      abs_of_pos (by norm_num : (0 : ℚ) < 10)] at hb
    exact hb

/-! ## Grid calibration -/

theorem prepare_move_grid (E : Env) (s : State) :
    grid_of (prepare_move E s) = grid_of s := by
  obtain ⟨c, d, l, h⟩ := prepare_move_frame E s
  unfold grid_of
  rw [h]

theorem ZCal_target_grid (E : Env) (s : State) : grid_of (ZCal_target E s) = grid_of s := by
  unfold ZCal_target
  dsimp only
  generalize hb : ({ s with m := _ } : State) = b
  have h := prepare_move_grid E b
  have hbs : grid_of b = grid_of s := by
    rw [← hb]
    rfl
  rw [← hbs, ← h]
  rfl

theorem ZCal_target_destination (E : Env) (s : State) :
    (ZCal_target E s).m.destination 0 = s.m.GPos_X * E.X_MAX_POS / s.m.GCal_X + 1 ∧
    (ZCal_target E s).m.destination 1 = s.m.GPos_Y * E.Y_MAX_POS / s.m.GCal_X + 1 := by
  unfold ZCal_target
  dsimp only
  generalize hb : ({ s with m := _ } : State) = b
  have h := prepare_move_grid E b
  have hbs : grid_of b = grid_of s := by
    rw [← hb]
    rfl
  rw [hbs] at h
  unfold grid_of at h
  simp only [Prod.mk.injEq] at h
  obtain ⟨h1, h2, h3, h4⟩ := h
  rw [setAxis_apply, setAxis_apply, setAxis_apply, h1, h3, h4]
  simp

theorem ZCal_grid (E : Env) (s a : State) (h : ZCalMoveIntoToPosition E s = some a) :
    grid_of a = grid_of s := by
  unfold ZCalMoveIntoToPosition at h
  split at h
  · cases h
  · dsimp only at h
    split at h
    · cases h
    · simp only [Option.some.injEq] at h
      rw [← h]
      generalize hb : ({ prepare_move E (ZCal_target E s) with m := _ } : State) = b
      have hbs : grid_of b = grid_of (prepare_move E (ZCal_target E s)) := by
        rw [← hb]
        rfl
      have hc : grid_of (prepare_move E b) = grid_of s := by
        rw [prepare_move_grid, hbs, prepare_move_grid, ZCal_target_grid]
      rw [← hc]
      rfl

theorem next_point_grid (E : Env) (hx : 0 < E.X_MAX_POS) (hy : 0 < E.Y_MAX_POS) (s : State)
    (h : OnGrid s) : OnGrid (next_point E s) := by
  obtain ⟨gx, gy, px0, px1, py0, py1⟩ := h
  have gxq : (0 : ℚ) < (s.m.GCal_X : ℚ) := by exact_mod_cast gx
  have gyq : (0 : ℚ) < (s.m.GCal_Y : ℚ) := by exact_mod_cast gy
  have wrapx : ((s.m.GPos_X + 1 : Int) : ℚ) * E.X_MAX_POS / (s.m.GCal_X : ℚ) > E.X_MAX_POS
      ↔ s.m.GCal_X < s.m.GPos_X + 1 := by
    rw [gt_iff_lt, lt_div_iff₀ gxq, mul_comm E.X_MAX_POS, mul_lt_mul_right hx]
    exact_mod_cast Iff.rfl
  have wrapy : ((s.m.GPos_Y + 1 : Int) : ℚ) * E.Y_MAX_POS / (s.m.GCal_Y : ℚ) > E.Y_MAX_POS
      ↔ s.m.GCal_Y < s.m.GPos_Y + 1 := by
    rw [gt_iff_lt, lt_div_iff₀ gyq, mul_comm E.Y_MAX_POS, mul_lt_mul_right hy]
    exact_mod_cast Iff.rfl
  unfold next_point
  dsimp only
  by_cases h1 : s.m.GCal_X < s.m.GPos_X + 1
  · rw [if_pos (wrapx.mpr h1)]
    by_cases h2 : s.m.GCal_Y < s.m.GPos_Y + 1
    · rw [if_pos (wrapy.mpr h2)]
      exact ⟨gx, gy, le_refl _, le_of_lt gx, le_refl _, le_of_lt gy⟩
    · rw [if_neg (fun hh => h2 (wrapy.mp hh))]
      refine ⟨gx, gy, le_refl _, le_of_lt gx, ?_, ?_⟩
      · show 0 ≤ s.m.GPos_Y + 1
        omega
      · show s.m.GPos_Y + 1 ≤ s.m.GCal_Y
        omega
  · rw [if_neg (fun hh => h1 (wrapx.mp hh))]
    refine ⟨gx, gy, ?_, ?_, py0, py1⟩
    · show 0 ≤ s.m.GPos_X + 1
      omega
    · show s.m.GPos_X + 1 ≤ s.m.GCal_X
      omega

theorem OnGrid_of_grid (s a : State) (h : grid_of a = grid_of s) (hs : OnGrid s) : OnGrid a := by
  unfold grid_of at h
  simp only [Prod.mk.injEq] at h
  obtain ⟨h1, h2, h3, h4⟩ := h
  unfold OnGrid
  rw [h1, h2, h3, h4]
  exact hs

theorem gcode_M371_grid (E : Env) (hx : 0 < E.X_MAX_POS) (hy : 0 < E.Y_MAX_POS) (s a : State)
    (h : gcode_M371 E s = some a) (hs : OnGrid s) : OnGrid a := by
  unfold gcode_M371 at h
  split at h
  · split at h
    · cases h
    · exact OnGrid_of_grid _ _ (ZCal_grid E _ a h) (next_point_grid E hx hy s hs)
  · simp only [Option.some.injEq] at h
    rw [← h]
    exact hs

theorem gcode_M372_grid (E : Env) (hx : 0 < E.X_MAX_POS) (hy : 0 < E.Y_MAX_POS) (s a : State)
    (h : gcode_M372 E s = some a) (hs : OnGrid s) : OnGrid a := by
  unfold gcode_M372 at h
  split at h
  · split at h
    · cases h
    · exact gcode_M371_grid E hx hy _ a h hs
  · exact gcode_M371_grid E hx hy _ a h hs

theorem gcode_M370_origin (E : Env) (home : List Event) (s a : State)
    (h : gcode_M370 E home s = some a) : a.m.GPos_X = 0 ∧ a.m.GPos_Y = 0 := by
  unfold gcode_M370 at h
  dsimp only at h
  split at h
  · cases h
  · split at h
    · have hg := ZCal_grid E _ a h
      unfold grid_of at hg
      simp only [Prod.mk.injEq] at hg
      exact ⟨hg.2.2.1, hg.2.2.2⟩
    · have hg := ZCal_grid E _ a h
      unfold grid_of at hg
      simp only [Prod.mk.injEq] at hg
      exact ⟨hg.2.2.1, hg.2.2.2⟩

theorem GridStep_grid (E : Env) (hx : 0 < E.X_MAX_POS) (hy : 0 < E.Y_MAX_POS) (s a : State)
    (h : GridStep E s a) (hs : OnGrid s) : OnGrid a := by
  cases h with
  | m370 home h gx gy =>
    obtain ⟨h1, h2⟩ := gcode_M370_origin E home s a h
    unfold OnGrid
    rw [h1, h2]
    exact ⟨gx, gy, le_refl _, le_of_lt gx, le_refl _, le_of_lt gy⟩
  | m371 h => exact gcode_M371_grid E hx hy s a h hs
  | m372 h => exact gcode_M372_grid E hx hy s a h hs

/-- C26 (as stated, refuted): after `M370` on the initial grid of three divisions a side,
three commands `M371` bring `GPos_X` to 3, which equals `GCal_X`: the step to the next row is
taken only when `GPos_X * X_MAX_POS / GCal_X` exceeds `X_MAX_POS`, that is when `GPos_X`
exceeds `GCal_X`. -/
theorem C26_counterexample :
    grid_of gridLine = (3, 3, 0, 0) ∧
    ((((gcode_M370 stdEnv [] gridLine).bind (gcode_M371 stdEnv)).bind
      (gcode_M371 stdEnv)).bind (gcode_M371 stdEnv)).map grid_of = some (3, 3, 3, 0) := by
  decide!

/-- C26 (amended): with positive `X_MAX_POS` and `Y_MAX_POS`, every state reached by the
calibration commands `M370` (leaving at least one cell a side), `M371` and `M372` from a
state whose indices are on the grid has `0 <= GPos_X <= GCal_X` and `0 <= GPos_Y <= GCal_Y`,
with `GCal_X` and `GCal_Y` positive. -/
theorem C26_indices (E : Env) (hx : 0 < E.X_MAX_POS) (hy : 0 < E.Y_MAX_POS) (s a : State)
    (hs : OnGrid s) (h : Relation.ReflTransGen (GridStep E) s a) :
    0 < a.m.GCal_X ∧ 0 < a.m.GCal_Y ∧
    0 ≤ a.m.GPos_X ∧ a.m.GPos_X ≤ a.m.GCal_X ∧ 0 ≤ a.m.GPos_Y ∧ a.m.GPos_Y ≤ a.m.GCal_Y := by
  induction h with
  | refl => exact hs
  | tail _ hstep ih => exact GridStep_grid E hx hy _ _ hstep ih

theorem gridLine_chain :
    ((gcode_M370 stdEnv [] gridLine).bind (gcode_M371 stdEnv)).map grid_of
      = some (3, 3, 1, 0) ∧
    (gcode_M370 stdEnv [] gridLine).map grid_of = some (3, 3, 0, 0) ∧
    OnGrid gridLine := by
  refine ⟨by decide!, by decide!, ?_⟩
  unfold OnGrid
  decide

/-- C26, witness: `M370` on the initial state followed by `M371` returns with `GPos_X` = 1
on the grid of three cells a side. -/
theorem C26_witness :
    ∃ a0 a1, gcode_M370 stdEnv [] gridLine = some a0 ∧ gcode_M371 stdEnv a0 = some a1 ∧
      grid_of a1 = (3, 3, 1, 0) ∧
      0 < a1.m.GCal_X ∧ 0 < a1.m.GCal_Y ∧
      0 ≤ a1.m.GPos_X ∧ a1.m.GPos_X ≤ a1.m.GCal_X ∧ 0 ≤ a1.m.GPos_Y ∧
      a1.m.GPos_Y ≤ a1.m.GCal_Y := by
  obtain ⟨h1, h0, hg⟩ := gridLine_chain
  cases e0 : gcode_M370 stdEnv [] gridLine with
  | none =>
    rw [e0] at h0
    cases h0
  | some a0 =>
    rw [e0] at h0 h1
    simp only [Option.map_some', Option.some.injEq, Option.some_bind] at h0 h1
    cases e1 : gcode_M371 stdEnv a0 with
    | none =>
      rw [e1] at h1
      cases h1
    | some a1 =>
      rw [e1] at h1
      simp only [Option.map_some', Option.some.injEq] at h1
      have g0 : 0 < a0.m.GCal_X ∧ 0 < a0.m.GCal_Y := by
        unfold grid_of at h0
        simp only [Prod.mk.injEq] at h0
        rw [h0.1, h0.2.1]
        decide
      exact ⟨a0, a1, rfl, e1, h1, C26_indices stdEnv (by decide!) (by decide!) gridLine a1 hg
        ((Relation.ReflTransGen.single (GridStep.m370 gridLine a0 [] e0 g0.1 g0.2)).tail
          (GridStep.m371 a0 a1 e1))⟩

/-- C30 (what the code does): `ZCalMoveIntoToPosition` targets
`X = GPos_X * X_MAX_POS / GCal_X + 1` and `Y = GPos_Y * Y_MAX_POS / GCal_X + 1`: the Y
coordinate is divided by `GCal_X`, not `GCal_Y`. On a grid of four cells on X and two on Y
at the grid point (0, 1), with a bed of 200 by 200, the Y target is 51 where
`GPos_Y * Y_MAX_POS / GCal_Y + 1` is 101, the move ends at Y = 51, and the cell of
`Arm_lookup` then indexed is [0][0], not [0][1]. -/
theorem C30_target :
    (∀ (E : Env) (s : State),
      (ZCal_target E s).m.destination 0 = s.m.GPos_X * E.X_MAX_POS / s.m.GCal_X + 1 ∧
      (ZCal_target E s).m.destination 1 = s.m.GPos_Y * E.Y_MAX_POS / s.m.GCal_X + 1) ∧
    grid_of unevenGrid = (4, 2, 0, 1) ∧
    (ZCal_target stdEnv unevenGrid).m.destination 1 = 51 ∧
    (unevenGrid.m.GPos_Y : ℚ) * stdEnv.Y_MAX_POS / unevenGrid.m.GCal_Y + 1 = 101 ∧
    (prepare_move stdEnv (ZCal_target stdEnv unevenGrid)).m.current_position 1 = 51 ∧
    cal_cell stdEnv (prepare_move stdEnv (ZCal_target stdEnv unevenGrid)).m = (0, 0) ∧
    (ZCalMoveIntoToPosition stdEnv unevenGrid).map (fun a => cal_cell stdEnv a.m)
      = some (0, 0) := by
  refine ⟨ZCal_target_destination, by decide, by decide!, by decide!, by decide!, by decide!,
    by decide!⟩

/-! ## The angle limits of calculate_delta on floats -/

theorem nan_lt_some {α : Type} [LinearOrderedField α] (x y : α) :
    nan_lt (some x) (some y) = true ↔ x < y := by
  unfold nan_lt
  simp

theorem nan_lt_none_left {α : Type} [LinearOrderedField α] (b : Option α) :
    nan_lt none b = false := by
  cases b <;> rfl

theorem nan_lt_none_right {α : Type} [LinearOrderedField α] (a : Option α) :
    nan_lt a none = false := by
  cases a <;> rfl

theorem limit_float_theta {α : Type} [LinearOrderedField α] (a : Option α × Option α) :
    (limit_angles_float a).1.1 = a.1.map (fun v => min MAX_THETA (max MIN_THETA v)) := by
  unfold limit_angles_float
  dsimp only
  cases h : a.1 with
  | none => simp [nan_lt_none_left, nan_lt_none_right]
  | some t =>
    by_cases hc : nan_lt (some MAX_THETA) (some t) = true ∨ nan_lt (some t) (some MIN_THETA) = true
    · rw [if_pos hc]
    · rw [if_neg hc]
      rw [nan_lt_some, nan_lt_some] at hc
      obtain ⟨h1, h2⟩ := not_or.mp hc
      simp only [Option.map_some']
      rw [max_eq_right (not_lt.mp h2), min_eq_right (not_lt.mp h1)]

theorem limit_float_psi {α : Type} [LinearOrderedField α] (a : Option α × Option α) :
    (limit_angles_float a).1.2 = a.2.map (fun v => min MAX_PSI (max MIN_PSI v)) := by
  unfold limit_angles_float
  dsimp only
  cases h : a.2 with
  | none => simp [nan_lt_none_left, nan_lt_none_right]
  | some t =>
    by_cases hc : nan_lt (some MAX_PSI) (some t) = true ∨ nan_lt (some t) (some MIN_PSI) = true
    · rw [if_pos hc]
    · rw [if_neg hc]
      rw [nan_lt_some, nan_lt_some] at hc
      obtain ⟨h1, h2⟩ := not_or.mp hc
      simp only [Option.map_some']
      rw [max_eq_right (not_lt.mp h2), min_eq_right (not_lt.mp h1)]

theorem calculate_delta_float_x {α : Type} [LinearOrderedField α] (fl : α → α) (L : Libm α)
    (K : Scara α) (add_homeing : Nat → α) ( Y_gridcal : Bool) (bed : Option α)
    (cartesian : Nat → α) :
    (calculate_delta_float fl L K add_homeing Y_gridcal bed cartesian).x
      = (widen_float fl (raw_angles_float fl L K add_homeing cartesian)).1.1.map
          (fun v => min MAX_THETA (max MIN_THETA v)) := by
  unfold calculate_delta_float
  dsimp only
  rw [limit_float_theta]

theorem calculate_delta_float_y {α : Type} [LinearOrderedField α] (fl : α → α) (L : Libm α)
    (K : Scara α) (add_homeing : Nat → α) ( Y_gridcal : Bool) (bed : Option α)
    (cartesian : Nat → α) :
    (calculate_delta_float fl L K add_homeing Y_gridcal bed cartesian).y
      = (widen_float fl (raw_angles_float fl L K add_homeing cartesian)).1.2.map
          (fun v => min MAX_PSI (max MIN_PSI v)) := by
  unfold calculate_delta_float
  dsimp only
  rw [limit_float_psi]

/-- With exact arithmetic the widening of two numbers is that of `widen`. -/
theorem widen_float_exact {α : Type} [LinearOrderedField α] (theta psi : α) :
    widen_float (fun v => v) (some theta, some psi)
      = ((some (widen (theta, psi)).1.1, some (widen (theta, psi)).1.2),
          (widen (theta, psi)).2) := by
  unfold widen_float widen nan_lt nan_sub nan_add
  dsimp only
  by_cases h : psi - theta < SMALLEST_DIFFERENCE_ANGLE
  · by_cases h1 : theta + SMALLEST_DIFFERENCE_ANGLE < MAX_PSI
    · simp [h, h1]
    · by_cases h2 : psi - SMALLEST_DIFFERENCE_ANGLE > MIN_THETA
      · have h2' : MIN_THETA < psi - SMALLEST_DIFFERENCE_ANGLE := h2
        simp [h, h1, h2']
      · have h2' : ¬ MIN_THETA < psi - SMALLEST_DIFFERENCE_ANGLE := h2
        simp [h, h1, h2']
  · simp [h]

/-- The clamping of two numbers is that of `limit_angles`. -/
theorem limit_float_exact {α : Type} [LinearOrderedField α] (theta psi : α) :
    (limit_angles_float (some theta, some psi)).1
      = (some (limit_angles (theta, psi)).1.1, some (limit_angles (theta, psi)).1.2) := by
  apply Prod.ext
  · rw [limit_float_theta, limit_angles_theta]
    rfl
  · rw [limit_float_psi, limit_angles_psi]
    rfl

/-- C25 (as stated, refuted): in binary32 arithmetic, with the arm of four links of 150 and
the shoulder at (100, -56), the point (500, -56) is 400 from the shoulder, beyond the reach
of 300. The argument of `acos` is 4/3 (rounded), both `acos` calls return NaN, no comparison
of the widening and of the clamping holds, and `calculate_delta` outputs NaN for both
angles. -/
theorem C25_counterexample :
    floatEnv.fl (floatEnv.fl (floatEnv.fl (floatEnv.fl (sqr 150) - floatEnv.fl (sqr 150))
        - 160000) / floatEnv.fl (floatEnv.fl (-2 * 150) * 400)) = 11184811 / 8388608 ∧
    raw_angles_float floatEnv.fl floatEnv.libm floatEnv.scara (fun _ => 0) (point 500 (-56))
      = (none, none) ∧
    (calculate_delta_float floatEnv.fl floatEnv.libm floatEnv.scara (fun _ => 0) true none
      (point 500 (-56))).x = none ∧
    (calculate_delta_float floatEnv.fl floatEnv.libm floatEnv.scara (fun _ => 0) true none
      (point 500 (-56))).y = none := by
  decide!

/-- C25 (amended): each angle that `calculate_delta` outputs is its own value after the
separation correction, clamped into its range when that value is a number and NaN when it
is NaN (the clamp of theta does not read psi, and the other way round). An output that is a
number lies in [MIN_THETA, MAX_THETA], or [MIN_PSI, MAX_PSI], and a number inside its range
is output unchanged. -/
theorem C25_limits {α : Type} [LinearOrderedField α] (fl : α → α) (L : Libm α) (K : Scara α)
    (add_homeing : Nat → α) ( Y_gridcal : Bool) (bed : Option α) (cartesian : Nat → α) :
    (∀ a : Option α × Option α, (limit_angles_float a).1
      = (a.1.map (fun v => min MAX_THETA (max MIN_THETA v)),
         a.2.map (fun v => min MAX_PSI (max MIN_PSI v)))) ∧
    (calculate_delta_float fl L K add_homeing Y_gridcal bed cartesian).x
      = (limit_angles_float
          (widen_float fl (raw_angles_float fl L K add_homeing cartesian)).1).1.1 ∧
    (calculate_delta_float fl L K add_homeing Y_gridcal bed cartesian).y
      = (limit_angles_float
          (widen_float fl (raw_angles_float fl L K add_homeing cartesian)).1).1.2 ∧
    (∀ t, (widen_float fl (raw_angles_float fl L K add_homeing cartesian)).1.1 = some t →
      ∃ x, (calculate_delta_float fl L K add_homeing Y_gridcal bed cartesian).x = some x ∧
        MIN_THETA ≤ x ∧ x ≤ MAX_THETA ∧ (MIN_THETA ≤ t → t ≤ MAX_THETA → x = t)) ∧
    (∀ p, (widen_float fl (raw_angles_float fl L K add_homeing cartesian)).1.2 = some p →
      ∃ y, (calculate_delta_float fl L K add_homeing Y_gridcal bed cartesian).y = some y ∧
        MIN_PSI ≤ y ∧ y ≤ MAX_PSI ∧ (MIN_PSI ≤ p → p ≤ MAX_PSI → y = p)) ∧
    ((widen_float fl (raw_angles_float fl L K add_homeing cartesian)).1.1 = none →
      (calculate_delta_float fl L K add_homeing Y_gridcal bed cartesian).x = none) ∧
    ((widen_float fl (raw_angles_float fl L K add_homeing cartesian)).1.2 = none →
      (calculate_delta_float fl L K add_homeing Y_gridcal bed cartesian).y = none) := by
  refine ⟨fun a => ?_, rfl, rfl, fun t ht => ?_, fun p hp => ?_, fun h => ?_, fun h => ?_⟩
  · apply Prod.ext
    · exact limit_float_theta a
    · exact limit_float_psi a
  · refine ⟨min MAX_THETA (max MIN_THETA t), ?_, ?_, ?_, ?_⟩
    · rw [calculate_delta_float_x, ht]
      rfl
    · exact le_min theta_range (le_max_left _ _)
    · exact min_le_left _ _
    · intro h1 h2
      rw [max_eq_right h1, min_eq_right h2]
  · refine ⟨min MAX_PSI (max MIN_PSI p), ?_, ?_, ?_, ?_⟩
    · rw [calculate_delta_float_y, hp]
      rfl
    · exact le_min psi_range (le_max_left _ _)
    · exact min_le_left _ _
    · intro h1 h2
      rw [max_eq_right h1, min_eq_right h2]
  · rw [calculate_delta_float_x, h]
    rfl
  · rw [calculate_delta_float_y, h]
    rfl

/-! ## The separation of the angles on floats -/

/-- A rounding that is exact on the integers from -64 to 512 fixes each of them. -/
theorem fl_int {α : Type} [LinearOrderedField α] (fl : α → α)
    (hint : ∀ n : Int, -64 ≤ n → n ≤ 512 → fl (n : α) = (n : α)) (n : Int) (h1 : -64 ≤ n)
    (h2 : n ≤ 512) (v : α) (hv : v = (n : α)) : fl v = v := by
  rw [hv]
  exact hint n h1 h2

/-- After the widening of two numbers, when theta is at least `MIN_THETA`, psi is more than
29 above theta, or theta is at least `MAX_THETA` and psi at least `MAX_PSI`. -/
theorem widen_float_separation {α : Type} [LinearOrderedField α] [FloorRing α] (fl : α → α)
    (hmono : Monotone fl) (hint : ∀ n : Int, -64 ≤ n → n ≤ 512 → fl (n : α) = (n : α))
    (theta psi : α) :
    ∃ t p, (widen_float fl (some theta, some psi)).1 = (some t, some p) ∧
      (MIN_THETA ≤ t → 29 < p - t ∨ (MAX_THETA ≤ t ∧ MAX_PSI ≤ p)) := by
  have e29 : fl (29 : α) = 29 := fl_int fl hint 29 (by norm_num) (by norm_num) _ (by norm_num)
  have e245 : fl (245 : α) = 245 :=
    fl_int fl hint 245 (by norm_num) (by norm_num) _ (by norm_num)
  have e180 : fl (180 : α) = 180 :=
    fl_int fl hint 180 (by norm_num) (by norm_num) _ (by norm_num)
  have e512 : fl (512 : α) = 512 :=
    fl_int fl hint 512 (by norm_num) (by norm_num) _ (by norm_num)
  have em51 : fl (-51 : α) = -51 :=
    fl_int fl hint (-51) (by norm_num) (by norm_num) _ (by norm_num)
  unfold widen_float nan_sub nan_add
  dsimp only
  simp only [nan_lt_some]
  unfold SMALLEST_DIFFERENCE_ANGLE MAX_PSI MIN_THETA MAX_THETA
  by_cases h : fl (psi - theta) < 30
  · rw [if_pos h]
    by_cases h1 : fl (theta + 30) < 245
    · rw [if_pos h1]
      refine ⟨theta, fl (theta + 30), rfl, fun ht => Or.inl ?_⟩
      have hlt : theta + 30 < 245 := by
        by_contra hc
        have := hmono (not_lt.mp hc)
        rw [e245] at this
        exact absurd h1 (not_lt.mpr this)
      have hn1 : -64 ≤ Int.floor (theta + 30) := by
        apply Int.le_floor.mpr
        push_cast
        linarith
      have hn2 : Int.floor (theta + 30) ≤ 512 := by
        have : Int.floor (theta + 30) < 245 := by
          apply Int.floor_lt.mpr
          push_cast
          exact hlt
        omega
      have hfl := hmono (Int.floor_le (theta + 30))
      rw [hint _ hn1 hn2] at hfl
      have hgt := Int.lt_floor_add_one (theta + 30)
      linarith
    · rw [if_neg h1]
      by_cases h2 : (-50 : α) < fl (psi - 30)
      · rw [if_pos h2]
        refine ⟨fl (psi - 30), psi, rfl, fun _ => ?_⟩
        have hlo : -51 < psi - 30 := by
          by_contra hc
          have := hmono (not_lt.mp hc)
          rw [em51] at this
          linarith
        by_cases hbig : psi - 30 ≤ 512
        · left
          have hn1 : -64 ≤ Int.ceil (psi - 30) := by
            have : (-51 : Int) < Int.ceil (psi - 30) := by
              apply Int.lt_ceil.mpr
              push_cast
              exact hlo
            omega
          have hn2 : Int.ceil (psi - 30) ≤ 512 := by
            apply Int.ceil_le.mpr
            push_cast
            exact hbig
          have hfl := hmono (Int.le_ceil (psi - 30))
          rw [hint _ hn1 hn2] at hfl
          have hlt := Int.ceil_lt_add_one (psi - 30)
          linarith
        · right
          have hb : (512 : α) ≤ psi - 30 := le_of_lt (not_le.mp hbig)
          have := hmono hb
          rw [e512] at this
          constructor
          · linarith
          · linarith
      · rw [if_neg h2]
        refine ⟨150, fl (150 + 30), rfl, fun _ => Or.inl ?_⟩
        have e : (150 : α) + 30 = 180 := by norm_num
        rw [e, e180]
        norm_num
  · rw [if_neg h]
    refine ⟨theta, psi, rfl, fun _ => Or.inl ?_⟩
    by_contra hc
    have hle : psi - theta ≤ 29 := not_lt.mp hc
    have := hmono hle
    rw [e29] at this
    have h30 : (30 : α) ≤ fl (psi - theta) := not_lt.mp h
    linarith

/-- The separation that the clamping of two numbers leaves. -/
theorem clamp_separation {α : Type} [LinearOrderedField α] (t p : α)
    (h : MIN_THETA ≤ t → 29 < p - t ∨ (MAX_THETA ≤ t ∧ MAX_PSI ≤ p)) :
    MIN_PSI - MIN_THETA
      ≤ min MAX_PSI (max MIN_PSI p) - min MAX_THETA (max MIN_THETA t) ∧
    (MIN_THETA ≤ t →
      29 < min MAX_PSI (max MIN_PSI p) - min MAX_THETA (max MIN_THETA t)) := by
  unfold MIN_THETA MAX_THETA MAX_PSI at h
  unfold MIN_THETA MAX_THETA MIN_PSI MAX_PSI
  have key : (-50 : α) ≤ t →
      29 < min (245 : α) (max (-30) p) - min (150 : α) (max (-50) t) := by
    intro ht
    rw [max_eq_right ht]
    rcases h ht with h1 | ⟨h2, h3⟩
    · have hp : (-30 : α) ≤ p := by linarith
      rw [max_eq_right hp]
      rcases le_total (245 : α) p with hq | hq
      · rw [min_eq_left hq]
        have := min_le_left (150 : α) t
        linarith
      · rw [min_eq_right hq]
        have := min_le_right (150 : α) t
        linarith
    · have hp : (-30 : α) ≤ p := by linarith
      rw [max_eq_right hp, min_eq_left h3, min_eq_left h2]
      norm_num
  constructor
  · rcases le_total (-50 : α) t with ht | ht
    · have := key ht
      linarith
    · rw [max_eq_left ht]
      have h150 : min (150 : α) (-50) = -50 := min_eq_right (by norm_num)
      rw [h150]
      have : (-30 : α) ≤ min 245 (max (-30) p) := le_min (by norm_num) (le_max_left _ _)
      linarith
  · exact key

/-- The separation that the clamping leaves of a separation of `SMALLEST_DIFFERENCE_ANGLE`
when theta is at least `MIN_THETA`. -/
theorem clamp_separation_exact {α : Type} [LinearOrderedField α] (t p : α)
    (h : SMALLEST_DIFFERENCE_ANGLE ≤ p - t) (ht : MIN_THETA ≤ t) :
    SMALLEST_DIFFERENCE_ANGLE
      ≤ min MAX_PSI (max MIN_PSI p) - min MAX_THETA (max MIN_THETA t) := by
  unfold SMALLEST_DIFFERENCE_ANGLE at h ⊢
  unfold MIN_THETA at ht
  unfold MIN_THETA MAX_THETA MIN_PSI MAX_PSI
  rw [max_eq_right ht]
  have hp : (-30 : α) ≤ p := by linarith
  rw [max_eq_right hp]
  rcases le_total (245 : α) p with h1 | h1
  · rw [min_eq_left h1]
    have := min_le_left (150 : α) t
    linarith
  · rw [min_eq_right h1]
    have := min_le_right (150 : α) t
    linarith

/-- C29 (amended): for every Cartesian input for which the two angles that `calculate_delta`
computes are numbers, whatever the float format, provided its rounding is monotone and
exact on the integers from -64 to 512, the angles it outputs are numbers with
psi - theta >= `MIN_PSI - MIN_THETA`, which is 20, and with psi - theta > 29 when theta after
the separation correction is at least `MIN_THETA`; in exact arithmetic psi - theta is then at
least `SMALLEST_DIFFERENCE_ANGLE`, which is 30. -/
theorem C29_separation {α : Type} [LinearOrderedField α] [FloorRing α] (fl : α → α)
    (hmono : Monotone fl) (hint : ∀ n : Int, -64 ≤ n → n ≤ 512 → fl (n : α) = (n : α))
    (L : Libm α) (K : Scara α) (add_homeing : Nat → α) ( Y_gridcal : Bool) (bed : Option α)
    (cartesian : Nat → α) (theta psi : α)
    (hraw : raw_angles_float fl L K add_homeing cartesian = (some theta, some psi)) :
    ∃ t p x y,
      (widen_float fl (raw_angles_float fl L K add_homeing cartesian)).1 = (some t, some p) ∧
      (calculate_delta_float fl L K add_homeing Y_gridcal bed cartesian).x = some x ∧
      (calculate_delta_float fl L K add_homeing Y_gridcal bed cartesian).y = some y ∧
      MIN_PSI - MIN_THETA ≤ y - x ∧
      (MIN_THETA ≤ t → 29 < y - x) ∧
      ((∀ v, fl v = v) → MIN_THETA ≤ t → SMALLEST_DIFFERENCE_ANGLE ≤ y - x) := by
  obtain ⟨t, p, hw, hsep⟩ := widen_float_separation fl hmono hint theta psi
  have hc := clamp_separation t p hsep
  refine ⟨t, p, min MAX_THETA (max MIN_THETA t), min MAX_PSI (max MIN_PSI p), ?_, ?_, ?_,
    hc.1, hc.2, ?_⟩
  · rw [hraw]
    exact hw
  · rw [calculate_delta_float_x, hraw, hw]
    rfl
  · rw [calculate_delta_float_y, hraw, hw]
    rfl
  · intro hexact ht
    have hfl : fl = fun v => v := funext hexact
    rw [hfl, widen_float_exact] at hw
    have h1 : (widen (theta, psi)).1.1 = t := Option.some.inj (congrArg Prod.fst hw)
    have h2 : (widen (theta, psi)).1.2 = p := Option.some.inj (congrArg Prod.snd hw)
    have h3 := widen_separation (theta, psi)
    rw [h1, h2] at h3
    exact clamp_separation_exact t p h3 ht

/-- In binary32 the widening can leave less than 30 degrees: for theta = 100 + 2^-17 and
psi = 110 the sum theta + 30 rounds to 130, which is 30 - 2^-17 above theta. -/
theorem widen_float_below_30 :
    (widen_float fl32 (some (13107201 / 131072 : ℚ), some (110 : ℚ))).1
      = (some (13107201 / 131072), some 130) ∧
    fl32 (13107201 / 131072) = 13107201 / 131072 ∧
    (130 : ℚ) - 13107201 / 131072 < SMALLEST_DIFFERENCE_ANGLE := by
  decide!

/-- C29 (witness): in binary32, whose rounding is monotone and exact on the integers from -64
to 512, with the arm of `floatEnv`, no home offset and the point (100, 240) the computed
angles are numbers, and the angles output are more than 29 apart. -/
theorem C29_witness :
    Monotone fl32 ∧
    (∀ n : Int, -64 ≤ n → n ≤ 512 → fl32 (n : ℚ) = (n : ℚ)) ∧
    raw_angles_float fl32 floatEnv.libm floatEnv.scara (fun _ => 0) (point 100 240)
      = (some (8611985 / 131072), some (14980977 / 131072)) ∧
    ∃ t p x y,
      (widen_float fl32
        (raw_angles_float fl32 floatEnv.libm floatEnv.scara (fun _ => 0) (point 100 240))).1
        = (some t, some p) ∧
      (calculate_delta_float fl32 floatEnv.libm floatEnv.scara (fun _ => 0) false none
        (point 100 240)).x = some x ∧
      (calculate_delta_float fl32 floatEnv.libm floatEnv.scara (fun _ => 0) false none
        (point 100 240)).y = some y ∧
      MIN_PSI - MIN_THETA ≤ y - x ∧
      (MIN_THETA ≤ t → 29 < y - x) ∧
      ((∀ v, fl32 v = v) → MIN_THETA ≤ t → SMALLEST_DIFFERENCE_ANGLE ≤ y - x) :=
  ⟨fl32_mono, fl32_int, by decide!,
    C29_separation fl32 fl32_mono fl32_int floatEnv.libm floatEnv.scara (fun _ => 0) false none
      (point 100 240) (8611985 / 131072) (14980977 / 131072) (by decide!)⟩

/-- With exact arithmetic, angles that `raw_angles_float` computes as numbers are those of
`raw_angles`. -/
theorem raw_angles_float_exact {α : Type} [LinearOrderedField α] (L : Libm α) (K : Scara α)
    (add_homeing : Nat → α) (cartesian : Nat → α) (theta psi : α)
    (h : raw_angles_float (fun v => v) L K add_homeing cartesian = (some theta, some psi)) :
    raw_angles L K add_homeing cartesian = (theta, psi) := by
  unfold raw_angles_float nan_acos nan_sub nan_mul nan_add at h
  unfold raw_angles
  dsimp only at h ⊢
  split_ifs at h <;> simp_all

/-- The clamping of two numbers and its report are those of `limit_angles`. -/
theorem limit_float_echo {α : Type} [LinearOrderedField α] (theta psi : α) :
    (limit_angles_float (some theta, some psi)).2 = (limit_angles (theta, psi)).2 := by
  unfold limit_angles_float limit_angles
  simp only [nan_lt_some, decide_eq_true_eq]
  by_cases h1 : MAX_THETA < theta ∨ theta < MIN_THETA
  · by_cases h2 : MAX_PSI < psi ∨ psi < MIN_PSI
    · have h1b : theta > MAX_THETA ∨ theta < MIN_THETA := h1
      have h2b : psi > MAX_PSI ∨ psi < MIN_PSI := h2
      rw [if_pos h1, if_pos h2, if_pos h1b, if_pos h2b]
    · have h1b : theta > MAX_THETA ∨ theta < MIN_THETA := h1
      have h2b : ¬ (psi > MAX_PSI ∨ psi < MIN_PSI) := h2
      rw [if_pos h1, if_neg h2, if_pos h1b, if_neg h2b]
  · by_cases h2 : MAX_PSI < psi ∨ psi < MIN_PSI
    · have h1b : ¬ (theta > MAX_THETA ∨ theta < MIN_THETA) := h1
      have h2b : psi > MAX_PSI ∨ psi < MIN_PSI := h2
      rw [if_neg h1, if_pos h2, if_neg h1b, if_pos h2b]
    · have h1b : ¬ (theta > MAX_THETA ∨ theta < MIN_THETA) := h1
      have h2b : ¬ (psi > MAX_PSI ∨ psi < MIN_PSI) := h2
      rw [if_neg h1, if_neg h2, if_neg h1b, if_neg h2b]

/-- With exact arithmetic and computed angles that are numbers, `calculate_delta_float` is
`calculate_delta`. -/
theorem calculate_delta_float_exact {α : Type} [LinearOrderedField α] (L : Libm α)
    (K : Scara α) (add_homeing : Nat → α) ( Y_gridcal : Bool) (bed : Option α)
    (cartesian : Nat → α) (theta psi : α)
    (h : raw_angles_float (fun v => v) L K add_homeing cartesian = (some theta, some psi)) :
    (calculate_delta_float (fun v => v) L K add_homeing Y_gridcal bed cartesian).x
      = some (calculate_delta L K add_homeing Y_gridcal bed cartesian).x ∧
    (calculate_delta_float (fun v => v) L K add_homeing Y_gridcal bed cartesian).y
      = some (calculate_delta L K add_homeing Y_gridcal bed cartesian).y ∧
    (calculate_delta_float (fun v => v) L K add_homeing Y_gridcal bed cartesian).z
      = (calculate_delta L K add_homeing Y_gridcal bed cartesian).z ∧
    (calculate_delta_float (fun v => v) L K add_homeing Y_gridcal bed cartesian).echo
      = (calculate_delta L K add_homeing Y_gridcal bed cartesian).echo := by
  have hr := raw_angles_float_exact L K add_homeing cartesian theta psi h
  unfold calculate_delta_float calculate_delta
  dsimp only
  rw [h, hr, widen_float_exact, limit_float_exact]
  refine ⟨rfl, rfl, rfl, ?_⟩
  rw [limit_float_echo]

/-- In binary32, with the stand-ins of `floatLibm`, the arm of `floatEnv` and no home offset,
the point (100, -206) has the computed angles -150.16... and -29.84...; nothing is widened,
theta is raised to `MIN_THETA`, and the angles output are 20.16... apart. -/
theorem clamp_below_30_float :
    raw_angles_float fl32 floatEnv.libm floatEnv.scara (fun _ => 0) (point 100 (-206))
      = (some (-9840785 / 65536), some (-15645569 / 524288)) ∧
    (calculate_delta_float fl32 floatEnv.libm floatEnv.scara (fun _ => 0) true none
      (point 100 (-206))).x = some (-50) ∧
    (calculate_delta_float fl32 floatEnv.libm floatEnv.scara (fun _ => 0) true none
      (point 100 (-206))).y = some (-15645569 / 524288) ∧
    (-15645569 / 524288 : ℚ) - (-50) < SMALLEST_DIFFERENCE_ANGLE := by
  decide!

end Marlin
